import Mathlib

/-! # BouncingBallSim: the physics core of `SFML_test/Main.cpp`

A shallow embedding of the per-tick state update of the bouncing-ball simulator:
`ball::collide_ball`, `ball::collide_wall`, `ball::update` and the tick loop of `main`.

Numbers.  Two models of the C++ `float` are used.

* Exact arithmetic.  `float` is an arbitrary linear ordered field `K` (no rounding, no
  overflow).  Every definition is generic in `K`, so it runs on `ℚ` and specialises to
  `ℝ`.  The library function `sqrt` of `<math.h>` is a parameter of the definitions
  that call it; `IsSqrt` is its contract.  The theorems about all inputs are proved in
  this model.
* Binary floating point.  `collide_ball_fl` and `update_fl` are the same code with a
  rounding after every operation.  On `ℚ`, with the roundings of IEEE-754 (`fl32`,
  `fl64`, `sqrt32`, `sqrt64`, proved correct in `round_to_spec` and `sqrt_to_spec`),
  they compute what the program computes at a given input, and they are evaluated
  where the program departs from exact arithmetic.  With the identity as rounding
  they are the exact definitions (`collide_ball_fl_id`, `update_fl_id`).

Division.  A `float` division never traps: a zero divisor produces NaN or ±Inf, and
in the functions modelled here such a value, once produced on a path that is written
back, reaches the ball state (no quotient is ever used as a divisor).  `fdiv` makes
this explicit: it returns `none` for a zero divisor, and a function returns `none`
exactly when it would store a non-finite value into the state.  Divisions by the
non-zero literal `2` and by the non-zero constant `SCALE` are plain divisions.

Not modelled: the SFML shape, drawing, fonts, the clock, and the unused members
`physical::x, y, xdot, ydot` and `ball::collide`.
-/

namespace BouncingBallSim

/-! ## Data model -/

/-- The pair of coordinates `sf::Vector2f`. -/
@[ext]
structure Vector2f (K : Type) where
  x : K
  y : K
deriving DecidableEq, Repr

/-- The pair of integer coordinates `sf::Vector2i` (the pointer position). -/
structure Vector2i where
  x : Int
  y : Int
deriving DecidableEq, Repr

/-- The physical state of `class ball`: position `z`, velocity `zdot`, `radius`
and the kinetic energy `KE` stored by `update`. -/
structure ball (K : Type) where
  z : Vector2f K
  zdot : Vector2f K
  radius : K
  KE : K
deriving DecidableEq, Repr

/-- Size of the square window in pixels: `int WINDOW_SIZE = 600`. -/
def WINDOW_SIZE : Int := 600

/-- Constant `physical::PIXEL_PER_METER`. -/
def PIXEL_PER_METER : Int := 6671

/-- Constant `physical::ZOOM`. -/
def ZOOM : Int := 30

section
variable {K : Type} [LinearOrderedField K]

/-- Constant `physical::G`, the acceleration of gravity. -/
def G : K := 1

/-- Constant `physical::SCALE = float(PIXEL_PER_METER / ZOOM)`: the quotient is taken
on `int` and then converted. -/
def SCALE : K := ((PIXEL_PER_METER / ZOOM : Int) : K)

/-- Constant `ball::coef_rest`, the restitution of a ball against the walls. -/
def coef_rest : K := 0.8

/-- Division of two floats: `none` stands for the NaN or ±Inf a zero divisor gives. -/
def fdiv (a b : K) : Option K :=
  if b = 0 then none else some (a / b)

/-- Contract of `sqrt` on the values it is called with: the non-negative root of a
non-negative argument. -/
def IsSqrt (sqrt : K → K) : Prop :=
  ∀ x : K, 0 ≤ x → 0 ≤ sqrt x ∧ sqrt x * sqrt x = x

/-! ## `ball::collide_ball` -/

/-- Local `dist` of `collide_ball`: the distance between the centres. -/
def dist (sqrt : K → K) (b1 b2 : ball K) : K :=
  sqrt ((b2.z.x - b1.z.x) ^ 2 + (b2.z.y - b1.z.y) ^ 2)

/-- Local `overlap` of `collide_ball`. -/
def overlap (sqrt : K → K) (b1 b2 : ball K) : K :=
  (b1.radius + b2.radius) - dist sqrt b1 b2

/-- The static member `ball::collide_ball(b1, b2)` in exact arithmetic; the result is
the pair of balls after the call.  `collide_ball_fl` is the same code with roundings. -/
def collide_ball (sqrt : K → K) (b1 b2 : ball K) : Option (ball K × ball K) :=
  let dist := dist sqrt b1 b2
  let n_hat_x := fdiv (b2.z.x - b1.z.x) dist
  let n_hat_y := fdiv (b2.z.y - b1.z.y) dist
  let overlap := (b1.radius + b2.radius) - dist
  if overlap ≥ 0 then do
    let n_hat_x ← n_hat_x
    let n_hat_y ← n_hat_y
    -- move both overlapping balls away from each other half overlap distance
    let b2 := { b2 with z := ⟨b2.z.x + n_hat_x * overlap / 2, b2.z.y⟩ }
    let b2 := { b2 with z := ⟨b2.z.x, b2.z.y + n_hat_y * overlap / 2⟩ }
    let b1 := { b1 with z := ⟨b1.z.x - n_hat_x * overlap / 2, b1.z.y⟩ }
    let b1 := { b1 with z := ⟨b1.z.x, b1.z.y - n_hat_y * overlap / 2⟩ }
    -- update velocity based on conservation of energy/momentum
    let k1 ← fdiv (2 * b2.radius) (b1.radius + b2.radius)
    let q ← fdiv
      (k1 * ((b1.zdot.x - b2.zdot.x) * (b1.z.x - b2.z.x)
        + (b1.zdot.y - b2.zdot.y) * (b1.z.y - b2.z.y)) * (b1.z.x - b2.z.x))
      ((b1.z.x - b2.z.x) ^ 2 + (b1.z.y - b2.z.y) ^ 2)
    let x1dot := b1.zdot.x - q
    let k1 ← fdiv (2 * b2.radius) (b1.radius + b2.radius)
    let q ← fdiv
      (k1 * ((b1.zdot.x - b2.zdot.x) * (b1.z.x - b2.z.x)
        + (b1.zdot.y - b2.zdot.y) * (b1.z.y - b2.z.y)) * (b1.z.y - b2.z.y))
      ((b1.z.x - b2.z.x) ^ 2 + (b1.z.y - b2.z.y) ^ 2)
    let y1dot := b1.zdot.y - q
    let k2 ← fdiv (2 * b1.radius) (b2.radius + b1.radius)
    let q ← fdiv
      (k2 * ((b2.zdot.x - b1.zdot.x) * (b2.z.x - b1.z.x)
        + (b2.zdot.y - b1.zdot.y) * (b2.z.y - b1.z.y)) * (b2.z.x - b1.z.x))
      ((b2.z.x - b1.z.x) ^ 2 + (b2.z.y - b1.z.y) ^ 2)
    let x2dot := b2.zdot.x - q
    let k2 ← fdiv (2 * b1.radius) (b2.radius + b1.radius)
    let q ← fdiv
      (k2 * ((b2.zdot.x - b1.zdot.x) * (b2.z.x - b1.z.x)
        + (b2.zdot.y - b1.zdot.y) * (b2.z.y - b1.z.y)) * (b2.z.y - b1.z.y))
      ((b2.z.x - b1.z.x) ^ 2 + (b2.z.y - b1.z.y) ^ 2)
    let y2dot := b2.zdot.y - q
    let b1 := { b1 with zdot := ⟨x1dot, b1.zdot.y⟩ }
    let b1 := { b1 with zdot := ⟨b1.zdot.x, y1dot⟩ }
    let b2 := { b2 with zdot := ⟨x2dot, b2.zdot.y⟩ }
    let b2 := { b2 with zdot := ⟨b2.zdot.x, y2dot⟩ }
    pure (b1, b2)
  else
    pure (b1, b2)

/-- Closed form of the state `collide_ball` leaves when the balls touch or overlap
and no divisor vanishes. -/
def resolved (sqrt : K → K) (b1 b2 : ball K) : ball K × ball K :=
  let d := dist sqrt b1 b2
  let ov := (b1.radius + b2.radius) - d
  let p1 : Vector2f K :=
    ⟨b1.z.x - (b2.z.x - b1.z.x) / d * ov / 2, b1.z.y - (b2.z.y - b1.z.y) / d * ov / 2⟩
  let p2 : Vector2f K :=
    ⟨b2.z.x + (b2.z.x - b1.z.x) / d * ov / 2, b2.z.y + (b2.z.y - b1.z.y) / d * ov / 2⟩
  let w1 : Vector2f K :=
    ⟨b1.zdot.x - 2 * b2.radius / (b1.radius + b2.radius)
        * ((b1.zdot.x - b2.zdot.x) * (p1.x - p2.x) + (b1.zdot.y - b2.zdot.y) * (p1.y - p2.y))
        * (p1.x - p2.x) / ((p1.x - p2.x) ^ 2 + (p1.y - p2.y) ^ 2),
     b1.zdot.y - 2 * b2.radius / (b1.radius + b2.radius)
        * ((b1.zdot.x - b2.zdot.x) * (p1.x - p2.x) + (b1.zdot.y - b2.zdot.y) * (p1.y - p2.y))
        * (p1.y - p2.y) / ((p1.x - p2.x) ^ 2 + (p1.y - p2.y) ^ 2)⟩
  let w2 : Vector2f K :=
    ⟨b2.zdot.x - 2 * b1.radius / (b2.radius + b1.radius)
        * ((b2.zdot.x - b1.zdot.x) * (p2.x - p1.x) + (b2.zdot.y - b1.zdot.y) * (p2.y - p1.y))
        * (p2.x - p1.x) / ((p2.x - p1.x) ^ 2 + (p2.y - p1.y) ^ 2),
     b2.zdot.y - 2 * b1.radius / (b2.radius + b1.radius)
        * ((b2.zdot.x - b1.zdot.x) * (p2.x - p1.x) + (b2.zdot.y - b1.zdot.y) * (p2.y - p1.y))
        * (p2.y - p1.y) / ((p2.x - p1.x) ^ 2 + (p2.y - p1.y) ^ 2)⟩
  ({ b1 with z := p1, zdot := w1 }, { b2 with z := p2, zdot := w2 })

/-- The velocity formula of the specification, in its words:
`v1' = v1 − (2·m2/(m1+m2)) · (⟨v1−v2, x1−x2⟩ / |x1−x2|²) · (x1−x2)`. -/
def spec_elastic_velocity (m1 m2 : K) (v1 v2 x1 x2 : Vector2f K) : Vector2f K :=
  let c := (2 * m2 / (m1 + m2))
    * (((v1.x - v2.x) * (x1.x - x2.x) + (v1.y - v2.y) * (x1.y - x2.y))
        / ((x1.x - x2.x) ^ 2 + (x1.y - x2.y) ^ 2))
  ⟨v1.x - c * (x1.x - x2.x), v1.y - c * (x1.y - x2.y)⟩

/-! ## `ball::collide_wall` -/

/-- The member `ball::collide_wall()`: the ball after the call. -/
def collide_wall (b : ball K) : ball K :=
  let b :=
    if b.z.x + b.radius > (WINDOW_SIZE : K) then
      let b := { b with zdot := ⟨-coef_rest * b.zdot.x, b.zdot.y⟩ }
      { b with z := ⟨(WINDOW_SIZE : K) - b.radius, b.z.y⟩ }
    else if b.z.x < b.radius then
      let b := { b with zdot := ⟨-coef_rest * b.zdot.x, b.zdot.y⟩ }
      { b with z := ⟨b.radius, b.z.y⟩ }
    else b
  if b.z.y + b.radius > (WINDOW_SIZE : K) then
    let b := { b with zdot := ⟨b.zdot.x, -coef_rest * b.zdot.y⟩ }
    { b with z := ⟨b.z.x, (WINDOW_SIZE : K) - b.radius⟩ }
  else if b.z.y < b.radius then
    let b := { b with zdot := ⟨b.zdot.x, -coef_rest * b.zdot.y⟩ }
    { b with z := ⟨b.z.x, b.radius⟩ }
  else b

/-! ## `ball::update` -/

/-- The member `ball::update(dt, m, mouse)` in exact arithmetic: the ball after the
call.  `isLeft` and `isRight` are the two values read from `mouse.isButtonPressed`.
`update_fl` is the same code with roundings. -/
def update (sqrt : K → K) (b : ball K) (dt : K) (m : Vector2i) (isLeft isRight : Bool) :
    Option (ball K) := do
  let accel_mouse ←
    if isLeft || isRight then
      let d_to_mouse := sqrt ((b.z.x - (m.x : K)) ^ 2 + (b.z.y - (m.y : K)) ^ 2) / SCALE
      -- inverse linear accel with small offset to avoid undefined near center
      fdiv 1.0 ((d_to_mouse + 0.1) ^ 3)
    else
      pure 0
  -- attractive accel if right mouse
  let accel_mouse := if isRight then -accel_mouse else accel_mouse
  -- euler integration of velocity
  let b := { b with zdot := ⟨b.zdot.x, b.zdot.y + (G + accel_mouse * (b.z.y - (m.y : K)) / SCALE) * dt⟩ }
  let b := { b with zdot := ⟨b.zdot.x + (accel_mouse * (b.z.x - (m.x : K)) / SCALE) * dt, b.zdot.y⟩ }
  -- euler integration of pose
  let b := { b with z := ⟨b.z.x + b.zdot.x * dt * SCALE, b.z.y⟩ }
  let b := { b with z := ⟨b.z.x, b.z.y + b.zdot.y * dt * SCALE⟩ }
  -- update kinetic energy
  let b := { b with KE := 0.5 * b.radius * (b.zdot.x ^ 2 + b.zdot.y ^ 2) }
  pure b

/-! ## The tick loop of `main`

The vector `ball_vect` is a list; an iterator is its index.  The pointer position and
the button state are read once per ball in the source; here they are the inputs of
the tick and the same for every ball. -/

/-- The call `ball::collide_ball(*it, *obj)` with `it` at index `i` and `obj` at index
`j`: both elements are replaced by what the call leaves.  Indices outside the vector
(the loops produce none) leave it as it is. -/
def collide_at (sqrt : K → K) (i j : Nat) (v : List (ball K)) : Option (List (ball K)) :=
  match v[i]?, v[j]? with
  | some b1, some b2 => do
    let c ← collide_ball sqrt b1 b2
    pure ((v.set i c.1).set j c.2)
  | _, _ => pure v

/-- The inner loop `for (auto obj = it + 1; obj != end(ball_vect); ++obj)` with `it` at
index `i`. -/
def collide_rest (sqrt : K → K) (i : Nat) (v : List (ball K)) : Option (List (ball K)) :=
  (List.range' (i + 1) (v.length - (i + 1))).foldlM (fun v j => collide_at sqrt i j v) v

/-- The statements `it->collide_wall(); it->update(dt, mouse_pose, mouse);
totalKE += it->KE;` with `it` at index `i`; the state is the vector together with
`totalKE`. -/
def wall_update_at (sqrt : K → K) (dt : K) (m : Vector2i) (isLeft isRight : Bool) (i : Nat)
    (s : List (ball K) × K) : Option (List (ball K) × K) :=
  match s.1[i]? with
  | some b => do
    let b ← update sqrt (collide_wall b) dt m isLeft isRight
    pure (s.1.set i b, s.2 + b.KE)
  | none => pure s

/-- One pass of the body of `while (window.isOpen())`, lines 252 to 273: the vector
after the pass and `totalKE`. -/
def tick (sqrt : K → K) (dt : K) (m : Vector2i) (isLeft isRight : Bool) (v : List (ball K)) :
    Option (List (ball K) × K) :=
  (List.range v.length).foldlM
    (fun s i => do
      let w ← collide_rest sqrt i s.1
      wall_update_at sqrt dt m isLeft isRight i (w, s.2))
    (v, 0)

/-- The tick as the specification words it, in two phases: first the pair resolver on
every pair in ascending index order, then for every ball in collection order the
boundary resolver, the force integrator and the accumulation of the kinetic energy. -/
def spec_tick (sqrt : K → K) (dt : K) (m : Vector2i) (isLeft isRight : Bool)
    (v : List (ball K)) : Option (List (ball K) × K) := do
  let w ← (List.range v.length).foldlM (fun v i => collide_rest sqrt i v) v
  (List.range w.length).foldlM (fun s i => wall_update_at sqrt dt m isLeft isRight i s) (w, 0)

end

/-- A step on the vector, seen as a step on the pair of the vector and `totalKE`. -/
def on_vector {α β : Type} (F : α → Option α) (s : α × β) : Option (α × β) :=
  F s.1 >>= fun w => pure (w, s.2)

section
variable {K : Type} [LinearOrderedField K]

/-! ## Locals of `ball::update` -/

/-- Local `d_to_mouse` of `update`: the distance to the pointer divided by `SCALE`. -/
def d_to_mouse (sqrt : K → K) (b : ball K) (m : Vector2i) : K :=
  sqrt ((b.z.x - (m.x : K)) ^ 2 + (b.z.y - (m.y : K)) ^ 2) / SCALE

/-- Local `accel_mouse` of `update` in exact arithmetic, with the value it has when the
velocity is integrated (after the sign change for the right button).  `accel_mouse_fl`
is the same code with roundings. -/
def accel_mouse (sqrt : K → K) (b : ball K) (m : Vector2i) (isLeft isRight : Bool) :
    Option K := do
  let accel_mouse ←
    if isLeft || isRight then
      fdiv 1.0 ((d_to_mouse sqrt b m + 0.1) ^ 3)
    else
      pure 0
  pure (if isRight then -accel_mouse else accel_mouse)

/-- Closed form of the state `update` leaves when `accel_mouse` has the value `a`: the
two Euler steps and the kinetic energy. -/
def integrated (a : K) (b : ball K) (dt : K) (m : Vector2i) : ball K :=
  let ydot := b.zdot.y + (G + a * (b.z.y - (m.y : K)) / SCALE) * dt
  let xdot := b.zdot.x + (a * (b.z.x - (m.x : K)) / SCALE) * dt
  { z := ⟨b.z.x + xdot * dt * SCALE, b.z.y + ydot * dt * SCALE⟩
    zdot := ⟨xdot, ydot⟩
    radius := b.radius
    KE := 0.5 * b.radius * (xdot ^ 2 + ydot ^ 2) }

/-! ## The order of the calls in a tick -/

/-- The two kinds of step the loops of a tick make: a call
`collide_ball(*it, *obj)` with `it` at index `i` and `obj` at index `j`, and the
statements `collide_wall`, `update`, `totalKE += KE` on the ball at index `i`. -/
inductive tick_event where
  | collide (i j : Nat)
  | wall_update (i : Nat)
deriving DecidableEq, Repr

/-- The steps of one tick on a vector of `n` balls, in the order the nested loops of
lines 255 to 273 make them. -/
def tick_schedule (n : Nat) : List tick_event :=
  (List.range n).flatMap fun i =>
    (List.range' (i + 1) (n - (i + 1))).map (tick_event.collide i)
      ++ [tick_event.wall_update i]

/-- The effect of one step on the vector and `totalKE`. -/
def run_event (sqrt : K → K) (dt : K) (m : Vector2i) (isLeft isRight : Bool)
    (s : List (ball K) × K) : tick_event → Option (List (ball K) × K)
  | tick_event.collide i j => on_vector (collide_at sqrt i j) s
  | tick_event.wall_update i => wall_update_at sqrt dt m isLeft isRight i s

/-- The index pairs of the calls of `collide_ball` in one tick on `n` balls, in the
order they are made. -/
def collide_ball_calls (n : Nat) : List (Nat × Nat) :=
  (tick_schedule n).filterMap fun e =>
    match e with
    | tick_event.collide i j => some (i, j)
    | tick_event.wall_update _ => none

/-! ## Several ticks -/

/-- What the driver hands to one tick: the elapsed time, the pointer position and the
two pointer buttons. -/
structure tick_input (K : Type) where
  dt : K
  mouse_pose : Vector2i
  isLeft : Bool
  isRight : Bool

/-- The loop `while (window.isOpen())` run once per given input: the vector after the
last pass.  `totalKE` is local to a pass and starts from `0` in each. -/
def ticks (sqrt : K → K) (inputs : List (tick_input K)) (v : List (ball K)) :
    Option (List (ball K)) :=
  inputs.foldlM
    (fun v inp => (tick sqrt inp.dt inp.mouse_pose inp.isLeft inp.isRight v).map Prod.fst) v

/-! ## The two-ball scenario

The vector built by the lines 204 and 205 that `main` keeps as a comment:
`ball(30, 100, 1, 0, 30)` and `ball(200, 100, 0, 0, 30)`.  The constructor leaves `KE`
unset; `0` stands for it, and the first `update` overwrites it. -/

/-- The two balls of the scenario. -/
def scenario_start : List (ball K) :=
  [⟨⟨30, 100⟩, ⟨1, 0⟩, 30, 0⟩, ⟨⟨200, 100⟩, ⟨0, 0⟩, 30, 0⟩]

/-- The input of every tick of the scenario: `dt = 0.005`, no pointer button. -/
def scenario_input : tick_input K :=
  ⟨0.005, ⟨0, 0⟩, false, false⟩

/-- The scenario after `k` ticks. -/
def run_scenario (sqrt : K → K) (k : Nat) : Option (List (ball K)) :=
  ticks sqrt (List.replicate k scenario_input) scenario_start

/-- Closed form of the scenario after `k` ticks, before the balls meet. -/
def scenario_state (k : Nat) (ke0 ke1 : K) : List (ball K) :=
  [⟨⟨30 + 1.11 * (k : K), 100 + 0.002775 * (k : K) * ((k : K) + 1)⟩, ⟨1, 0.005 * (k : K)⟩, 30, ke0⟩,
   ⟨⟨200, 100 + 0.002775 * (k : K) * ((k : K) + 1)⟩, ⟨0, 0.005 * (k : K)⟩, 30, ke1⟩]

end

/-! ## Binary floating point

The definitions above take `float` as an exact field.  The ones below are the same
code with a rounding after every operation, so that the behaviour of the program in
IEEE-754 arithmetic can be computed.  Every operation is rounded once, to the format of
its C++ type (no excess precision).  `rnd` rounds to the format of `float`.  `rndd`
rounds to the format in which the calls of `pow` and `sqrt` and the operations with a
`double` operand are carried out: that of `double` when `pow` and `sqrt` are the
functions of `<math.h>` on `double`, that of `float` when they are taken in their
`float` overloads.  `pow` and `sqrt` are taken as correctly rounded.  With the identity
for both roundings the definitions are the exact ones.  Overflow and subnormal numbers
are not modelled: the exponent range is unbounded; the evaluations below stay far from
both ends of the range of either format. -/

/-- Worker of `bits`: structural on the first argument, which bounds the number of
halvings. -/
def bits_aux : ℕ → ℕ → ℕ
  | 0, _ => 0
  | f + 1, n => if n = 0 then 0 else bits_aux f (n / 2) + 1

/-- Number of binary digits of `n`. -/
def bits (n : ℕ) : ℕ := bits_aux n n

/-- The value `q * 2 ^ k`. -/
def scale2 (q : ℚ) (k : ℤ) : ℚ :=
  if 0 ≤ k then q * (2 ^ k.toNat : ℕ) else q / (2 ^ (-k).toNat : ℕ)

/-- The exponent `e` with `2 ^ e ≤ |q| < 2 ^ (e + 1)`, for `q ≠ 0`. -/
def exponent2 (q : ℚ) : ℤ :=
  let l : ℤ := (bits q.num.natAbs : ℤ) - (bits q.den : ℤ)
  if scale2 1 l ≤ |q| then l else l - 1

/-- The integer nearest to `q`, the even one of the two when `q` is half-way. -/
def round_half_even (q : ℚ) : ℤ :=
  let n := q.num / (q.den : ℤ)
  let r := q.num % (q.den : ℤ)
  if 2 * r < (q.den : ℤ) then n
  else if 2 * r > (q.den : ℤ) then n + 1
  else if n % 2 = 0 then n else n + 1

/-- Rounding to a binary floating-point number with a significand of `p` digits, to
nearest, ties to even. -/
def round_to (p : ℕ) (q : ℚ) : ℚ :=
  if q = 0 then 0
  else
    let e := exponent2 q - ((p : ℤ) - 1)
    scale2 (round_half_even (scale2 q (-e)) : ℚ) e

/-- Worker of `isqrt`: the digits of the root from the highest down. -/
def isqrt_aux (n : ℕ) : ℕ → ℕ → ℕ
  | 0, r => r
  | i + 1, r => isqrt_aux n i (if (r + 2 ^ i) * (r + 2 ^ i) ≤ n then r + 2 ^ i else r)

/-- The integer part of the square root of `n`. -/
def isqrt (n : ℕ) : ℕ :=
  isqrt_aux n (bits n / 2 + 1) 0

/-- The square root rounded to `p` digits, to nearest.  The argument is scaled by a
power of 4 so that the integer part `t` of its root has `p + 2` digits; the root lies
in `[t, t + 1)`, where no number of `p` digits and no half-way point lies strictly
inside, so `t` or `t + 1/2` rounds as the root does. -/
def sqrt_to (p : ℕ) (q : ℚ) : ℚ :=
  if q ≤ 0 then 0
  else
    let k : ℤ := (p : ℤ) + 1 - exponent2 q / 2
    let s := scale2 q (2 * k)
    let t := isqrt (s.num / (s.den : ℤ)).toNat
    let y : ℚ := if ((t * t : ℕ) : ℚ) = s then (t : ℚ) else (t : ℚ) + 1 / 2
    round_to p (scale2 y (-k))

/-- Rounding to binary32, the format of `float`. -/
def fl32 (q : ℚ) : ℚ := round_to 24 q

/-- Rounding to binary64, the format of `double`. -/
def fl64 (q : ℚ) : ℚ := round_to 53 q

/-- The square root in binary32. -/
def sqrt32 (q : ℚ) : ℚ := sqrt_to 24 q

/-- The square root in binary64. -/
def sqrt64 (q : ℚ) : ℚ := sqrt_to 53 q

section
variable {K : Type} [LinearOrderedField K]

/-- A rounded sum. -/
def add_fl (rnd : K → K) (a b : K) : K := rnd (a + b)

/-- A rounded difference. -/
def sub_fl (rnd : K → K) (a b : K) : K := rnd (a - b)

/-- A rounded product. -/
def mul_fl (rnd : K → K) (a b : K) : K := rnd (a * b)

/-- A rounded quotient by a non-zero constant. -/
def div_fl (rnd : K → K) (a b : K) : K := rnd (a / b)

/-- A rounded power, the call `pow(a, n)`. -/
def pow_fl (rnd : K → K) (a : K) (n : ℕ) : K := rnd (a ^ n)

/-- A rounded quotient; `none` for a zero divisor, as `fdiv`. -/
def fdiv_fl (rnd : K → K) (a b : K) : Option K :=
  if b = 0 then none else some (rnd (a / b))

/-- Local `dist` of `collide_ball`, rounded: the sum of the two calls of `pow` and the
call of `sqrt` in the precision of `rndd`, the result stored in a `float`. -/
def dist_fl (rnd rndd sqrt : K → K) (b1 b2 : ball K) : K :=
  rnd (sqrt (add_fl rndd (pow_fl rndd (sub_fl rnd b2.z.x b1.z.x) 2)
    (pow_fl rndd (sub_fl rnd b2.z.y b1.z.y) 2)))

/-- Local `overlap` of `collide_ball`, rounded. -/
def overlap_fl (rnd rndd sqrt : K → K) (b1 b2 : ball K) : K :=
  sub_fl rnd (add_fl rnd b1.radius b2.radius) (dist_fl rnd rndd sqrt b1 b2)

/-- The divisor `pow(p.x - q.x, 2) + pow(p.y - q.y, 2)` of the velocity update of
`collide_ball`, rounded. -/
def sqdist_fl (rnd rndd : K → K) (p q : Vector2f K) : K :=
  add_fl rndd (pow_fl rndd (sub_fl rnd p.x q.x) 2) (pow_fl rndd (sub_fl rnd p.y q.y) 2)

/-- The member `ball::collide_ball(b1, b2)` with every operation rounded.  In the
velocity update the products are products of `float`; the quotient by the sum of the
two calls of `pow` and the difference are in the precision of `rndd`, and the result
is stored in a `float`. -/
def collide_ball_fl (rnd rndd sqrt : K → K) (b1 b2 : ball K) : Option (ball K × ball K) :=
  let dist := dist_fl rnd rndd sqrt b1 b2
  let n_hat_x := fdiv_fl rnd (sub_fl rnd b2.z.x b1.z.x) dist
  let n_hat_y := fdiv_fl rnd (sub_fl rnd b2.z.y b1.z.y) dist
  let overlap := sub_fl rnd (add_fl rnd b1.radius b2.radius) dist
  if overlap ≥ 0 then do
    let n_hat_x ← n_hat_x
    let n_hat_y ← n_hat_y
    -- move both overlapping balls away from each other half overlap distance
    let b2 := { b2 with z := ⟨add_fl rnd b2.z.x (div_fl rnd (mul_fl rnd n_hat_x overlap) 2), b2.z.y⟩ }
    let b2 := { b2 with z := ⟨b2.z.x, add_fl rnd b2.z.y (div_fl rnd (mul_fl rnd n_hat_y overlap) 2)⟩ }
    let b1 := { b1 with z := ⟨sub_fl rnd b1.z.x (div_fl rnd (mul_fl rnd n_hat_x overlap) 2), b1.z.y⟩ }
    let b1 := { b1 with z := ⟨b1.z.x, sub_fl rnd b1.z.y (div_fl rnd (mul_fl rnd n_hat_y overlap) 2)⟩ }
    -- update velocity based on conservation of energy/momentum
    let k1 ← fdiv_fl rnd (mul_fl rnd 2 b2.radius) (add_fl rnd b1.radius b2.radius)
    let q ← fdiv_fl rndd
      (mul_fl rnd (mul_fl rnd k1
        (add_fl rnd (mul_fl rnd (sub_fl rnd b1.zdot.x b2.zdot.x) (sub_fl rnd b1.z.x b2.z.x))
          (mul_fl rnd (sub_fl rnd b1.zdot.y b2.zdot.y) (sub_fl rnd b1.z.y b2.z.y))))
        (sub_fl rnd b1.z.x b2.z.x))
      (sqdist_fl rnd rndd b1.z b2.z)
    let x1dot := rnd (sub_fl rndd b1.zdot.x q)
    let k1 ← fdiv_fl rnd (mul_fl rnd 2 b2.radius) (add_fl rnd b1.radius b2.radius)
    let q ← fdiv_fl rndd
      (mul_fl rnd (mul_fl rnd k1
        (add_fl rnd (mul_fl rnd (sub_fl rnd b1.zdot.x b2.zdot.x) (sub_fl rnd b1.z.x b2.z.x))
          (mul_fl rnd (sub_fl rnd b1.zdot.y b2.zdot.y) (sub_fl rnd b1.z.y b2.z.y))))
        (sub_fl rnd b1.z.y b2.z.y))
      (sqdist_fl rnd rndd b1.z b2.z)
    let y1dot := rnd (sub_fl rndd b1.zdot.y q)
    let k2 ← fdiv_fl rnd (mul_fl rnd 2 b1.radius) (add_fl rnd b2.radius b1.radius)
    let q ← fdiv_fl rndd
      (mul_fl rnd (mul_fl rnd k2
        (add_fl rnd (mul_fl rnd (sub_fl rnd b2.zdot.x b1.zdot.x) (sub_fl rnd b2.z.x b1.z.x))
          (mul_fl rnd (sub_fl rnd b2.zdot.y b1.zdot.y) (sub_fl rnd b2.z.y b1.z.y))))
        (sub_fl rnd b2.z.x b1.z.x))
      (sqdist_fl rnd rndd b2.z b1.z)
    let x2dot := rnd (sub_fl rndd b2.zdot.x q)
    let k2 ← fdiv_fl rnd (mul_fl rnd 2 b1.radius) (add_fl rnd b2.radius b1.radius)
    let q ← fdiv_fl rndd
      (mul_fl rnd (mul_fl rnd k2
        (add_fl rnd (mul_fl rnd (sub_fl rnd b2.zdot.x b1.zdot.x) (sub_fl rnd b2.z.x b1.z.x))
          (mul_fl rnd (sub_fl rnd b2.zdot.y b1.zdot.y) (sub_fl rnd b2.z.y b1.z.y))))
        (sub_fl rnd b2.z.y b1.z.y))
      (sqdist_fl rnd rndd b2.z b1.z)
    let y2dot := rnd (sub_fl rndd b2.zdot.y q)
    let b1 := { b1 with zdot := ⟨x1dot, b1.zdot.y⟩ }
    let b1 := { b1 with zdot := ⟨b1.zdot.x, y1dot⟩ }
    let b2 := { b2 with zdot := ⟨x2dot, b2.zdot.y⟩ }
    let b2 := { b2 with zdot := ⟨b2.zdot.x, y2dot⟩ }
    pure (b1, b2)
  else
    pure (b1, b2)

/-- The velocity formula of the specification with every operation rounded by
`rnd`, in the order it is written. -/
def spec_elastic_velocity_fl (rnd : K → K) (m1 m2 : K) (v1 v2 x1 x2 : Vector2f K) :
    Vector2f K :=
  let c := mul_fl rnd (div_fl rnd (mul_fl rnd 2 m2) (add_fl rnd m1 m2))
    (div_fl rnd
      (add_fl rnd (mul_fl rnd (sub_fl rnd v1.x v2.x) (sub_fl rnd x1.x x2.x))
        (mul_fl rnd (sub_fl rnd v1.y v2.y) (sub_fl rnd x1.y x2.y)))
      (add_fl rnd (pow_fl rnd (sub_fl rnd x1.x x2.x) 2) (pow_fl rnd (sub_fl rnd x1.y x2.y) 2)))
  ⟨sub_fl rnd v1.x (mul_fl rnd c (sub_fl rnd x1.x x2.x)),
    sub_fl rnd v1.y (mul_fl rnd c (sub_fl rnd x1.y x2.y))⟩

/-- Local `d_to_mouse` of `update`, rounded. -/
def d_to_mouse_fl (rnd rndd sqrt : K → K) (b : ball K) (m : Vector2i) : K :=
  rnd (div_fl rndd
    (sqrt (add_fl rndd (pow_fl rndd (sub_fl rnd b.z.x (rnd (m.x : K))) 2)
      (pow_fl rndd (sub_fl rnd b.z.y (rnd (m.y : K))) 2)))
    SCALE)

/-- Local `accel_mouse` of `update`, rounded, with the value it has when the velocity
is integrated.  The sum with the `double` literal `0.1`, the call of `pow` and the
quotient are in the precision of `rndd`; the result is stored in a `float`. -/
def accel_mouse_fl (rnd rndd sqrt : K → K) (b : ball K) (m : Vector2i)
    (isLeft isRight : Bool) : Option K := do
  let accel_mouse ←
    if isLeft || isRight then
      (fdiv_fl rndd 1.0
        (pow_fl rndd (add_fl rndd (d_to_mouse_fl rnd rndd sqrt b m) (rndd 0.1)) 3)).map rnd
    else
      pure 0
  pure (if isRight then -accel_mouse else accel_mouse)

/-- One component `accel_mouse * (z - m) / SCALE` of the pointer acceleration,
rounded, for the coordinate `z` of the ball and `m` of the pointer. -/
def mouse_component_fl (rnd : K → K) (a z : K) (m : Int) : K :=
  div_fl rnd (mul_fl rnd a (sub_fl rnd z (rnd (m : K)))) SCALE

/-- The expression `0.5 * radius * (pow(zdot.x, 2) + pow(zdot.y, 2))` that `update`
stores in `KE`, rounded: the operations are in the format of `rndd` (the literal `0.5`
is a `double`), the result is stored in a `float`. -/
def KE_fl (rnd rndd : K → K) (b : ball K) : K :=
  rnd (mul_fl rndd (mul_fl rndd 0.5 b.radius)
    (add_fl rndd (pow_fl rndd b.zdot.x 2) (pow_fl rndd b.zdot.y 2)))

/-- The member `ball::update(dt, m, mouse)` with every operation rounded. -/
def update_fl (rnd rndd sqrt : K → K) (b : ball K) (dt : K) (m : Vector2i)
    (isLeft isRight : Bool) : Option (ball K) := do
  let accel_mouse ← accel_mouse_fl rnd rndd sqrt b m isLeft isRight
  -- euler integration of velocity
  let b := { b with zdot := ⟨b.zdot.x,
    add_fl rnd b.zdot.y (mul_fl rnd (add_fl rnd G (mouse_component_fl rnd accel_mouse b.z.y m.y)) dt)⟩ }
  let b := { b with zdot := ⟨add_fl rnd b.zdot.x
    (mul_fl rnd (mouse_component_fl rnd accel_mouse b.z.x m.x) dt), b.zdot.y⟩ }
  -- euler integration of pose
  let b := { b with z := ⟨add_fl rnd b.z.x (mul_fl rnd (mul_fl rnd b.zdot.x dt) SCALE), b.z.y⟩ }
  let b := { b with z := ⟨b.z.x, add_fl rnd b.z.y (mul_fl rnd (mul_fl rnd b.zdot.y dt) SCALE)⟩ }
  -- update kinetic energy
  let b := { b with KE := KE_fl rnd rndd b }
  pure b

end

/-! # Theorems -/

/-! ## Monadic folds

Facts about `foldlM` in `Option` that do not depend on the program. -/

/-- A step that commutes with every step of a fold commutes with the fold. -/
theorem bind_foldlM_comm {σ ι : Type} (S : σ → Option σ) (A : ι → σ → Option σ)
    (js : List ι) (h : ∀ j ∈ js, ∀ s, S s >>= A j = A j s >>= S) :
    ∀ s, (S s >>= fun t => js.foldlM (fun t j => A j t) t)
      = js.foldlM (fun t j => A j t) s >>= S := by
  induction js with
  | nil => intro s; simp
  | cons j js ih =>
    intro s
    have hj := h j (List.mem_cons_self j js)
    have ih2 := ih (fun k hk => h k (List.mem_cons_of_mem j hk))
    simp only [List.foldlM_cons]
    rw [← bind_assoc, hj s, bind_assoc, bind_assoc]
    congr 1
    funext t
    exact ih2 t

/-- Interleaving two families of steps along a list, or running the first family for
the whole list and then the second, is the same when a later step of the first family
commutes with an earlier step of the second. -/
theorem foldlM_interleave {σ ι : Type} (A S : ι → σ → Option σ) (is : List ι)
    (h : is.Pairwise (fun i j => ∀ s, S i s >>= A j = A j s >>= S i)) :
    ∀ s, is.foldlM (fun s i => A i s >>= S i) s
      = is.foldlM (fun s i => A i s) s >>= fun t => is.foldlM (fun s i => S i s) t := by
  induction is with
  | nil => intro s; simp
  | cons i is ih =>
    intro s
    rw [List.pairwise_cons] at h
    have ih2 := ih h.2
    simp only [List.foldlM_cons, bind_assoc]
    congr 1
    funext t
    have e : (is.foldlM (fun s i => A i s) t >>= fun u =>
          S i u >>= fun w => is.foldlM (fun s i => S i s) w)
        = S i t >>= fun u =>
            is.foldlM (fun s i => A i s) u >>= fun w => is.foldlM (fun s i => S i s) w := by
      rw [← bind_assoc, ← bind_foldlM_comm (S i) A is h.1 t, bind_assoc]
    rw [e]
    congr 1
    funext u
    exact ih2 u


theorem on_vector_some {α β : Type} (F : α → Option α) (s : α × β)
    {w : α} (h : F s.1 = some w) : on_vector F s = some (w, s.2) := by
  simp [on_vector, h]

theorem on_vector_none {α β : Type} (F : α → Option α) (s : α × β)
    (h : F s.1 = none) : on_vector F s = none := by
  simp [on_vector, h]

theorem on_vector_foldlM {α β ι : Type} (F : ι → α → Option α)
    (is : List ι) :
    ∀ s : α × β,
      on_vector (fun v => is.foldlM (fun v i => F i v) v) s
        = is.foldlM (fun t i => on_vector (F i) t) s := by
  induction is with
  | nil => intro s; simp [on_vector]
  | cons i is ih =>
    intro s
    simp only [List.foldlM_cons]
    cases h : F i s.1 with
    | none =>
      rw [on_vector_none (F i) s h, on_vector_none _ s (by simp [h])]
      rfl
    | some w =>
      rw [on_vector_some (F i) s h]
      have e := ih (w, s.2)
      simp only [on_vector] at e ⊢
      simp only [h]
      exact e

theorem foldlM_length {α ι : Type} (F : ι → List α → Option (List α))
    (hF : ∀ i v w, F i v = some w → w.length = v.length) (is : List ι) :
    ∀ v w, is.foldlM (fun v i => F i v) v = some w → w.length = v.length := by
  induction is with
  | nil => intro v w h; cases h; rfl
  | cons i is ih =>
    intro v w h
    simp only [List.foldlM_cons] at h
    cases hi : F i v with
    | none => rw [hi] at h; cases h
    | some u =>
      rw [hi] at h
      rw [ih u w h, hF i v u hi]


section
variable {K : Type} [LinearOrderedField K]

/-! ## Arithmetic of `sqrt`, `fdiv` and the distance -/

theorem fdiv_of_ne (a : K) {b : K} (h : b ≠ 0) : fdiv a b = some (a / b) := by
  simp [fdiv, h]

theorem fdiv_zero (a : K) : fdiv a (0 : K) = none := by
  simp [fdiv]

theorem sqrt_sq_of_nonneg {sqrt : K → K} (hs : IsSqrt sqrt) {r : K} (hr : 0 ≤ r) :
    sqrt (r ^ 2) = r := by
  obtain ⟨h0, h1⟩ := hs (r ^ 2) (sq_nonneg r)
  have h2 : (sqrt (r ^ 2) - r) * (sqrt (r ^ 2) + r) = 0 := by linear_combination h1
  rcases mul_eq_zero.mp h2 with h | h
  · linarith
  · have : sqrt (r ^ 2) = 0 := by linarith
    have : r = 0 := by linarith
    linarith

theorem sqdist_pos {b1 b2 : ball K} (hne : b1.z ≠ b2.z) :
    0 < (b2.z.x - b1.z.x) ^ 2 + (b2.z.y - b1.z.y) ^ 2 := by
  by_contra h
  have hx : (b2.z.x - b1.z.x) ^ 2 = 0 := by nlinarith [sq_nonneg (b2.z.x - b1.z.x), sq_nonneg (b2.z.y - b1.z.y)]
  have hy : (b2.z.y - b1.z.y) ^ 2 = 0 := by nlinarith [sq_nonneg (b2.z.x - b1.z.x), sq_nonneg (b2.z.y - b1.z.y)]
  apply hne
  have h1 : b1.z.x = b2.z.x := by
    have := pow_eq_zero_iff (two_ne_zero) |>.mp hx
    linarith
  have h2 : b1.z.y = b2.z.y := by
    have := pow_eq_zero_iff (two_ne_zero) |>.mp hy
    linarith
  cases hz1 : b1.z; cases hz2 : b2.z
  simp_all

theorem dist_pos {sqrt : K → K} (hs : IsSqrt sqrt) {b1 b2 : ball K} (hne : b1.z ≠ b2.z) :
    0 < dist sqrt b1 b2 := by
  have hD := sqdist_pos hne
  obtain ⟨h0, h1⟩ := hs _ hD.le
  rcases h0.lt_or_eq with h | h
  · exact h
  · exfalso
    unfold dist at *
    rw [← h] at h1
    simp at h1
    linarith

theorem dist_mul_self {sqrt : K → K} (hs : IsSqrt sqrt) (b1 b2 : ball K) :
    dist sqrt b1 b2 * dist sqrt b1 b2 = (b2.z.x - b1.z.x) ^ 2 + (b2.z.y - b1.z.y) ^ 2 :=
  (hs _ (add_nonneg (sq_nonneg _) (sq_nonneg _))).2


theorem resolved_dx {sqrt : K → K} (hs : IsSqrt sqrt) {b1 b2 : ball K} (hne : b1.z ≠ b2.z) :
    (resolved sqrt b1 b2).2.z.x - (resolved sqrt b1 b2).1.z.x
      = (b2.z.x - b1.z.x) * (b1.radius + b2.radius) / dist sqrt b1 b2 := by
  have hd := (dist_pos hs hne).ne'
  simp only [resolved]
  field_simp
  ring

theorem resolved_dy {sqrt : K → K} (hs : IsSqrt sqrt) {b1 b2 : ball K} (hne : b1.z ≠ b2.z) :
    (resolved sqrt b1 b2).2.z.y - (resolved sqrt b1 b2).1.z.y
      = (b2.z.y - b1.z.y) * (b1.radius + b2.radius) / dist sqrt b1 b2 := by
  have hd := (dist_pos hs hne).ne'
  simp only [resolved]
  field_simp
  ring

theorem resolved_sqdist {sqrt : K → K} (hs : IsSqrt sqrt) {b1 b2 : ball K} (hne : b1.z ≠ b2.z) :
    ((resolved sqrt b1 b2).2.z.x - (resolved sqrt b1 b2).1.z.x) ^ 2
      + ((resolved sqrt b1 b2).2.z.y - (resolved sqrt b1 b2).1.z.y) ^ 2
      = (b1.radius + b2.radius) ^ 2 := by
  have hd := (dist_pos hs hne).ne'
  have hD := dist_mul_self hs b1 b2
  rw [resolved_dx hs hne, resolved_dy hs hne]
  field_simp
  linear_combination (b1.radius + b2.radius) ^ 2 * hD.symm

theorem collide_ball_eq_resolved {sqrt : K → K} (hs : IsSqrt sqrt) {b1 b2 : ball K}
    (hne : b1.z ≠ b2.z) (hov : 0 ≤ overlap sqrt b1 b2) :
    collide_ball sqrt b1 b2 = some (resolved sqrt b1 b2) := by
  have hdpos := dist_pos hs hne
  have hd := hdpos.ne'
  have hR : 0 < b1.radius + b2.radius := by unfold overlap at hov; linarith
  have hR1 : b1.radius + b2.radius ≠ 0 := hR.ne'
  have hR2 : b2.radius + b1.radius ≠ 0 := by rw [add_comm]; exact hR1
  have hS := resolved_sqdist hs hne
  have hS2 : ((resolved sqrt b1 b2).1.z.x - (resolved sqrt b1 b2).2.z.x) ^ 2
      + ((resolved sqrt b1 b2).1.z.y - (resolved sqrt b1 b2).2.z.y) ^ 2
      = (b1.radius + b2.radius) ^ 2 := by rw [← hS]; ring
  have hD2 : ((resolved sqrt b1 b2).2.z.x - (resolved sqrt b1 b2).1.z.x) ^ 2
      + ((resolved sqrt b1 b2).2.z.y - (resolved sqrt b1 b2).1.z.y) ^ 2 ≠ 0 := by
    rw [hS]; positivity
  have hD1 : ((resolved sqrt b1 b2).1.z.x - (resolved sqrt b1 b2).2.z.x) ^ 2
      + ((resolved sqrt b1 b2).1.z.y - (resolved sqrt b1 b2).2.z.y) ^ 2 ≠ 0 := by
    rw [hS2]; positivity
  simp only [resolved] at hD1 hD2
  unfold overlap at hov
  simp only [collide_ball, ge_iff_le, hov, if_true, resolved]
  simp only [fdiv_of_ne _ hd, fdiv_of_ne _ hR1, fdiv_of_ne _ hR2, fdiv_of_ne _ hD1,
    fdiv_of_ne _ hD2, Option.bind_eq_bind, Option.some_bind, Option.pure_def]

theorem resolved_sqdist_ne {sqrt : K → K} (hs : IsSqrt sqrt) {b1 b2 : ball K}
    (hne : b1.z ≠ b2.z) (hov : 0 ≤ overlap sqrt b1 b2) :
    ((resolved sqrt b1 b2).1.z.x - (resolved sqrt b1 b2).2.z.x) ^ 2
      + ((resolved sqrt b1 b2).1.z.y - (resolved sqrt b1 b2).2.z.y) ^ 2 ≠ 0 := by
  have hdpos := dist_pos hs hne
  have hR : 0 < b1.radius + b2.radius := by unfold overlap at hov; linarith
  have h : ((resolved sqrt b1 b2).1.z.x - (resolved sqrt b1 b2).2.z.x) ^ 2
      + ((resolved sqrt b1 b2).1.z.y - (resolved sqrt b1 b2).2.z.y) ^ 2
      = (b1.radius + b2.radius) ^ 2 := by
    rw [← resolved_sqdist hs hne]; ring
  rw [h]
  positivity

theorem radius_sum_ne {sqrt : K → K} (hs : IsSqrt sqrt) {b1 b2 : ball K}
    (hne : b1.z ≠ b2.z) (hov : 0 ≤ overlap sqrt b1 b2) : b1.radius + b2.radius ≠ 0 := by
  have hdpos := dist_pos hs hne
  unfold overlap at hov
  exact ne_of_gt (by linarith)

/-- The two impulses of the velocity update cancel when weighted by the radii. -/
theorem momentum_alg (r1 r2 u1 u2 s s' c c' D D' : K) (hR : r1 + r2 ≠ 0) (hD : D ≠ 0)
    (hs : s' = s) (hc : c' = -c) (hD' : D' = D) :
    r1 * (u1 - 2 * r2 / (r1 + r2) * s * c / D) + r2 * (u2 - 2 * r1 / (r2 + r1) * s' * c' / D')
      = r1 * u1 + r2 * u2 := by
  subst hs hc hD'
  have hR2 : r2 + r1 ≠ 0 := by rwa [add_comm]
  field_simp
  ring

/-- The velocity update keeps the kinetic energy, with the radius as mass. -/
theorem energy_alg (r1 r2 u1 u2 w1 w2 a b a' b' : K) (hR : r1 + r2 ≠ 0)
    (hD : a ^ 2 + b ^ 2 ≠ 0) (ha : a' = -a) (hb : b' = -b) :
    0.5 * r1 * ((u1 - 2 * r2 / (r1 + r2) * ((u1 - u2) * a + (w1 - w2) * b) * a
            / (a ^ 2 + b ^ 2)) ^ 2
        + (w1 - 2 * r2 / (r1 + r2) * ((u1 - u2) * a + (w1 - w2) * b) * b
            / (a ^ 2 + b ^ 2)) ^ 2)
      + 0.5 * r2 * ((u2 - 2 * r1 / (r2 + r1) * ((u2 - u1) * a' + (w2 - w1) * b') * a'
            / (a' ^ 2 + b' ^ 2)) ^ 2
        + (w2 - 2 * r1 / (r2 + r1) * ((u2 - u1) * a' + (w2 - w1) * b') * b'
            / (a' ^ 2 + b' ^ 2)) ^ 2)
      = 0.5 * r1 * (u1 ^ 2 + w1 ^ 2) + 0.5 * r2 * (u2 ^ 2 + w2 ^ 2) := by
  subst ha hb
  have hR2 : r2 + r1 ≠ 0 := by rwa [add_comm]
  have hD2 : (-a) ^ 2 + (-b) ^ 2 ≠ 0 := by simpa using hD
  norm_num
  field_simp
  ring


/-- The formula of the specification only depends on the direction of `x1 - x2`. -/
theorem spec_elastic_velocity_scale (m1 m2 : K) (v1 v2 x1 x2 y1 y2 : Vector2f K) (c : K)
    (hc : c ≠ 0) (hD : (x1.x - x2.x) ^ 2 + (x1.y - x2.y) ^ 2 ≠ 0)
    (hx : y1.x - y2.x = (x1.x - x2.x) * c) (hy : y1.y - y2.y = (x1.y - x2.y) * c) :
    spec_elastic_velocity m1 m2 v1 v2 y1 y2 = spec_elastic_velocity m1 m2 v1 v2 x1 x2 := by
  have hD2 : ((x1.x - x2.x) * c) ^ 2 + ((x1.y - x2.y) * c) ^ 2 ≠ 0 := by
    have : ((x1.x - x2.x) * c) ^ 2 + ((x1.y - x2.y) * c) ^ 2
        = ((x1.x - x2.x) ^ 2 + (x1.y - x2.y) ^ 2) * c ^ 2 := by ring
    rw [this]
    exact mul_ne_zero hD (pow_ne_zero 2 hc)
  ext
  · simp only [spec_elastic_velocity, hx, hy]
    by_cases hm : m1 + m2 = 0
    · simp [hm]
    · field_simp
      ring
  · simp only [spec_elastic_velocity, hx, hy]
    by_cases hm : m1 + m2 = 0
    · simp [hm]
    · field_simp
      ring

theorem resolved_zdot_fst (sqrt : K → K) (b1 b2 : ball K) :
    (resolved sqrt b1 b2).1.zdot
      = spec_elastic_velocity b1.radius b2.radius b1.zdot b2.zdot
          (resolved sqrt b1 b2).1.z (resolved sqrt b1 b2).2.z := by
  ext
  · simp only [spec_elastic_velocity, resolved]; ring
  · simp only [spec_elastic_velocity, resolved]; ring

theorem resolved_zdot_snd (sqrt : K → K) (b1 b2 : ball K) :
    (resolved sqrt b1 b2).2.zdot
      = spec_elastic_velocity b2.radius b1.radius b2.zdot b1.zdot
          (resolved sqrt b1 b2).2.z (resolved sqrt b1 b2).1.z := by
  ext
  · simp only [spec_elastic_velocity, resolved]; ring
  · simp only [spec_elastic_velocity, resolved]; ring

theorem sqdist_ne_fst {b1 b2 : ball K} (hne : b1.z ≠ b2.z) :
    (b1.z.x - b2.z.x) ^ 2 + (b1.z.y - b2.z.y) ^ 2 ≠ 0 := by
  have h := sqdist_pos hne
  have e : (b1.z.x - b2.z.x) ^ 2 + (b1.z.y - b2.z.y) ^ 2
      = (b2.z.x - b1.z.x) ^ 2 + (b2.z.y - b1.z.y) ^ 2 := by ring
  rw [e]
  exact h.ne'

theorem resolved_zdot_entry {sqrt : K → K} (hs : IsSqrt sqrt) {b1 b2 : ball K}
    (hne : b1.z ≠ b2.z) (hov : 0 ≤ overlap sqrt b1 b2) :
    (resolved sqrt b1 b2).1.zdot
        = spec_elastic_velocity b1.radius b2.radius b1.zdot b2.zdot b1.z b2.z
    ∧ (resolved sqrt b1 b2).2.zdot
        = spec_elastic_velocity b2.radius b1.radius b2.zdot b1.zdot b2.z b1.z := by
  have hd := (dist_pos hs hne).ne'
  have hR := radius_sum_ne hs hne hov
  have hc : (b1.radius + b2.radius) / dist sqrt b1 b2 ≠ 0 := div_ne_zero hR hd
  have hx := resolved_dx hs hne
  have hy := resolved_dy hs hne
  constructor
  · rw [resolved_zdot_fst]
    refine spec_elastic_velocity_scale _ _ _ _ _ _ _ _ _ hc (sqdist_ne_fst hne) ?_ ?_
    · have : (resolved sqrt b1 b2).1.z.x - (resolved sqrt b1 b2).2.z.x
          = -((resolved sqrt b1 b2).2.z.x - (resolved sqrt b1 b2).1.z.x) := by ring
      rw [this, hx]; ring
    · have : (resolved sqrt b1 b2).1.z.y - (resolved sqrt b1 b2).2.z.y
          = -((resolved sqrt b1 b2).2.z.y - (resolved sqrt b1 b2).1.z.y) := by ring
      rw [this, hy]; ring
  · rw [resolved_zdot_snd]
    refine spec_elastic_velocity_scale _ _ _ _ _ _ _ _ _ hc (sqdist_pos hne).ne' ?_ ?_
    · rw [hx]; ring
    · rw [hy]; ring

/-- On a head-on pair of equal mass the formula of the specification hands ball 1 the
velocity of ball 2. -/
theorem spec_elastic_velocity_head_on (r : K) (hr : 0 < r) (v1 v2 x1 x2 : Vector2f K)
    (hD : (x1.x - x2.x) ^ 2 + (x1.y - x2.y) ^ 2 ≠ 0)
    (h1 : v1.x * (x2.y - x1.y) = v1.y * (x2.x - x1.x))
    (h2 : v2.x * (x2.y - x1.y) = v2.y * (x2.x - x1.x)) :
    spec_elastic_velocity r r v1 v2 x1 x2 = v2 := by
  have hr2 : r + r ≠ 0 := by positivity
  ext
  · simp only [spec_elastic_velocity]
    field_simp
    linear_combination (-(2 * r * (x1.y - x2.y))) * h1 + (2 * r * (x1.y - x2.y)) * h2
  · simp only [spec_elastic_velocity]
    field_simp
    linear_combination (2 * r * (x1.x - x2.x)) * h1 - (2 * r * (x1.x - x2.x)) * h2

theorem coef_rest_eq : (coef_rest : K) = 0.8 := rfl


/-! ## The tick loop: lengths and commutation -/

theorem collide_at_some {sqrt : K → K} {i j : Nat} {v : List (ball K)} {b1 b2 : ball K}
    (hi : v[i]? = some b1) (hj : v[j]? = some b2) :
    collide_at sqrt i j v
      = (collide_ball sqrt b1 b2).bind fun c => some ((v.set i c.1).set j c.2) := by
  simp only [collide_at, hi, hj]
  rfl

theorem collide_at_none_fst {sqrt : K → K} {i j : Nat} {v : List (ball K)}
    (hi : v[i]? = none) : collide_at sqrt i j v = some v := by
  simp only [collide_at, hi]
  rfl

theorem collide_at_none_snd {sqrt : K → K} {i j : Nat} {v : List (ball K)}
    (hj : v[j]? = none) : collide_at sqrt i j v = some v := by
  simp only [collide_at, hj]
  cases v[i]? <;> rfl

theorem wall_update_at_some {sqrt : K → K} {dt : K} {m : Vector2i} {isLeft isRight : Bool}
    {i : Nat} (s : List (ball K) × K) {b : ball K} (hi : s.1[i]? = some b) :
    wall_update_at sqrt dt m isLeft isRight i s
      = (update sqrt (collide_wall b) dt m isLeft isRight).bind
          fun c => some (s.1.set i c, s.2 + c.KE) := by
  simp only [wall_update_at, hi]
  rfl

theorem wall_update_at_none {sqrt : K → K} {dt : K} {m : Vector2i} {isLeft isRight : Bool}
    {i : Nat} (s : List (ball K) × K) (hi : s.1[i]? = none) :
    wall_update_at sqrt dt m isLeft isRight i s = some s := by
  simp only [wall_update_at, hi]
  rfl

theorem collide_at_length {sqrt : K → K} {i j : Nat} {v w : List (ball K)}
    (h : collide_at sqrt i j v = some w) : w.length = v.length := by
  cases hi : v[i]? with
  | none => rw [collide_at_none_fst hi] at h; cases h; rfl
  | some b1 =>
    cases hj : v[j]? with
    | none => rw [collide_at_none_snd hj] at h; cases h; rfl
    | some b2 =>
      rw [collide_at_some hi hj] at h
      cases hc : collide_ball sqrt b1 b2 with
      | none => rw [hc] at h; cases h
      | some c => rw [hc] at h; cases h; simp

theorem collide_rest_length {sqrt : K → K} {i : Nat} {v w : List (ball K)}
    (h : collide_rest sqrt i v = some w) : w.length = v.length :=
  foldlM_length (fun j v => collide_at sqrt i j v) (fun _ _ _ hc => collide_at_length hc) _ v w h

theorem wall_update_at_length {sqrt : K → K} {dt : K} {m : Vector2i} {isLeft isRight : Bool}
    {i : Nat} {s t : List (ball K) × K}
    (h : wall_update_at sqrt dt m isLeft isRight i s = some t) : t.1.length = s.1.length := by
  cases hi : s.1[i]? with
  | none => rw [wall_update_at_none s hi] at h; cases h; rfl
  | some b =>
    rw [wall_update_at_some s hi] at h
    cases hu : update sqrt (collide_wall b) dt m isLeft isRight with
    | none => rw [hu] at h; cases h
    | some c => rw [hu] at h; cases h; simp

/-- The wall-and-update step of ball `i` commutes with a pair collision that does not
involve ball `i`. -/
theorem wall_update_at_comm_collide_at (sqrt : K → K) (dt : K) (m : Vector2i)
    (isLeft isRight : Bool) {i j k : Nat} (hij : i ≠ j) (hik : i ≠ k)
    (s : List (ball K) × K) :
    (wall_update_at sqrt dt m isLeft isRight i s >>= on_vector (collide_at sqrt j k))
      = on_vector (collide_at sqrt j k) s >>= wall_update_at sqrt dt m isLeft isRight i := by
  obtain ⟨v, acc⟩ := s
  -- the pair collision, when it runs, keeps element `i`
  have keep : ∀ w, collide_at sqrt j k v = some w → w[i]? = v[i]? := by
    intro w hw
    cases hj : v[j]? with
    | none => rw [collide_at_none_fst hj] at hw; cases hw; rfl
    | some b1 =>
      cases hk : v[k]? with
      | none => rw [collide_at_none_snd hk] at hw; cases hw; rfl
      | some b2 =>
        rw [collide_at_some hj hk] at hw
        cases hc : collide_ball sqrt b1 b2 with
        | none => rw [hc] at hw; cases hw
        | some c =>
          rw [hc] at hw; cases hw
          rw [List.getElem?_set_ne hik.symm, List.getElem?_set_ne hij.symm]
  cases hi : v[i]? with
  | none =>
    rw [wall_update_at_none (v, acc) hi]
    show on_vector (collide_at sqrt j k) (v, acc) = _
    cases hc : collide_at sqrt j k v with
    | none => rw [on_vector_none _ (v, acc) hc]; rfl
    | some w =>
      rw [on_vector_some _ (v, acc) hc]
      have hw : w[i]? = none := by rw [keep w hc, hi]
      show _ = wall_update_at sqrt dt m isLeft isRight i (w, acc)
      rw [wall_update_at_none (w, acc) hw]
  | some b =>
    rw [wall_update_at_some (v, acc) hi]
    cases hu : update sqrt (collide_wall b) dt m isLeft isRight with
    | none =>
      show none = _
      cases hc : collide_at sqrt j k v with
      | none => rw [on_vector_none _ (v, acc) hc]; rfl
      | some w =>
        rw [on_vector_some _ (v, acc) hc]
        have hw : w[i]? = some b := by rw [keep w hc, hi]
        show none = wall_update_at sqrt dt m isLeft isRight i (w, acc)
        rw [wall_update_at_some (w, acc) hw, hu]
        rfl
    | some c =>
      show on_vector (collide_at sqrt j k) (v.set i c, acc + c.KE) = _
      cases hj : v[j]? with
      | none =>
        have hc : collide_at sqrt j k v = some v := collide_at_none_fst hj
        have hc2 : collide_at sqrt j k (v.set i c) = some (v.set i c) :=
          collide_at_none_fst (by rw [List.getElem?_set_ne hij]; exact hj)
        rw [on_vector_some _ (v, acc) hc, on_vector_some _ (v.set i c, acc + c.KE) hc2]
        show _ = wall_update_at sqrt dt m isLeft isRight i (v, acc)
        rw [wall_update_at_some (v, acc) hi, hu]
        rfl
      | some b1 =>
        cases hk : v[k]? with
        | none =>
          have hc : collide_at sqrt j k v = some v := collide_at_none_snd hk
          have hc2 : collide_at sqrt j k (v.set i c) = some (v.set i c) :=
            collide_at_none_snd (by rw [List.getElem?_set_ne hik]; exact hk)
          rw [on_vector_some _ (v, acc) hc, on_vector_some _ (v.set i c, acc + c.KE) hc2]
          show _ = wall_update_at sqrt dt m isLeft isRight i (v, acc)
          rw [wall_update_at_some (v, acc) hi, hu]
          rfl
        | some b2 =>
          have hj2 : (v.set i c)[j]? = some b1 := by rw [List.getElem?_set_ne hij]; exact hj
          have hk2 : (v.set i c)[k]? = some b2 := by rw [List.getElem?_set_ne hik]; exact hk
          cases hb : collide_ball sqrt b1 b2 with
          | none =>
            rw [on_vector_none _ (v.set i c, acc + c.KE)
                (by rw [collide_at_some hj2 hk2, hb]; rfl),
              on_vector_none _ (v, acc) (by rw [collide_at_some hj hk, hb]; rfl)]
            rfl
          | some p =>
            have hc : collide_at sqrt j k v = some ((v.set j p.1).set k p.2) := by
              rw [collide_at_some hj hk, hb]; rfl
            have hc2 : collide_at sqrt j k (v.set i c)
                = some (((v.set i c).set j p.1).set k p.2) := by
              rw [collide_at_some hj2 hk2, hb]; rfl
            rw [on_vector_some _ (v, acc) hc, on_vector_some _ (v.set i c, acc + c.KE) hc2]
            show _ = wall_update_at sqrt dt m isLeft isRight i ((v.set j p.1).set k p.2, acc)
            have hw : ((v.set j p.1).set k p.2)[i]? = some b := by rw [keep _ hc, hi]
            rw [wall_update_at_some ((v.set j p.1).set k p.2, acc) hw, hu]
            show some (((v.set i c).set j p.1).set k p.2, acc + c.KE)
              = some (((v.set j p.1).set k p.2).set i c, acc + c.KE)
            rw [List.set_comm _ _ _ hij, List.set_comm _ _ _ hik]


/-- The wall-and-update step of ball `i` commutes with the inner loop of a later
ball `j`. -/
theorem wall_update_at_comm_collide_rest (sqrt : K → K) (dt : K) (m : Vector2i)
    (isLeft isRight : Bool) {i j : Nat} (hij : i < j) (s : List (ball K) × K) :
    (wall_update_at sqrt dt m isLeft isRight i s >>= on_vector (collide_rest sqrt j))
      = on_vector (collide_rest sqrt j) s >>= wall_update_at sqrt dt m isLeft isRight i := by
  have key : ∀ t : List (ball K) × K, t.1.length = s.1.length →
      on_vector (collide_rest sqrt j) t
        = (List.range' (j + 1) (s.1.length - (j + 1))).foldlM
            (fun t k => on_vector (collide_at sqrt j k) t) t := by
    intro t ht
    rw [← on_vector_foldlM]
    simp only [on_vector, collide_rest, ht]
  have e1 : (wall_update_at sqrt dt m isLeft isRight i s >>= on_vector (collide_rest sqrt j))
      = (wall_update_at sqrt dt m isLeft isRight i s >>= fun t =>
          (List.range' (j + 1) (s.1.length - (j + 1))).foldlM
            (fun t k => on_vector (collide_at sqrt j k) t) t) := by
    cases h : wall_update_at sqrt dt m isLeft isRight i s with
    | none => rfl
    | some t => exact key t (wall_update_at_length h)
  rw [e1, key s rfl]
  refine bind_foldlM_comm (wall_update_at sqrt dt m isLeft isRight i)
    (fun k => on_vector (collide_at sqrt j k)) _ ?_ s
  intro k hk u
  have hk1 : j + 1 ≤ k := (List.mem_range'_1.mp hk).1
  exact wall_update_at_comm_collide_at sqrt dt m isLeft isRight (by omega) (by omega) u


end

/-! ## The real numbers as an instance -/

theorem isSqrt_real : IsSqrt Real.sqrt :=
  fun x hx => ⟨Real.sqrt_nonneg x, Real.mul_self_sqrt hx⟩

theorem real_sqrt_of_sq {s c : ℝ} (hc : 0 ≤ c) (h : s = c ^ 2) : Real.sqrt s = c := by
  rw [h]; exact Real.sqrt_sq hc

theorem real_overlap_of_sq (b1 b2 : ball ℝ) (d : ℝ) (hd : 0 ≤ d)
    (h : (b2.z.x - b1.z.x) ^ 2 + (b2.z.y - b1.z.y) ^ 2 = d ^ 2) :
    overlap Real.sqrt b1 b2 = (b1.radius + b2.radius) - d := by
  unfold overlap dist
  rw [real_sqrt_of_sq hd h]

/-! ## Binary floating point

The rounded code with the identity as rounding is the exact code.  The roundings
`round_to` and `sqrt_to` are proved to be roundings to nearest, ties to even.  Two
readings of the precision of the library calls are then evaluated side by side: the
first with everything in binary32 (`fl32`, `fl32`, `sqrt32`), the second with `pow`,
`sqrt` and the arithmetic on their results in binary64 (`fl32`, `fl64`, `sqrt64`). -/

section
variable {K : Type} [LinearOrderedField K]

theorem dist_fl_id (sqrt : K → K) (b1 b2 : ball K) :
    dist_fl id id sqrt b1 b2 = dist sqrt b1 b2 := rfl

theorem overlap_fl_id (sqrt : K → K) (b1 b2 : ball K) :
    overlap_fl id id sqrt b1 b2 = overlap sqrt b1 b2 := rfl

theorem collide_ball_fl_id (sqrt : K → K) (b1 b2 : ball K) :
    collide_ball_fl id id sqrt b1 b2 = collide_ball sqrt b1 b2 := rfl

theorem spec_elastic_velocity_fl_id (m1 m2 : K) (v1 v2 x1 x2 : Vector2f K) :
    spec_elastic_velocity_fl id m1 m2 v1 v2 x1 x2 = spec_elastic_velocity m1 m2 v1 v2 x1 x2 :=
  rfl

end

/-! ### The roundings are the IEEE-754 ones -/

/-- The worker of `bits` counts the binary digits when the bound is large enough. -/
theorem bits_aux_spec (f n : ℕ) (h : n ≤ f) :
    n < 2 ^ bits_aux f n ∧ (0 < n → 2 ^ (bits_aux f n - 1) ≤ n) := by
  induction f generalizing n with
  | zero =>
    have : n = 0 := by omega
    subst this
    simp [bits_aux]
  | succ f ih =>
    unfold bits_aux
    by_cases hn : n = 0
    · subst hn; simp
    · rw [if_neg hn]
      have h2 : n / 2 ≤ f := by omega
      obtain ⟨h3, h4⟩ := ih (n / 2) h2
      constructor
      · rw [pow_succ]; omega
      · intro _
        rw [Nat.add_sub_cancel]
        by_cases h5 : n / 2 = 0
        · have : bits_aux f (n / 2) = 0 := by
            rw [h5]; cases f <;> simp [bits_aux]
          rw [this]; simp; omega
        · have h6 := h4 (Nat.pos_of_ne_zero h5)
          have h7 : bits_aux f (n / 2) ≠ 0 := by
            intro h0
            rw [h0] at h3
            simp at h3
            exact h5 h3
          obtain ⟨k, hk⟩ := Nat.exists_eq_succ_of_ne_zero h7
          rw [hk] at h6 ⊢
          rw [Nat.succ_sub_one] at h6
          rw [pow_succ]
          omega

/-- A positive `n` has `bits n` binary digits: `2 ^ (bits n - 1) ≤ n < 2 ^ bits n`. -/
theorem bits_spec (n : ℕ) (h : 0 < n) : 2 ^ (bits n - 1) ≤ n ∧ n < 2 ^ bits n :=
  ⟨(bits_aux_spec n n le_rfl).2 h, (bits_aux_spec n n le_rfl).1⟩

/-- The value of `scale2` as a power of two. -/
theorem scale2_eq (q : ℚ) (k : ℤ) : scale2 q k = q * (2 : ℚ) ^ k := by
  unfold scale2
  split_ifs with h
  · obtain ⟨n, rfl⟩ := Int.eq_ofNat_of_zero_le h
    simp
  · push_neg at h
    obtain ⟨n, hn⟩ := Int.eq_ofNat_of_zero_le (by omega : 0 ≤ -k)
    have hk : k = -(n : ℤ) := by omega
    subst hk
    simp [div_eq_mul_inv]

/-- The integer `round_half_even q` is nearest to `q`, and even when `q` is half-way
between two integers. -/
theorem round_half_even_spec (q : ℚ) :
    |(round_half_even q : ℚ) - q| ≤ 1 / 2
      ∧ (|(round_half_even q : ℚ) - q| = 1 / 2 → round_half_even q % 2 = 0) := by
  have hd : (0 : ℤ) < (q.den : ℤ) := by exact_mod_cast q.den_pos
  have hdq : (0 : ℚ) < (q.den : ℚ) := by exact_mod_cast q.den_pos
  have hr0 : 0 ≤ q.num % (q.den : ℤ) := Int.emod_nonneg _ hd.ne'
  have hr1 : q.num % (q.den : ℤ) < (q.den : ℤ) := Int.emod_lt_of_pos _ hd
  have hsplit : (q.den : ℤ) * (q.num / (q.den : ℤ)) + q.num % (q.den : ℤ) = q.num :=
    Int.ediv_add_emod _ _
  have hq : q = ((q.num / (q.den : ℤ) : ℤ) : ℚ) + ((q.num % (q.den : ℤ) : ℤ) : ℚ) / (q.den : ℚ) := by
    have h1 : (q.num : ℚ) = (q.den : ℚ) * ((q.num / (q.den : ℤ) : ℤ) : ℚ)
        + ((q.num % (q.den : ℤ) : ℤ) : ℚ) := by exact_mod_cast hsplit.symm
    conv_lhs => rw [← Rat.num_div_den q, h1]
    field_simp
    ring
  generalize hn : q.num / (q.den : ℤ) = n at *
  generalize hrr : q.num % (q.den : ℤ) = r at *
  have hr0q : (0 : ℚ) ≤ (r : ℚ) := by exact_mod_cast hr0
  have hr1q : (r : ℚ) < (q.den : ℚ) := by exact_mod_cast hr1
  have key : ∀ m : ℤ, ((m : ℚ)) - q = ((m - n : ℤ) : ℚ) - (r : ℚ) / (q.den : ℚ) := by
    intro m
    conv_lhs => rw [hq]
    push_cast
    ring
  unfold round_half_even
  simp only [hn, hrr]
  split_ifs with h1 h2 h3
  · have h1q : 2 * (r : ℚ) < (q.den : ℚ) := by exact_mod_cast h1
    have e : |((n : ℤ) : ℚ) - q| = (r : ℚ) / (q.den : ℚ) := by
      rw [key, sub_self, Int.cast_zero, zero_sub, abs_neg, abs_of_nonneg (div_nonneg hr0q hdq.le)]
    rw [e]
    have : (r : ℚ) / (q.den : ℚ) < 1 / 2 := by
      rw [div_lt_iff₀ hdq]; linarith
    exact ⟨this.le, fun h => absurd h this.ne⟩
  · have h2q : (q.den : ℚ) < 2 * (r : ℚ) := by exact_mod_cast h2
    have e : |((n + 1 : ℤ) : ℚ) - q| = 1 - (r : ℚ) / (q.den : ℚ) := by
      rw [key]
      have : ((n + 1 - n : ℤ) : ℚ) = 1 := by push_cast; ring
      rw [this, abs_of_nonneg]
      rw [sub_nonneg, div_le_one hdq]
      exact hr1q.le
    rw [e]
    have : 1 - (r : ℚ) / (q.den : ℚ) < 1 / 2 := by
      have : 1 / 2 < (r : ℚ) / (q.den : ℚ) := by
        rw [lt_div_iff₀ hdq]; linarith
      linarith
    exact ⟨this.le, fun h => absurd h this.ne⟩
  · have heq : 2 * r = (q.den : ℤ) := le_antisymm (not_lt.mp h2) (not_lt.mp h1)
    have heqq : (r : ℚ) / (q.den : ℚ) = 1 / 2 := by
      have : 2 * (r : ℚ) = (q.den : ℚ) := by exact_mod_cast heq
      rw [div_eq_iff hdq.ne']; linarith
    refine ⟨?_, fun _ => h3⟩
    rw [key, sub_self, Int.cast_zero, zero_sub, abs_neg, heqq, abs_of_pos (by norm_num)]
  · have heq : 2 * r = (q.den : ℤ) := le_antisymm (not_lt.mp h2) (not_lt.mp h1)
    have heqq : (r : ℚ) / (q.den : ℚ) = 1 / 2 := by
      have : 2 * (r : ℚ) = (q.den : ℚ) := by exact_mod_cast heq
      rw [div_eq_iff hdq.ne']; linarith
    have : ((n + 1 - n : ℤ) : ℚ) = 1 := by push_cast; ring
    refine ⟨?_, fun _ => by omega⟩
    rw [key, this, heqq, abs_of_pos (by norm_num)]
    norm_num


/-- The absolute value of a rational from its numerator and denominator. -/
theorem abs_eq_natAbs_div_den (q : ℚ) : |q| = (q.num.natAbs : ℚ) / (q.den : ℚ) := by
  have hdq : (0 : ℚ) < (q.den : ℚ) := by exact_mod_cast q.den_pos
  conv_lhs => rw [← Rat.num_div_den q]
  rw [abs_div, abs_of_pos hdq, Nat.cast_natAbs, Int.cast_abs]

/-- The binary exponent: `2 ^ exponent2 q ≤ |q| < 2 ^ (exponent2 q + 1)`. -/
theorem exponent2_spec (q : ℚ) (hq : q ≠ 0) :
    (2 : ℚ) ^ exponent2 q ≤ |q| ∧ |q| < (2 : ℚ) ^ (exponent2 q + 1) := by
  have hdq : (0 : ℚ) < (q.den : ℚ) := by exact_mod_cast q.den_pos
  have ha : 0 < q.num.natAbs := Int.natAbs_pos.mpr (Rat.num_ne_zero.mpr hq)
  obtain ⟨ha1, ha2⟩ := bits_spec _ ha
  obtain ⟨hd1, hd2⟩ := bits_spec _ q.den_pos
  have hbn : bits q.num.natAbs ≠ 0 := by
    intro h; rw [h, pow_zero] at ha2; omega
  have hbd : bits q.den ≠ 0 := by
    intro h; rw [h, pow_zero] at hd2; have := q.den_pos; omega
  have ha1q : (2 : ℚ) ^ (bits q.num.natAbs - 1) ≤ (q.num.natAbs : ℚ) := by exact_mod_cast ha1
  have ha2q : (q.num.natAbs : ℚ) < (2 : ℚ) ^ (bits q.num.natAbs) := by exact_mod_cast ha2
  have hd1q : (2 : ℚ) ^ (bits q.den - 1) ≤ (q.den : ℚ) := by exact_mod_cast hd1
  have hd2q : (q.den : ℚ) < (2 : ℚ) ^ (bits q.den) := by exact_mod_cast hd2
  have e1 : (2 : ℚ) ^ (bits q.num.natAbs) = 2 * (2 : ℚ) ^ (bits q.num.natAbs - 1) := by
    obtain ⟨k, hk⟩ := Nat.exists_eq_succ_of_ne_zero hbn
    rw [hk, Nat.succ_sub_one, pow_succ]; ring
  have e2 : (2 : ℚ) ^ (bits q.den) = 2 * (2 : ℚ) ^ (bits q.den - 1) := by
    obtain ⟨k, hk⟩ := Nat.exists_eq_succ_of_ne_zero hbd
    rw [hk, Nat.succ_sub_one, pow_succ]; ring
  have hl : ∀ j : ℤ, (2 : ℚ) ^ ((bits q.num.natAbs : ℤ) - (bits q.den : ℤ) + j)
      = (2 : ℚ) ^ (bits q.num.natAbs) / (2 : ℚ) ^ (bits q.den) * (2 : ℚ) ^ j := by
    intro j
    rw [zpow_add₀ (by norm_num), zpow_sub₀ (by norm_num), zpow_natCast, zpow_natCast]
  have hpa : (0 : ℚ) < (2 : ℚ) ^ (bits q.num.natAbs - 1) := by positivity
  have hpd : (0 : ℚ) < (2 : ℚ) ^ (bits q.den - 1) := by positivity
  have hup : |q| < (2 : ℚ) ^ ((bits q.num.natAbs : ℤ) - (bits q.den : ℤ) + 1) := by
    rw [hl, abs_eq_natAbs_div_den, e1, e2, div_lt_iff₀ hdq]
    have : 2 * (2 : ℚ) ^ (bits q.num.natAbs - 1) / (2 * (2 : ℚ) ^ (bits q.den - 1)) * 2 ^ (1 : ℤ)
        * (q.den : ℚ)
        = 2 * (2 : ℚ) ^ (bits q.num.natAbs - 1) * ((q.den : ℚ) / (2 : ℚ) ^ (bits q.den - 1)) := by
      field_simp
      ring
    rw [this]
    have h1 : 1 ≤ (q.den : ℚ) / (2 : ℚ) ^ (bits q.den - 1) := by
      rw [le_div_iff₀ hpd]; linarith
    nlinarith
  have hlow : (2 : ℚ) ^ ((bits q.num.natAbs : ℤ) - (bits q.den : ℤ) + (-1)) ≤ |q| := by
    rw [hl, abs_eq_natAbs_div_den, e1, le_div_iff₀ hdq]
    have : 2 * (2 : ℚ) ^ (bits q.num.natAbs - 1) / (2 : ℚ) ^ (bits q.den) * 2 ^ (-1 : ℤ)
        * (q.den : ℚ)
        = (2 : ℚ) ^ (bits q.num.natAbs - 1) * ((q.den : ℚ) / (2 : ℚ) ^ (bits q.den)) := by
      rw [zpow_neg, zpow_one]
      field_simp
      ring
    rw [this]
    have h1 : (q.den : ℚ) / (2 : ℚ) ^ (bits q.den) ≤ 1 := by
      rw [div_le_one (by positivity)]; exact hd2q.le
    nlinarith
  unfold exponent2
  simp only [scale2_eq, one_mul]
  split_ifs with h
  · exact ⟨h, hup⟩
  · push_neg at h
    refine ⟨?_, ?_⟩
    · rw [sub_eq_add_neg]; exact hlow
    · rw [sub_add_cancel]; exact h

/-- Rounding to `p` digits is rounding to nearest, ties to even: `round_to p q` is an
integer `m` of at most `p` digits (or `2 ^ p`) times the unit in the last place of the
binade of `q`, it is within half a unit of `q`, and `m` is even when it is exactly half
a unit away. -/
theorem round_to_spec (p : ℕ) (q : ℚ) (hq : q ≠ 0) :
    ∃ m : ℤ, round_to p q = (m : ℚ) * (2 : ℚ) ^ (exponent2 q - ((p : ℤ) - 1))
      ∧ |m| ≤ 2 ^ p
      ∧ |round_to p q - q| ≤ (2 : ℚ) ^ (exponent2 q - (p : ℤ))
      ∧ (|round_to p q - q| = (2 : ℚ) ^ (exponent2 q - (p : ℤ)) → m % 2 = 0) := by
  obtain ⟨he1, he2⟩ := exponent2_spec q hq
  obtain ⟨hr1, hr2⟩ := round_half_even_spec (scale2 q (-(exponent2 q - ((p : ℤ) - 1))))
  generalize hm : round_half_even (scale2 q (-(exponent2 q - ((p : ℤ) - 1)))) = m at *
  have hrt : round_to p q = (m : ℚ) * (2 : ℚ) ^ (exponent2 q - ((p : ℤ) - 1)) := by
    unfold round_to
    rw [if_neg hq]
    dsimp only
    rw [hm, scale2_eq]
  have h2 : (0 : ℚ) < (2 : ℚ) ^ (exponent2 q - ((p : ℤ) - 1)) := by positivity
  have hx : scale2 q (-(exponent2 q - ((p : ℤ) - 1)))
      = q / (2 : ℚ) ^ (exponent2 q - ((p : ℤ) - 1)) := by
    rw [scale2_eq, zpow_neg, div_eq_mul_inv]
  have herr : |round_to p q - q|
      = |(m : ℚ) - scale2 q (-(exponent2 q - ((p : ℤ) - 1)))|
        * (2 : ℚ) ^ (exponent2 q - ((p : ℤ) - 1)) := by
    rw [hrt, hx, ← abs_of_pos h2, ← abs_mul, abs_of_pos h2]
    congr 1
    field_simp
  have hhalf : (2 : ℚ) ^ (exponent2 q - (p : ℤ))
      = 1 / 2 * (2 : ℚ) ^ (exponent2 q - ((p : ℤ) - 1)) := by
    rw [show exponent2 q - (p : ℤ) = (exponent2 q - ((p : ℤ) - 1)) + (-1) by ring,
      zpow_add₀ (by norm_num), zpow_neg, zpow_one]
    ring
  refine ⟨m, hrt, ?_, ?_, ?_⟩
  · have hxa : |scale2 q (-(exponent2 q - ((p : ℤ) - 1)))| < (2 : ℚ) ^ p := by
      rw [hx, abs_div, abs_of_pos h2, div_lt_iff₀ h2]
      have : (2 : ℚ) ^ p * (2 : ℚ) ^ (exponent2 q - ((p : ℤ) - 1)) = (2 : ℚ) ^ (exponent2 q + 1) := by
        rw [← zpow_natCast, ← zpow_add₀ (by norm_num)]
        congr 1
        ring
      rw [this]
      exact he2
    have hmq : |(m : ℚ)| < (2 : ℚ) ^ p + 1 := by
      have := abs_sub_abs_le_abs_sub (m : ℚ) (scale2 q (-(exponent2 q - ((p : ℤ) - 1))))
      linarith
    have hmz : |m| < 2 ^ p + 1 := by
      have : ((|m| : ℤ) : ℚ) < ((2 ^ p + 1 : ℤ) : ℚ) := by
        push_cast
        exact hmq
      exact_mod_cast this
    omega
  · rw [herr, hhalf]
    exact mul_le_mul_of_nonneg_right hr1 h2.le
  · intro h
    apply hr2
    rw [herr, hhalf] at h
    exact mul_right_cancel₀ h2.ne' h

/-- The invariant of the digit loop of `isqrt`. -/
theorem isqrt_aux_spec (n : ℕ) (i r : ℕ) (h1 : r * r ≤ n) (h2 : n < (r + 2 ^ i) * (r + 2 ^ i)) :
    isqrt_aux n i r * isqrt_aux n i r ≤ n
      ∧ n < (isqrt_aux n i r + 1) * (isqrt_aux n i r + 1) := by
  induction i generalizing r with
  | zero => simpa [isqrt_aux] using ⟨h1, h2⟩
  | succ i ih =>
    unfold isqrt_aux
    split_ifs with h
    · apply ih _ h
      have : r + 2 ^ i + 2 ^ i = r + 2 ^ (i + 1) := by rw [pow_succ]; ring
      rw [this]; exact h2
    · exact ih _ h1 (not_le.mp h)

/-- The integer square root: `isqrt n ^ 2 ≤ n < (isqrt n + 1) ^ 2`. -/
theorem isqrt_spec (n : ℕ) : isqrt n * isqrt n ≤ n ∧ n < (isqrt n + 1) * (isqrt n + 1) := by
  unfold isqrt
  apply isqrt_aux_spec
  · simp
  · rw [zero_add]
    by_cases hn : n = 0
    · subst hn; simp
    · have h := (bits_spec n (Nat.pos_of_ne_zero hn)).2
      have h3 : bits n ≤ 2 * (bits n / 2 + 1) := by omega
      calc n < 2 ^ bits n := h
        _ ≤ 2 ^ (2 * (bits n / 2 + 1)) := Nat.pow_le_pow_right (by norm_num) h3
        _ = 2 ^ (bits n / 2 + 1) * 2 ^ (bits n / 2 + 1) := by rw [two_mul, pow_add]


/-- Rounding `t` or `t + 1/2` to a multiple of 4 gives a multiple of 4 within 2 of the
root of `s`, when `t` is the integer part of that root. -/
theorem sqrt_round_core (s : ℚ) (t : ℕ) (M : ℤ) (ht1 : (t : ℚ) ^ 2 ≤ s)
    (ht2 : s < ((t : ℚ) + 1) ^ 2) (ht : 2 ≤ t)
    (hM : |(M : ℚ) - (if ((t * t : ℕ) : ℚ) = s then (t : ℚ) else (t : ℚ) + 1 / 2) / 4| ≤ 1 / 2) :
    (4 * (M : ℚ) - 2) ^ 2 ≤ s ∧ s ≤ (4 * (M : ℚ) + 2) ^ 2
      ∧ (t : ℤ) - 2 ≤ 4 * M ∧ 4 * M ≤ (t : ℤ) + 2 := by
  have htq : (2 : ℚ) ≤ (t : ℚ) := by exact_mod_cast ht
  rw [abs_le] at hM
  obtain ⟨hM1, hM2⟩ := hM
  split_ifs at hM1 hM2 with h
  · have hs : s = (t : ℚ) ^ 2 := by rw [← h]; push_cast; ring
    have a1 : ((t : ℤ) : ℚ) - 2 ≤ ((4 * M : ℤ) : ℚ) := by push_cast; linarith
    have a2 : ((4 * M : ℤ) : ℚ) ≤ ((t : ℤ) : ℚ) + 2 := by push_cast; linarith
    have b1 : (t : ℤ) - 2 ≤ 4 * M := by exact_mod_cast a1
    have b2 : 4 * M ≤ (t : ℤ) + 2 := by exact_mod_cast a2
    push_cast at a1 a2
    refine ⟨?_, ?_, b1, b2⟩
    · rw [hs]; exact sq_le_sq' (by linarith) (by linarith)
    · rw [hs]; exact sq_le_sq' (by linarith) (by linarith)
  · have a1 : (((t : ℤ) - 2 : ℤ) : ℚ) < ((4 * M : ℤ) : ℚ) := by push_cast; linarith
    have a2 : ((4 * M : ℤ) : ℚ) < (((t : ℤ) + 3 : ℤ) : ℚ) := by push_cast; linarith
    have b1 : (t : ℤ) - 2 < 4 * M := by exact_mod_cast a1
    have b2 : 4 * M < (t : ℤ) + 3 := by exact_mod_cast a2
    have c1 : (4 * M : ℤ) - 2 ≤ (t : ℤ) := by omega
    have c2 : (t : ℤ) + 1 ≤ 4 * M + 2 := by omega
    have d1 : 4 * (M : ℚ) - 2 ≤ (t : ℚ) := by exact_mod_cast c1
    have d2 : (t : ℚ) + 1 ≤ 4 * (M : ℚ) + 2 := by exact_mod_cast c2
    have d3 : -(t : ℚ) ≤ 4 * (M : ℚ) - 2 := by
      have : (((t : ℤ) - 1 : ℤ) : ℚ) ≤ ((4 * M : ℤ) : ℚ) := by exact_mod_cast (by omega : (t : ℤ) - 1 ≤ 4 * M)
      push_cast at this
      linarith
    refine ⟨?_, ?_, by omega, by omega⟩
    · exact le_trans (sq_le_sq' d3 d1) ht1
    · exact le_trans ht2.le (sq_le_sq' (by linarith) d2)

/-- The binary exponent is determined by its bracket. -/
theorem exponent2_unique (q : ℚ) (a : ℤ) (h1 : (2 : ℚ) ^ a ≤ |q|) (h2 : |q| < (2 : ℚ) ^ (a + 1)) :
    exponent2 q = a := by
  have hq : q ≠ 0 := by
    intro h
    rw [h, abs_zero] at h1
    exact absurd h1 (not_le.mpr (by positivity))
  obtain ⟨e1, e2⟩ := exponent2_spec q hq
  have ha : a < exponent2 q + 1 :=
    (zpow_lt_zpow_iff_right₀ (by norm_num : (1 : ℚ) < 2)).mp (lt_of_le_of_lt h1 e2)
  have hb : exponent2 q < a + 1 :=
    (zpow_lt_zpow_iff_right₀ (by norm_num : (1 : ℚ) < 2)).mp (lt_of_le_of_lt e1 h2)
  omega

/-- The rounded square root is correctly rounded to nearest: `sqrt_to p q` is a positive
integer `m ≤ 2 ^ p` times the unit `u` in the last place of the binade of the root, and
the root of `q` lies between `(m - 1/2) u` and `(m + 1/2) u`. -/
theorem sqrt_to_spec (p : ℕ) (hp : 1 ≤ p) (q : ℚ) (hq : 0 < q) :
    ∃ m : ℤ, 0 < m ∧ m ≤ 2 ^ p
      ∧ sqrt_to p q = (m : ℚ) * (2 : ℚ) ^ (exponent2 q / 2 - ((p : ℤ) - 1))
      ∧ (((m : ℚ) - 1 / 2) * (2 : ℚ) ^ (exponent2 q / 2 - ((p : ℤ) - 1))) ^ 2 ≤ q
      ∧ q ≤ (((m : ℚ) + 1 / 2) * (2 : ℚ) ^ (exponent2 q / 2 - ((p : ℤ) - 1))) ^ 2 := by
  obtain ⟨he1, he2⟩ := exponent2_spec q hq.ne'
  rw [abs_of_pos hq] at he1 he2
  have two1 : (1 : ℚ) < 2 := by norm_num
  have two0 : (2 : ℚ) ≠ 0 := by norm_num
  generalize he : exponent2 q = e at *
  -- the scaled argument
  have hs : scale2 q (2 * ((p : ℤ) + 1 - e / 2)) = q * (2 : ℚ) ^ (2 * ((p : ℤ) + 1 - e / 2)) :=
    scale2_eq _ _
  generalize hsdef : scale2 q (2 * ((p : ℤ) + 1 - e / 2)) = s at *
  have hk0 : (0 : ℚ) < (2 : ℚ) ^ (2 * ((p : ℤ) + 1 - e / 2)) := by positivity
  have hs_lo : (2 : ℚ) ^ (2 * p + 2) ≤ s := by
    rw [hs]
    calc (2 : ℚ) ^ (2 * p + 2) = (2 : ℚ) ^ (((2 * p + 2 : ℕ)) : ℤ) := (zpow_natCast _ _).symm
      _ ≤ (2 : ℚ) ^ (e + 2 * ((p : ℤ) + 1 - e / 2)) :=
          zpow_le_zpow_right₀ two1.le (by push_cast; omega)
      _ = (2 : ℚ) ^ e * (2 : ℚ) ^ (2 * ((p : ℤ) + 1 - e / 2)) := zpow_add₀ two0 _ _
      _ ≤ q * (2 : ℚ) ^ (2 * ((p : ℤ) + 1 - e / 2)) := mul_le_mul_of_nonneg_right he1 hk0.le
  have hs_hi : s < (2 : ℚ) ^ (2 * p + 4) := by
    rw [hs]
    calc q * (2 : ℚ) ^ (2 * ((p : ℤ) + 1 - e / 2))
        < (2 : ℚ) ^ (e + 1) * (2 : ℚ) ^ (2 * ((p : ℤ) + 1 - e / 2)) :=
          mul_lt_mul_of_pos_right he2 hk0
      _ = (2 : ℚ) ^ (e + 1 + 2 * ((p : ℤ) + 1 - e / 2)) := (zpow_add₀ two0 _ _).symm
      _ ≤ (2 : ℚ) ^ (((2 * p + 4 : ℕ)) : ℤ) :=
          zpow_le_zpow_right₀ two1.le (by push_cast; omega)
      _ = (2 : ℚ) ^ (2 * p + 4) := zpow_natCast _ _
  have hs0 : 0 ≤ s := le_trans (by positivity) hs_lo
  -- the integer part of the root
  have hfl : s.num / (s.den : ℤ) = ⌊s⌋ := Rat.floor_def.symm
  have hfl0 : 0 ≤ ⌊s⌋ := Int.floor_nonneg.mpr hs0
  have hN : (((s.num / (s.den : ℤ)).toNat : ℕ) : ℤ) = ⌊s⌋ := by
    rw [hfl]; exact Int.toNat_of_nonneg hfl0
  generalize hNdef : (s.num / (s.den : ℤ)).toNat = N at *
  have hN1 : (N : ℚ) ≤ s := by
    have : ((N : ℤ) : ℚ) ≤ s := by rw [hN]; exact Int.floor_le s
    exact_mod_cast this
  have hN2 : s < (N : ℚ) + 1 := by
    have : s < ((N : ℤ) : ℚ) + 1 := by rw [hN]; exact Int.lt_floor_add_one s
    exact_mod_cast this
  obtain ⟨ht1n, ht2n⟩ := isqrt_spec N
  generalize htdef : isqrt N = t at *
  have ht1 : (t : ℚ) ^ 2 ≤ s := by
    have : ((t * t : ℕ) : ℚ) ≤ (N : ℚ) := by exact_mod_cast ht1n
    push_cast at this
    nlinarith
  have ht2 : s < ((t : ℚ) + 1) ^ 2 := by
    have : ((N + 1 : ℕ) : ℚ) ≤ (((t + 1) * (t + 1) : ℕ) : ℚ) := by exact_mod_cast ht2n
    push_cast at this
    nlinarith
  have ht_lo : 2 ^ (p + 1) ≤ t := by
    by_contra hcon
    push_neg at hcon
    have h1 : ((t : ℚ) + 1) ≤ (2 : ℚ) ^ (p + 1) := by exact_mod_cast hcon
    have h2 : ((t : ℚ) + 1) ^ 2 ≤ ((2 : ℚ) ^ (p + 1)) ^ 2 :=
      pow_le_pow_left₀ (by positivity) h1 2
    have h3 : ((2 : ℚ) ^ (p + 1)) ^ 2 = (2 : ℚ) ^ (2 * p + 2) := by
      rw [← pow_mul]; congr 1; ring
    linarith
  have ht_hi : t < 2 ^ (p + 2) := by
    by_contra hcon
    push_neg at hcon
    have h1 : (2 : ℚ) ^ (p + 2) ≤ (t : ℚ) := by exact_mod_cast hcon
    have h2 : ((2 : ℚ) ^ (p + 2)) ^ 2 ≤ (t : ℚ) ^ 2 :=
      pow_le_pow_left₀ (by positivity) h1 2
    have h3 : ((2 : ℚ) ^ (p + 2)) ^ 2 = (2 : ℚ) ^ (2 * p + 4) := by
      rw [← pow_mul]; congr 1; ring
    linarith
  have hP : 2 ≤ 2 ^ p := by
    calc 2 = 2 ^ 1 := by norm_num
      _ ≤ 2 ^ p := Nat.pow_le_pow_right (by norm_num) hp
  have ht_lo2 : 2 * 2 ^ p ≤ t := by rw [pow_succ] at ht_lo; omega
  have ht_hi2 : t < 4 * 2 ^ p := by rw [pow_succ, pow_succ] at ht_hi; omega
  -- the value that is rounded
  generalize hydef : (if ((t * t : ℕ) : ℚ) = s then (t : ℚ) else (t : ℚ) + 1 / 2) = y at *
  have hy_lo : (2 : ℚ) ^ (p + 1) ≤ y := by
    have : (2 : ℚ) ^ (p + 1) ≤ (t : ℚ) := by exact_mod_cast ht_lo
    rw [← hydef]; split_ifs <;> linarith
  have hy_hi : y < (2 : ℚ) ^ (p + 2) := by
    have : (t : ℚ) + 1 ≤ (2 : ℚ) ^ (p + 2) := by exact_mod_cast ht_hi
    rw [← hydef]; split_ifs <;> linarith
  have hy0 : 0 < y := lt_of_lt_of_le (by positivity) hy_lo
  have hkn0 : (0 : ℚ) < (2 : ℚ) ^ (-((p : ℤ) + 1 - e / 2)) := by positivity
  have hexp : exponent2 (scale2 y (-((p : ℤ) + 1 - e / 2))) = e / 2 := by
    apply exponent2_unique
    · rw [scale2_eq, abs_of_pos (mul_pos hy0 hkn0)]
      calc (2 : ℚ) ^ (e / 2) = (2 : ℚ) ^ (((p + 1 : ℕ)) : ℤ) * (2 : ℚ) ^ (-((p : ℤ) + 1 - e / 2)) := by
            rw [← zpow_add₀ two0]; congr 1; push_cast; ring
        _ = (2 : ℚ) ^ (p + 1) * (2 : ℚ) ^ (-((p : ℤ) + 1 - e / 2)) := by rw [zpow_natCast]
        _ ≤ y * (2 : ℚ) ^ (-((p : ℤ) + 1 - e / 2)) := mul_le_mul_of_nonneg_right hy_lo hkn0.le
    · rw [scale2_eq, abs_of_pos (mul_pos hy0 hkn0)]
      calc y * (2 : ℚ) ^ (-((p : ℤ) + 1 - e / 2))
          < (2 : ℚ) ^ (p + 2) * (2 : ℚ) ^ (-((p : ℤ) + 1 - e / 2)) :=
            mul_lt_mul_of_pos_right hy_hi hkn0
        _ = (2 : ℚ) ^ (((p + 2 : ℕ)) : ℤ) * (2 : ℚ) ^ (-((p : ℤ) + 1 - e / 2)) := by
            rw [zpow_natCast]
        _ = (2 : ℚ) ^ (e / 2 + 1) := by
            rw [← zpow_add₀ two0]; congr 1; push_cast; ring
  have harg : scale2 (scale2 y (-((p : ℤ) + 1 - e / 2))) (-(e / 2 - ((p : ℤ) - 1))) = y / 4 := by
    rw [scale2_eq, scale2_eq, mul_assoc, ← zpow_add₀ two0]
    have : -((p : ℤ) + 1 - e / 2) + -(e / 2 - ((p : ℤ) - 1)) = -2 := by ring
    rw [this]
    norm_num
    ring
  have hres : sqrt_to p q
      = (round_half_even (y / 4) : ℚ) * (2 : ℚ) ^ (e / 2 - ((p : ℤ) - 1)) := by
    unfold sqrt_to
    rw [if_neg (not_le.mpr hq)]
    dsimp only
    rw [he, hsdef, hNdef, htdef, hydef]
    unfold round_to
    rw [if_neg (by rw [scale2_eq]; exact (mul_pos hy0 hkn0).ne')]
    dsimp only
    rw [hexp, harg, scale2_eq]
  obtain ⟨hM, -⟩ := round_half_even_spec (y / 4)
  generalize round_half_even (y / 4) = M at *
  rw [← hydef] at hM
  obtain ⟨c1, c2, c3, c4⟩ := sqrt_round_core s t M ht1 ht2 (by omega) hM
  have hu : (2 : ℚ) ^ (e / 2 - ((p : ℤ) - 1)) = 4 * (2 : ℚ) ^ (-((p : ℤ) + 1 - e / 2)) := by
    have : e / 2 - ((p : ℤ) - 1) = 2 + -((p : ℤ) + 1 - e / 2) := by ring
    rw [this, zpow_add₀ two0]
    norm_num
  have hqs : q = s * ((2 : ℚ) ^ (-((p : ℤ) + 1 - e / 2))) ^ 2 := by
    rw [hs, ← zpow_natCast, ← zpow_mul, mul_assoc, ← zpow_add₀ two0]
    have : 2 * ((p : ℤ) + 1 - e / 2) + -((p : ℤ) + 1 - e / 2) * ((2 : ℕ) : ℤ) = 0 := by
      push_cast; ring
    rw [this, zpow_zero, mul_one]
  have ht_lo3 : 2 * (2 : ℤ) ^ p ≤ (t : ℤ) := by exact_mod_cast ht_lo2
  have ht_hi3 : (t : ℤ) < 4 * (2 : ℤ) ^ p := by exact_mod_cast ht_hi2
  have hP3 : (2 : ℤ) ≤ (2 : ℤ) ^ p := by exact_mod_cast hP
  refine ⟨M, by omega, by omega, hres, ?_, ?_⟩
  · rw [hu]
    have : (((M : ℚ) - 1 / 2) * (4 * (2 : ℚ) ^ (-((p : ℤ) + 1 - e / 2)))) ^ 2
        = (4 * (M : ℚ) - 2) ^ 2 * ((2 : ℚ) ^ (-((p : ℤ) + 1 - e / 2))) ^ 2 := by ring
    rw [this]
    conv_rhs => rw [hqs]
    exact mul_le_mul_of_nonneg_right c1 (by positivity)
  · rw [hu]
    have : (((M : ℚ) + 1 / 2) * (4 * (2 : ℚ) ^ (-((p : ℤ) + 1 - e / 2)))) ^ 2
        = (4 * (M : ℚ) + 2) ^ 2 * ((2 : ℚ) ^ (-((p : ℤ) + 1 - e / 2))) ^ 2 := by ring
    rw [this]
    conv_lhs => rw [hqs]
    exact mul_le_mul_of_nonneg_right c2 (by positivity)

/-! ### Evaluations -/

/-- The roundings on known values: `0.1f`, `0.1`, `0.005f`, `0.8f`, and the square
root of 2 in both formats. -/
theorem fl_known_values :
    fl32 (1 / 10) = 13421773 / 134217728
      ∧ fl64 (1 / 10) = 3602879701896397 / 36028797018963968
      ∧ fl32 0.005 = 5368709 / 1073741824
      ∧ fl32 0.8 = 13421773 / 16777216
      ∧ sqrt32 2 = 11863283 / 8388608
      ∧ sqrt64 2 = 6369051672525773 / 4503599627370496
      ∧ sqrt32 289 = 17 ∧ sqrt64 289 = 17 := by
  decide!

/-- Two overlapping balls of radii 10 and 8 in binary32: the state `collide_ball`
leaves. -/
theorem collide_ball_fl_overlapping32 :
    collide_ball_fl fl32 fl32 sqrt32 ⟨⟨200, 100⟩, ⟨3, 3⟩, 10, 0⟩ ⟨⟨208, 115⟩, ⟨0, 0⟩, 8, 0⟩
      = some (⟨⟨3272945 / 16384, 6524687 / 65536⟩, ⟨10923587 / 8388608, -769199 / 4194304⟩, 10, 0⟩,
          ⟨⟨3411727 / 16384, 7565553 / 65536⟩, ⟨1112675 / 524288, 4172535 / 1048576⟩, 8, 0⟩) := by
  decide!

/-- The same two balls with the library calls in binary64. -/
theorem collide_ball_fl_overlapping64 :
    collide_ball_fl fl32 fl64 sqrt64 ⟨⟨200, 100⟩, ⟨3, 3⟩, 10, 0⟩ ⟨⟨208, 115⟩, ⟨0, 0⟩, 8, 0⟩
      = some (⟨⟨3272945 / 16384, 6524687 / 65536⟩, ⟨10923587 / 8388608, -12307183 / 67108864⟩, 10, 0⟩,
          ⟨⟨3411727 / 16384, 7565553 / 65536⟩, ⟨1112675 / 524288, 4172535 / 1048576⟩, 8, 0⟩) := by
  decide!

/-- Two balls of radius 7 meeting head-on, in binary32. -/
theorem collide_ball_fl_head_on32 :
    collide_ball_fl fl32 fl32 sqrt32 ⟨⟨100, 100⟩, ⟨3 / 4, 1⟩, 7, 0⟩
        ⟨⟨106, 108⟩, ⟨-3 / 2, -2⟩, 7, 0⟩
      = some (⟨⟨6474957 / 65536, 12897485 / 131072⟩, ⟨-6291453 / 4194304, -4194305 / 2097152⟩, 7, 0⟩,
          ⟨⟨7025459 / 65536, 14365491 / 131072⟩, ⟨3145725 / 4194304, 2097153 / 2097152⟩, 7, 0⟩) := by
  decide!

/-- The same head-on pair with the library calls in binary64. -/
theorem collide_ball_fl_head_on64 :
    collide_ball_fl fl32 fl64 sqrt64 ⟨⟨100, 100⟩, ⟨3 / 4, 1⟩, 7, 0⟩
        ⟨⟨106, 108⟩, ⟨-3 / 2, -2⟩, 7, 0⟩
      = some (⟨⟨6474957 / 65536, 12897485 / 131072⟩, ⟨-6291453 / 4194304, -4194305 / 2097152⟩, 7, 0⟩,
          ⟨⟨7025459 / 65536, 14365491 / 131072⟩, ⟨12582901 / 16777216, 2097153 / 2097152⟩, 7, 0⟩) := by
  decide!

/-- Two balls of radius 7 meeting head-on with opposite velocities, in binary32. -/
theorem collide_ball_fl_opposite32 :
    collide_ball_fl fl32 fl32 sqrt32 ⟨⟨100, 100⟩, ⟨3 / 4, 1⟩, 7, 0⟩
        ⟨⟨106, 108⟩, ⟨-3 / 4, -1⟩, 7, 0⟩
      = some (⟨⟨6474957 / 65536, 12897485 / 131072⟩, ⟨-1572863 / 2097152, -4194305 / 4194304⟩, 7, 0⟩,
          ⟨⟨7025459 / 65536, 14365491 / 131072⟩, ⟨1572863 / 2097152, 4194305 / 4194304⟩, 7, 0⟩) := by
  decide!

/-- The same pair with the library calls in binary64. -/
theorem collide_ball_fl_opposite64 :
    collide_ball_fl fl32 fl64 sqrt64 ⟨⟨100, 100⟩, ⟨3 / 4, 1⟩, 7, 0⟩
        ⟨⟨106, 108⟩, ⟨-3 / 4, -1⟩, 7, 0⟩
      = some (⟨⟨6474957 / 65536, 12897485 / 131072⟩, ⟨-12582905 / 16777216, -8388611 / 8388608⟩, 7, 0⟩,
          ⟨⟨7025459 / 65536, 14365491 / 131072⟩, ⟨12582905 / 16777216, 8388611 / 8388608⟩, 7, 0⟩) := by
  decide!

section
variable {K : Type} [LinearOrderedField K]

/-! ## The claims -/

/-- C1, as stated, fails in binary floating point. Two balls of radii 10 and 8 with
centres `(200, 100)` and `(208, 115)` are at distance 17, so `overlap` is 1. After
`collide_ball` the squared distance of the centres is below `18^2`, so their distance
is below `radius1 + radius2`; the distance the program itself computes for the pair
is `9437183 / 524288 = 17.999998…`, and its `overlap` is positive again. This is so
with the library calls in binary32 and in binary64. -/
theorem collide_ball_fl_falls_short :
    (overlap_fl fl32 fl32 sqrt32 ⟨⟨200, 100⟩, ⟨3, 3⟩, 10, 0⟩ ⟨⟨208, 115⟩, ⟨0, 0⟩, 8, 0⟩ = 1
      ∧ ∃ c1 c2 : ball ℚ,
          collide_ball_fl fl32 fl32 sqrt32 ⟨⟨200, 100⟩, ⟨3, 3⟩, 10, 0⟩
            ⟨⟨208, 115⟩, ⟨0, 0⟩, 8, 0⟩ = some (c1, c2)
          ∧ (c2.z.x - c1.z.x) ^ 2 + (c2.z.y - c1.z.y) ^ 2 < (10 + 8) ^ 2
          ∧ Real.sqrt ((((c2.z.x - c1.z.x) ^ 2 + (c2.z.y - c1.z.y) ^ 2 : ℚ)) : ℝ) < 10 + 8
          ∧ dist_fl fl32 fl32 sqrt32 c1 c2 = 9437183 / 524288
          ∧ dist_fl fl32 fl32 sqrt32 c1 c2 < c1.radius + c2.radius
          ∧ 0 < overlap_fl fl32 fl32 sqrt32 c1 c2)
    ∧ (overlap_fl fl32 fl64 sqrt64 ⟨⟨200, 100⟩, ⟨3, 3⟩, 10, 0⟩ ⟨⟨208, 115⟩, ⟨0, 0⟩, 8, 0⟩ = 1
      ∧ ∃ c1 c2 : ball ℚ,
          collide_ball_fl fl32 fl64 sqrt64 ⟨⟨200, 100⟩, ⟨3, 3⟩, 10, 0⟩
            ⟨⟨208, 115⟩, ⟨0, 0⟩, 8, 0⟩ = some (c1, c2)
          ∧ (c2.z.x - c1.z.x) ^ 2 + (c2.z.y - c1.z.y) ^ 2 < (10 + 8) ^ 2
          ∧ Real.sqrt ((((c2.z.x - c1.z.x) ^ 2 + (c2.z.y - c1.z.y) ^ 2 : ℚ)) : ℝ) < 10 + 8
          ∧ dist_fl fl32 fl64 sqrt64 c1 c2 = 9437183 / 524288
          ∧ dist_fl fl32 fl64 sqrt64 c1 c2 < c1.radius + c2.radius
          ∧ 0 < overlap_fl fl32 fl64 sqrt64 c1 c2) := by
  have hsq : Real.sqrt ((((3411727 / 16384 - 3272945 / 16384) ^ 2
      + (7565553 / 65536 - 6524687 / 65536) ^ 2 : ℚ)) : ℝ) < 10 + 8 := by
    rw [Real.sqrt_lt' (by norm_num)]
    norm_num
  exact ⟨⟨by decide!, _, _, collide_ball_fl_overlapping32, by norm_num, hsq, by decide!,
      by decide!, by decide!⟩,
    ⟨by decide!, _, _, collide_ball_fl_overlapping64, by norm_num, hsq, by decide!,
      by decide!, by decide!⟩⟩

/-- C1, amended. In exact arithmetic, for two balls with distinct centres that touch
or overlap (`overlap ≥ 0`), `collide_ball` stores finite values and leaves the two
centres at distance exactly `radius1 + radius2`, so at least the sum of the radii: the
circles no longer overlap. -/
theorem collide_ball_separates (sqrt : K → K) (hs : IsSqrt sqrt) (b1 b2 : ball K)
    (hne : b1.z ≠ b2.z) (hov : overlap sqrt b1 b2 ≥ 0) :
    ∃ c1 c2 : ball K, collide_ball sqrt b1 b2 = some (c1, c2)
      ∧ dist sqrt c1 c2 = b1.radius + b2.radius
      ∧ dist sqrt c1 c2 ≥ c1.radius + c2.radius := by
  have hR : 0 ≤ b1.radius + b2.radius := by
    have := dist_pos hs hne
    unfold overlap at hov
    linarith
  have hdist : dist sqrt (resolved sqrt b1 b2).1 (resolved sqrt b1 b2).2
      = b1.radius + b2.radius := by
    unfold dist
    rw [resolved_sqdist hs hne]
    exact sqrt_sq_of_nonneg hs hR
  refine ⟨(resolved sqrt b1 b2).1, (resolved sqrt b1 b2).2,
    collide_ball_eq_resolved hs hne hov, hdist, ?_⟩
  rw [hdist]
  simp [resolved]

theorem collide_ball_separates_witness :
    ∃ c1 c2 : ball ℝ,
      collide_ball Real.sqrt ⟨⟨0, 0⟩, ⟨1, 0⟩, 3, 0⟩ ⟨⟨3, 4⟩, ⟨0, 0⟩, 3, 0⟩ = some (c1, c2)
      ∧ dist Real.sqrt c1 c2 = 3 + 3
      ∧ dist Real.sqrt c1 c2 ≥ c1.radius + c2.radius :=
  collide_ball_separates Real.sqrt isSqrt_real ⟨⟨0, 0⟩, ⟨1, 0⟩, 3, 0⟩ ⟨⟨3, 4⟩, ⟨0, 0⟩, 3, 0⟩
    (by simp)
    (by
      have h : Real.sqrt ((3 - 0) ^ 2 + (4 - 0) ^ 2) = 5 :=
        real_sqrt_of_sq (by norm_num) (by norm_num)
      simp only [overlap, dist, h]
      norm_num)

/-- C2. When `overlap < 0` the call `collide_ball` changes nothing: each ball comes back
with the position, velocity and radius it had. -/
theorem collide_ball_apart (sqrt : K → K) (b1 b2 : ball K) (hov : overlap sqrt b1 b2 < 0) :
    collide_ball sqrt b1 b2 = some (b1, b2) := by
  unfold overlap at hov
  simp only [collide_ball, ge_iff_le, not_le.mpr hov, if_false, Option.pure_def]

theorem collide_ball_apart_witness :
    collide_ball Real.sqrt ⟨⟨0, 0⟩, ⟨1, 0⟩, 2, 0⟩ ⟨⟨3, 4⟩, ⟨0, 0⟩, 2, 0⟩
      = some ((⟨⟨0, 0⟩, ⟨1, 0⟩, 2, 0⟩ : ball ℝ), (⟨⟨3, 4⟩, ⟨0, 0⟩, 2, 0⟩ : ball ℝ)) :=
  collide_ball_apart Real.sqrt ⟨⟨0, 0⟩, ⟨1, 0⟩, 2, 0⟩ ⟨⟨3, 4⟩, ⟨0, 0⟩, 2, 0⟩
    (by
      have h : Real.sqrt ((3 - 0) ^ 2 + (4 - 0) ^ 2) = 5 :=
        real_sqrt_of_sq (by norm_num) (by norm_num)
      simp only [overlap, dist, h]
      norm_num)

/-- C3, as stated, fails: a ball of radius 400 at `(300, 300)` in the arena of size 600
is moved to `x = 200`, which is less than its radius. -/
theorem collide_wall_large_radius_escapes :
    (0 : ℚ) < 400
    ∧ (collide_wall (⟨⟨300, 300⟩, ⟨0, 0⟩, 400, 0⟩ : ball ℚ)).radius = 400
    ∧ (collide_wall (⟨⟨300, 300⟩, ⟨0, 0⟩, 400, 0⟩ : ball ℚ)).z.x = 200
    ∧ ¬ ((collide_wall (⟨⟨300, 300⟩, ⟨0, 0⟩, 400, 0⟩ : ball ℚ)).radius
          ≤ (collide_wall (⟨⟨300, 300⟩, ⟨0, 0⟩, 400, 0⟩ : ball ℚ)).z.x) := by
  norm_num [collide_wall, WINDOW_SIZE]

/-- C3, amended. For every ball, at any position, whose diameter fits the arena
(`2 * radius ≤ WINDOW_SIZE`), `collide_wall` keeps the radius and leaves
`radius ≤ x ≤ WINDOW_SIZE - radius` and `radius ≤ y ≤ WINDOW_SIZE - radius`. -/
theorem collide_wall_inside (b : ball K) (hfit : 2 * b.radius ≤ (WINDOW_SIZE : K)) :
    (collide_wall b).radius = b.radius
    ∧ b.radius ≤ (collide_wall b).z.x ∧ (collide_wall b).z.x ≤ (WINDOW_SIZE : K) - b.radius
    ∧ b.radius ≤ (collide_wall b).z.y ∧ (collide_wall b).z.y ≤ (WINDOW_SIZE : K) - b.radius := by
  unfold collide_wall
  simp only
  split_ifs <;> simp_all <;> (try constructor) <;> linarith

theorem collide_wall_inside_witness :
    (collide_wall (⟨⟨700, -5⟩, ⟨1, 2⟩, 20, 0⟩ : ball ℚ)).radius = 20
    ∧ (20 : ℚ) ≤ (collide_wall (⟨⟨700, -5⟩, ⟨1, 2⟩, 20, 0⟩ : ball ℚ)).z.x
    ∧ (collide_wall (⟨⟨700, -5⟩, ⟨1, 2⟩, 20, 0⟩ : ball ℚ)).z.x ≤ (WINDOW_SIZE : ℚ) - 20
    ∧ (20 : ℚ) ≤ (collide_wall (⟨⟨700, -5⟩, ⟨1, 2⟩, 20, 0⟩ : ball ℚ)).z.y
    ∧ (collide_wall (⟨⟨700, -5⟩, ⟨1, 2⟩, 20, 0⟩ : ball ℚ)).z.y ≤ (WINDOW_SIZE : ℚ) - 20 :=
  collide_wall_inside ⟨⟨700, -5⟩, ⟨1, 2⟩, 20, 0⟩ (by norm_num [WINDOW_SIZE])

/-- C4. A ball that crosses a wall on the x axis only (`x + radius > WINDOW_SIZE` or
`x < radius`, with `radius ≤ y ≤ WINDOW_SIZE - radius`) leaves `collide_wall` with
`xdot` replaced by `-0.8 * xdot`, of absolute value `0.8 * |xdot|`, and with `ydot` and
`y` unchanged; and the same with the two axes exchanged. -/
theorem collide_wall_one_axis (b : ball K) :
    ((b.z.x + b.radius > (WINDOW_SIZE : K) ∨ b.z.x < b.radius) →
      b.radius ≤ b.z.y → b.z.y ≤ (WINDOW_SIZE : K) - b.radius →
        (collide_wall b).zdot.x = -0.8 * b.zdot.x
        ∧ |(collide_wall b).zdot.x| = 0.8 * |b.zdot.x|
        ∧ (collide_wall b).zdot.y = b.zdot.y
        ∧ (collide_wall b).z.y = b.z.y)
    ∧ ((b.z.y + b.radius > (WINDOW_SIZE : K) ∨ b.z.y < b.radius) →
      b.radius ≤ b.z.x → b.z.x ≤ (WINDOW_SIZE : K) - b.radius →
        (collide_wall b).zdot.y = -0.8 * b.zdot.y
        ∧ |(collide_wall b).zdot.y| = 0.8 * |b.zdot.y|
        ∧ (collide_wall b).zdot.x = b.zdot.x
        ∧ (collide_wall b).z.x = b.z.x) := by
  have habs : ∀ v : K, |0.8 * v| = 0.8 * |v| := by
    intro v
    rw [abs_mul, abs_of_nonneg (by norm_num : (0 : K) ≤ 0.8)]
  constructor
  · intro hx hy1 hy2
    have hy1n : ¬ b.z.y < b.radius := not_lt.mpr hy1
    have hy2n : ¬ b.z.y + b.radius > (WINDOW_SIZE : K) := by
      rw [gt_iff_lt, not_lt]; linarith
    unfold collide_wall
    simp only [coef_rest_eq]
    rcases hx with hx | hx
    · simp [hx, hy1n, hy2n, habs]
    · by_cases hx2 : b.z.x + b.radius > (WINDOW_SIZE : K)
      · simp [hx2, hy1n, hy2n, habs]
      · simp [hx, hx2, hy1n, hy2n, habs]
  · intro hy hx1 hx2
    have hx1n : ¬ b.z.x < b.radius := not_lt.mpr hx1
    have hx2n : ¬ b.z.x + b.radius > (WINDOW_SIZE : K) := by
      rw [gt_iff_lt, not_lt]; linarith
    unfold collide_wall
    simp only [coef_rest_eq]
    rcases hy with hy | hy
    · simp [hy, hx1n, hx2n, habs]
    · by_cases hy2 : b.z.y + b.radius > (WINDOW_SIZE : K)
      · simp [hy2, hx1n, hx2n, habs]
      · simp [hy, hy2, hx1n, hx2n, habs]

theorem collide_wall_one_axis_witness :
    (collide_wall (⟨⟨590, 100⟩, ⟨5, 2⟩, 20, 0⟩ : ball ℚ)).zdot.x = -0.8 * 5
    ∧ |(collide_wall (⟨⟨590, 100⟩, ⟨5, 2⟩, 20, 0⟩ : ball ℚ)).zdot.x| = 0.8 * |(5 : ℚ)|
    ∧ (collide_wall (⟨⟨590, 100⟩, ⟨5, 2⟩, 20, 0⟩ : ball ℚ)).zdot.y = 2
    ∧ (collide_wall (⟨⟨590, 100⟩, ⟨5, 2⟩, 20, 0⟩ : ball ℚ)).z.y = 100 :=
  (collide_wall_one_axis (⟨⟨590, 100⟩, ⟨5, 2⟩, 20, 0⟩ : ball ℚ)).1
    (Or.inl (by norm_num [WINDOW_SIZE])) (by norm_num) (by norm_num [WINDOW_SIZE])

/-- C5, as stated, fails in binary floating point. For two balls of radii 10 and 8
with centres `(200, 100)` and `(208, 115)` and velocities `(3, 3)` and `(0, 0)`, the
velocities `collide_ball` writes give a total momentum other than the `(30, 30)` on
entry, in the x and in the y component: above it by `15 / 4194304` in x, and the sums
differ also when they are themselves computed in binary32. -/
theorem collide_ball_fl_momentum_defect :
    (overlap_fl fl32 fl32 sqrt32 ⟨⟨200, 100⟩, ⟨3, 3⟩, 10, 0⟩
        ⟨⟨208, 115⟩, ⟨0, 0⟩, 8, 0⟩ = 1
      ∧ ∃ c1 c2 : ball ℚ,
        collide_ball_fl fl32 fl32 sqrt32 ⟨⟨200, 100⟩, ⟨3, 3⟩, 10, 0⟩
          ⟨⟨208, 115⟩, ⟨0, 0⟩, 8, 0⟩ = some (c1, c2)
        ∧ 10 * c1.zdot.x + 8 * c2.zdot.x = 30 + 15 / 4194304
        ∧ 10 * c1.zdot.x + 8 * c2.zdot.x ≠ 10 * 3 + 8 * 0
        ∧ 10 * c1.zdot.y + 8 * c2.zdot.y = 30 + 5 / 2097152
        ∧ 10 * c1.zdot.y + 8 * c2.zdot.y ≠ 10 * 3 + 8 * 0
        ∧ add_fl fl32 (mul_fl fl32 10 c1.zdot.x) (mul_fl fl32 8 c2.zdot.x)
            ≠ add_fl fl32 (mul_fl fl32 10 3) (mul_fl fl32 8 0)
        ∧ add_fl fl32 (mul_fl fl32 10 c1.zdot.y) (mul_fl fl32 8 c2.zdot.y)
            ≠ add_fl fl32 (mul_fl fl32 10 3) (mul_fl fl32 8 0))
    ∧ (overlap_fl fl32 fl64 sqrt64 ⟨⟨200, 100⟩, ⟨3, 3⟩, 10, 0⟩
        ⟨⟨208, 115⟩, ⟨0, 0⟩, 8, 0⟩ = 1
      ∧ ∃ c1 c2 : ball ℚ,
        collide_ball_fl fl32 fl64 sqrt64 ⟨⟨200, 100⟩, ⟨3, 3⟩, 10, 0⟩
          ⟨⟨208, 115⟩, ⟨0, 0⟩, 8, 0⟩ = some (c1, c2)
        ∧ 10 * c1.zdot.x + 8 * c2.zdot.x = 30 + 15 / 4194304
        ∧ 10 * c1.zdot.x + 8 * c2.zdot.x ≠ 10 * 3 + 8 * 0
        ∧ 10 * c1.zdot.y + 8 * c2.zdot.y = 30 + 85 / 33554432
        ∧ 10 * c1.zdot.y + 8 * c2.zdot.y ≠ 10 * 3 + 8 * 0
        ∧ add_fl fl32 (mul_fl fl32 10 c1.zdot.x) (mul_fl fl32 8 c2.zdot.x)
            ≠ add_fl fl32 (mul_fl fl32 10 3) (mul_fl fl32 8 0)
        ∧ add_fl fl32 (mul_fl fl32 10 c1.zdot.y) (mul_fl fl32 8 c2.zdot.y)
            ≠ add_fl fl32 (mul_fl fl32 10 3) (mul_fl fl32 8 0)) :=
  ⟨⟨by decide!, _, _, collide_ball_fl_overlapping32, by norm_num, by norm_num, by norm_num, by norm_num,
      by decide!, by decide!⟩,
    ⟨by decide!, _, _, collide_ball_fl_overlapping64, by norm_num, by norm_num, by norm_num, by norm_num,
      by decide!, by decide!⟩⟩

/-- C5, amended. In exact arithmetic, for two balls with positive radii and distinct
centres that touch or overlap, `collide_ball` conserves the total momentum with the
radius as mass, in the x and in the y component. -/
theorem collide_ball_momentum (sqrt : K → K) (hs : IsSqrt sqrt) (b1 b2 : ball K)
    (_hr1 : 0 < b1.radius) (_hr2 : 0 < b2.radius)
    (hne : b1.z ≠ b2.z) (hov : overlap sqrt b1 b2 ≥ 0) :
    ∃ c1 c2 : ball K, collide_ball sqrt b1 b2 = some (c1, c2)
      ∧ b1.radius * c1.zdot.x + b2.radius * c2.zdot.x
          = b1.radius * b1.zdot.x + b2.radius * b2.zdot.x
      ∧ b1.radius * c1.zdot.y + b2.radius * c2.zdot.y
          = b1.radius * b1.zdot.y + b2.radius * b2.zdot.y := by
  refine ⟨(resolved sqrt b1 b2).1, (resolved sqrt b1 b2).2,
    collide_ball_eq_resolved hs hne hov, ?_, ?_⟩
  · exact momentum_alg b1.radius b2.radius b1.zdot.x b2.zdot.x _ _ _ _ _ _
      (radius_sum_ne hs hne hov) (resolved_sqdist_ne hs hne hov)
      (by ring) (by ring) (by ring)
  · exact momentum_alg b1.radius b2.radius b1.zdot.y b2.zdot.y _ _ _ _ _ _
      (radius_sum_ne hs hne hov) (resolved_sqdist_ne hs hne hov)
      (by ring) (by ring) (by ring)

theorem collide_ball_momentum_witness :
    ∃ c1 c2 : ball ℝ,
      collide_ball Real.sqrt ⟨⟨0, 0⟩, ⟨1, 0⟩, 2, 0⟩ ⟨⟨3, 4⟩, ⟨0, -1⟩, 4, 0⟩ = some (c1, c2)
      ∧ 2 * c1.zdot.x + 4 * c2.zdot.x = 2 * 1 + 4 * 0
      ∧ 2 * c1.zdot.y + 4 * c2.zdot.y = 2 * 0 + 4 * (-1) :=
  collide_ball_momentum Real.sqrt isSqrt_real ⟨⟨0, 0⟩, ⟨1, 0⟩, 2, 0⟩ ⟨⟨3, 4⟩, ⟨0, -1⟩, 4, 0⟩
    (by norm_num) (by norm_num) (by simp)
    (by rw [real_overlap_of_sq _ _ 5 (by norm_num) (by norm_num)]; norm_num)

/-- C6, as stated, fails in binary floating point. For two balls of radii 10 and 8
with centres `(200, 100)` and `(208, 115)` and velocities `(3, 3)` and `(0, 0)`, the
total kinetic energy `0.5 * radius * |v|^2` after `collide_ball` is above the `90` it
had on entry; computed as the program computes `KE` and adds it up, it is
`11796483 / 131072 = 90.00002…` instead of `90`. -/
theorem collide_ball_fl_energy_defect :
    (overlap_fl fl32 fl32 sqrt32 ⟨⟨200, 100⟩, ⟨3, 3⟩, 10, 0⟩
        ⟨⟨208, 115⟩, ⟨0, 0⟩, 8, 0⟩ = 1
      ∧ ∃ c1 c2 : ball ℚ,
        collide_ball_fl fl32 fl32 sqrt32 ⟨⟨200, 100⟩, ⟨3, 3⟩, 10, 0⟩
          ⟨⟨208, 115⟩, ⟨0, 0⟩, 8, 0⟩ = some (c1, c2)
        ∧ 0.5 * 10 * (3 ^ 2 + 3 ^ 2) + 0.5 * 8 * (0 ^ 2 + 0 ^ 2)
          < 0.5 * c1.radius * (c1.zdot.x ^ 2 + c1.zdot.y ^ 2)
            + 0.5 * c2.radius * (c2.zdot.x ^ 2 + c2.zdot.y ^ 2)
        ∧ add_fl fl32 (KE_fl fl32 fl32 ⟨⟨200, 100⟩, ⟨3, 3⟩, 10, 0⟩)
            (KE_fl fl32 fl32 ⟨⟨208, 115⟩, ⟨0, 0⟩, 8, 0⟩) = 90
        ∧ add_fl fl32 (KE_fl fl32 fl32 c1) (KE_fl fl32 fl32 c2) = 11796483 / 131072)
    ∧ (overlap_fl fl32 fl64 sqrt64 ⟨⟨200, 100⟩, ⟨3, 3⟩, 10, 0⟩
        ⟨⟨208, 115⟩, ⟨0, 0⟩, 8, 0⟩ = 1
      ∧ ∃ c1 c2 : ball ℚ,
        collide_ball_fl fl32 fl64 sqrt64 ⟨⟨200, 100⟩, ⟨3, 3⟩, 10, 0⟩
          ⟨⟨208, 115⟩, ⟨0, 0⟩, 8, 0⟩ = some (c1, c2)
        ∧ 0.5 * 10 * (3 ^ 2 + 3 ^ 2) + 0.5 * 8 * (0 ^ 2 + 0 ^ 2)
          < 0.5 * c1.radius * (c1.zdot.x ^ 2 + c1.zdot.y ^ 2)
            + 0.5 * c2.radius * (c2.zdot.x ^ 2 + c2.zdot.y ^ 2)
        ∧ add_fl fl32 (KE_fl fl32 fl64 ⟨⟨200, 100⟩, ⟨3, 3⟩, 10, 0⟩)
            (KE_fl fl32 fl64 ⟨⟨208, 115⟩, ⟨0, 0⟩, 8, 0⟩) = 90
        ∧ add_fl fl32 (KE_fl fl32 fl64 c1) (KE_fl fl32 fl64 c2) = 11796483 / 131072) :=
  ⟨⟨by decide!, _, _, collide_ball_fl_overlapping32, by norm_num, by decide!, by decide!⟩,
    ⟨by decide!, _, _, collide_ball_fl_overlapping64, by norm_num, by decide!, by decide!⟩⟩

/-- C6, amended. In exact arithmetic, for two balls with positive radii and distinct
centres that touch or overlap, `collide_ball` conserves the total kinetic energy
`0.5 * radius * |v|^2` summed over the two balls. -/
theorem collide_ball_energy (sqrt : K → K) (hs : IsSqrt sqrt) (b1 b2 : ball K)
    (_hr1 : 0 < b1.radius) (_hr2 : 0 < b2.radius)
    (hne : b1.z ≠ b2.z) (hov : overlap sqrt b1 b2 ≥ 0) :
    ∃ c1 c2 : ball K, collide_ball sqrt b1 b2 = some (c1, c2)
      ∧ 0.5 * c1.radius * (c1.zdot.x ^ 2 + c1.zdot.y ^ 2)
          + 0.5 * c2.radius * (c2.zdot.x ^ 2 + c2.zdot.y ^ 2)
        = 0.5 * b1.radius * (b1.zdot.x ^ 2 + b1.zdot.y ^ 2)
          + 0.5 * b2.radius * (b2.zdot.x ^ 2 + b2.zdot.y ^ 2) := by
  refine ⟨(resolved sqrt b1 b2).1, (resolved sqrt b1 b2).2,
    collide_ball_eq_resolved hs hne hov, ?_⟩
  exact energy_alg b1.radius b2.radius b1.zdot.x b2.zdot.x b1.zdot.y b2.zdot.y
    ((resolved sqrt b1 b2).1.z.x - (resolved sqrt b1 b2).2.z.x)
    ((resolved sqrt b1 b2).1.z.y - (resolved sqrt b1 b2).2.z.y)
    ((resolved sqrt b1 b2).2.z.x - (resolved sqrt b1 b2).1.z.x)
    ((resolved sqrt b1 b2).2.z.y - (resolved sqrt b1 b2).1.z.y)
    (radius_sum_ne hs hne hov) (resolved_sqdist_ne hs hne hov) (by ring) (by ring)


theorem collide_ball_energy_witness :
    ∃ c1 c2 : ball ℝ,
      collide_ball Real.sqrt ⟨⟨0, 0⟩, ⟨1, 0⟩, 2, 0⟩ ⟨⟨3, 4⟩, ⟨0, -1⟩, 4, 0⟩ = some (c1, c2)
      ∧ 0.5 * c1.radius * (c1.zdot.x ^ 2 + c1.zdot.y ^ 2)
          + 0.5 * c2.radius * (c2.zdot.x ^ 2 + c2.zdot.y ^ 2)
        = 0.5 * 2 * (1 ^ 2 + 0 ^ 2) + 0.5 * 4 * (0 ^ 2 + (-1) ^ 2) :=
  collide_ball_energy Real.sqrt isSqrt_real ⟨⟨0, 0⟩, ⟨1, 0⟩, 2, 0⟩ ⟨⟨3, 4⟩, ⟨0, -1⟩, 4, 0⟩
    (by norm_num) (by norm_num) (by simp)
    (by rw [real_overlap_of_sq _ _ 5 (by norm_num) (by norm_num)]; norm_num)

/-- C7, as stated, fails in binary floating point. Two balls of radius 7 with centres
`(100, 100)` and `(106, 108)`, at distance 10, with velocities `(0.75, 1)` and
`(-1.5, -2)` along the line of the centres: ball 1 leaves with
`(-1.4999993…, -2.0000005…)`, not with the `(-1.5, -2)` ball 2 had, and ball 2 does not
leave with `(0.75, 1)`. With the opposite velocities `(0.75, 1)` and `(-0.75, -1)` no
ball leaves with the velocity of the other either. -/
theorem collide_ball_fl_head_on_inexact :
    (0.75 : ℚ) * (108 - 100) = 1 * (106 - 100)
    ∧ (-1.5 : ℚ) * (108 - 100) = -2 * (106 - 100)
    ∧ (-0.75 : ℚ) * (108 - 100) = -1 * (106 - 100)
    ∧ overlap_fl fl32 fl32 sqrt32 ⟨⟨100, 100⟩, ⟨3 / 4, 1⟩, 7, 0⟩
        ⟨⟨106, 108⟩, ⟨-3 / 2, -2⟩, 7, 0⟩ = 4
    ∧ overlap_fl fl32 fl64 sqrt64 ⟨⟨100, 100⟩, ⟨3 / 4, 1⟩, 7, 0⟩
        ⟨⟨106, 108⟩, ⟨-3 / 2, -2⟩, 7, 0⟩ = 4
    ∧ (∃ c1 c2 : ball ℚ,
        collide_ball_fl fl32 fl32 sqrt32 ⟨⟨100, 100⟩, ⟨3 / 4, 1⟩, 7, 0⟩
          ⟨⟨106, 108⟩, ⟨-3 / 2, -2⟩, 7, 0⟩ = some (c1, c2)
        ∧ c1.zdot = ⟨-6291453 / 4194304, -4194305 / 2097152⟩
        ∧ c1.zdot ≠ ⟨-3 / 2, -2⟩ ∧ c2.zdot ≠ ⟨3 / 4, 1⟩)
    ∧ (∃ c1 c2 : ball ℚ,
        collide_ball_fl fl32 fl64 sqrt64 ⟨⟨100, 100⟩, ⟨3 / 4, 1⟩, 7, 0⟩
          ⟨⟨106, 108⟩, ⟨-3 / 2, -2⟩, 7, 0⟩ = some (c1, c2)
        ∧ c1.zdot = ⟨-6291453 / 4194304, -4194305 / 2097152⟩
        ∧ c1.zdot ≠ ⟨-3 / 2, -2⟩ ∧ c2.zdot ≠ ⟨3 / 4, 1⟩)
    ∧ (∃ c1 c2 : ball ℚ,
        collide_ball_fl fl32 fl32 sqrt32 ⟨⟨100, 100⟩, ⟨3 / 4, 1⟩, 7, 0⟩
          ⟨⟨106, 108⟩, ⟨-3 / 4, -1⟩, 7, 0⟩ = some (c1, c2)
        ∧ c1.zdot ≠ ⟨-3 / 4, -1⟩ ∧ c2.zdot ≠ ⟨3 / 4, 1⟩)
    ∧ (∃ c1 c2 : ball ℚ,
        collide_ball_fl fl32 fl64 sqrt64 ⟨⟨100, 100⟩, ⟨3 / 4, 1⟩, 7, 0⟩
          ⟨⟨106, 108⟩, ⟨-3 / 4, -1⟩, 7, 0⟩ = some (c1, c2)
        ∧ c1.zdot ≠ ⟨-3 / 4, -1⟩ ∧ c2.zdot ≠ ⟨3 / 4, 1⟩) :=
  ⟨by norm_num, by norm_num, by norm_num, by decide!, by decide!,
    ⟨_, _, collide_ball_fl_head_on32, rfl, by decide!, by decide!⟩,
    ⟨_, _, collide_ball_fl_head_on64, rfl, by decide!, by decide!⟩,
    ⟨_, _, collide_ball_fl_opposite32, by decide!, by decide!⟩,
    ⟨_, _, collide_ball_fl_opposite64, by decide!, by decide!⟩⟩

/-- C7, amended. In exact arithmetic, for two balls of equal positive radius with
distinct centres that touch or overlap, both velocities parallel to the line through
the centres, `collide_ball` exchanges the velocities: ball 1 leaves with the velocity
ball 2 had, and ball 2 with the velocity ball 1 had. -/
theorem collide_ball_head_on_exchange (sqrt : K → K) (hs : IsSqrt sqrt) (b1 b2 : ball K)
    (hr : b1.radius = b2.radius) (hpos : 0 < b1.radius)
    (hne : b1.z ≠ b2.z) (hov : overlap sqrt b1 b2 ≥ 0)
    (h1 : b1.zdot.x * (b2.z.y - b1.z.y) = b1.zdot.y * (b2.z.x - b1.z.x))
    (h2 : b2.zdot.x * (b2.z.y - b1.z.y) = b2.zdot.y * (b2.z.x - b1.z.x)) :
    ∃ c1 c2 : ball K, collide_ball sqrt b1 b2 = some (c1, c2)
      ∧ c1.zdot = b2.zdot ∧ c2.zdot = b1.zdot := by
  refine ⟨(resolved sqrt b1 b2).1, (resolved sqrt b1 b2).2,
    collide_ball_eq_resolved hs hne hov, ?_, ?_⟩
  · rw [(resolved_zdot_entry hs hne hov).1, ← hr]
    exact spec_elastic_velocity_head_on _ hpos _ _ _ _ (sqdist_ne_fst hne) h1 h2
  · rw [(resolved_zdot_entry hs hne hov).2, ← hr]
    refine spec_elastic_velocity_head_on _ hpos _ _ _ _ (sqdist_pos hne).ne' ?_ ?_
    · linear_combination (-1 : K) * h2
    · linear_combination (-1 : K) * h1

theorem collide_ball_head_on_exchange_witness :
    ∃ c1 c2 : ball ℝ,
      collide_ball Real.sqrt ⟨⟨0, 0⟩, ⟨1, 0⟩, 3, 0⟩ ⟨⟨5, 0⟩, ⟨-1, 0⟩, 3, 0⟩ = some (c1, c2)
      ∧ c1.zdot = ⟨-1, 0⟩ ∧ c2.zdot = ⟨1, 0⟩ :=
  collide_ball_head_on_exchange Real.sqrt isSqrt_real
    ⟨⟨0, 0⟩, ⟨1, 0⟩, 3, 0⟩ ⟨⟨5, 0⟩, ⟨-1, 0⟩, 3, 0⟩
    rfl (by norm_num) (by simp)
    (by rw [real_overlap_of_sq _ _ 5 (by norm_num) (by norm_num)]; norm_num)
    (by norm_num) (by norm_num)

/-- C8, as stated, fails in binary floating point. For two balls of radii 10 and 8
with centres `(200, 100)` and `(208, 115)` and velocities `(3, 3)` and `(0, 0)`, the
velocities `collide_ball` writes are not those of the formula of the specification at
the centres on entry, neither with the formula evaluated exactly nor with it
evaluated in binary32; and the formula in binary32 gives one velocity at the centres
on entry and another at the corrected centres. -/
theorem collide_ball_fl_spec_velocity_differs :
    (overlap_fl fl32 fl32 sqrt32 ⟨⟨200, 100⟩, ⟨3, 3⟩, 10, 0⟩
        ⟨⟨208, 115⟩, ⟨0, 0⟩, 8, 0⟩ = 1
      ∧ ∃ c1 c2 : ball ℚ,
        collide_ball_fl fl32 fl32 sqrt32 ⟨⟨200, 100⟩, ⟨3, 3⟩, 10, 0⟩
          ⟨⟨208, 115⟩, ⟨0, 0⟩, 8, 0⟩ = some (c1, c2)
        ∧ c1.zdot ≠ spec_elastic_velocity 10 8 ⟨3, 3⟩ ⟨0, 0⟩ ⟨200, 100⟩ ⟨208, 115⟩
        ∧ c2.zdot ≠ spec_elastic_velocity 8 10 ⟨0, 0⟩ ⟨3, 3⟩ ⟨208, 115⟩ ⟨200, 100⟩
        ∧ c1.zdot ≠ spec_elastic_velocity_fl fl32 10 8 ⟨3, 3⟩ ⟨0, 0⟩ ⟨200, 100⟩ ⟨208, 115⟩
        ∧ c2.zdot ≠ spec_elastic_velocity_fl fl32 8 10 ⟨0, 0⟩ ⟨3, 3⟩ ⟨208, 115⟩ ⟨200, 100⟩
        ∧ spec_elastic_velocity_fl fl32 10 8 ⟨3, 3⟩ ⟨0, 0⟩ c1.z c2.z
            ≠ spec_elastic_velocity_fl fl32 10 8 ⟨3, 3⟩ ⟨0, 0⟩ ⟨200, 100⟩ ⟨208, 115⟩)
    ∧ (overlap_fl fl32 fl64 sqrt64 ⟨⟨200, 100⟩, ⟨3, 3⟩, 10, 0⟩
        ⟨⟨208, 115⟩, ⟨0, 0⟩, 8, 0⟩ = 1
      ∧ ∃ c1 c2 : ball ℚ,
        collide_ball_fl fl32 fl64 sqrt64 ⟨⟨200, 100⟩, ⟨3, 3⟩, 10, 0⟩
          ⟨⟨208, 115⟩, ⟨0, 0⟩, 8, 0⟩ = some (c1, c2)
        ∧ c1.zdot ≠ spec_elastic_velocity 10 8 ⟨3, 3⟩ ⟨0, 0⟩ ⟨200, 100⟩ ⟨208, 115⟩
        ∧ c2.zdot ≠ spec_elastic_velocity 8 10 ⟨0, 0⟩ ⟨3, 3⟩ ⟨208, 115⟩ ⟨200, 100⟩
        ∧ c1.zdot ≠ spec_elastic_velocity_fl fl32 10 8 ⟨3, 3⟩ ⟨0, 0⟩ ⟨200, 100⟩ ⟨208, 115⟩
        ∧ c2.zdot ≠ spec_elastic_velocity_fl fl32 8 10 ⟨0, 0⟩ ⟨3, 3⟩ ⟨208, 115⟩ ⟨200, 100⟩
        ∧ spec_elastic_velocity_fl fl32 10 8 ⟨3, 3⟩ ⟨0, 0⟩ c1.z c2.z
            ≠ spec_elastic_velocity_fl fl32 10 8 ⟨3, 3⟩ ⟨0, 0⟩ ⟨200, 100⟩ ⟨208, 115⟩) :=
  ⟨⟨by decide!, _, _, collide_ball_fl_overlapping32, by decide!, by decide!, by decide!, by decide!,
      by decide!⟩,
    ⟨by decide!, _, _, collide_ball_fl_overlapping64, by decide!, by decide!, by decide!, by decide!,
      by decide!⟩⟩

/-- C8, amended. In exact arithmetic, for two balls with positive radii and distinct
centres that touch or overlap, the velocities `collide_ball` writes are those of the
elastic formula of the specification with `m = radius`, evaluated at the centres on
entry; the code evaluates it at the centres after the positional correction, and both
evaluations agree. -/
theorem collide_ball_spec_velocity (sqrt : K → K) (hs : IsSqrt sqrt) (b1 b2 : ball K)
    (_hr1 : 0 < b1.radius) (_hr2 : 0 < b2.radius)
    (hne : b1.z ≠ b2.z) (hov : overlap sqrt b1 b2 ≥ 0) :
    ∃ c1 c2 : ball K, collide_ball sqrt b1 b2 = some (c1, c2)
      ∧ c1.zdot = spec_elastic_velocity b1.radius b2.radius b1.zdot b2.zdot b1.z b2.z
      ∧ c2.zdot = spec_elastic_velocity b2.radius b1.radius b2.zdot b1.zdot b2.z b1.z
      ∧ c1.zdot = spec_elastic_velocity b1.radius b2.radius b1.zdot b2.zdot c1.z c2.z
      ∧ c2.zdot = spec_elastic_velocity b2.radius b1.radius b2.zdot b1.zdot c2.z c1.z :=
  ⟨(resolved sqrt b1 b2).1, (resolved sqrt b1 b2).2, collide_ball_eq_resolved hs hne hov,
    (resolved_zdot_entry hs hne hov).1, (resolved_zdot_entry hs hne hov).2,
    resolved_zdot_fst sqrt b1 b2, resolved_zdot_snd sqrt b1 b2⟩


theorem collide_ball_spec_velocity_witness :
    ∃ c1 c2 : ball ℝ,
      collide_ball Real.sqrt ⟨⟨0, 0⟩, ⟨1, 0⟩, 2, 0⟩ ⟨⟨3, 4⟩, ⟨0, -1⟩, 4, 0⟩ = some (c1, c2)
      ∧ c1.zdot = spec_elastic_velocity 2 4 ⟨1, 0⟩ ⟨0, -1⟩ ⟨0, 0⟩ ⟨3, 4⟩
      ∧ c2.zdot = spec_elastic_velocity 4 2 ⟨0, -1⟩ ⟨1, 0⟩ ⟨3, 4⟩ ⟨0, 0⟩
      ∧ c1.zdot = spec_elastic_velocity 2 4 ⟨1, 0⟩ ⟨0, -1⟩ c1.z c2.z
      ∧ c2.zdot = spec_elastic_velocity 4 2 ⟨0, -1⟩ ⟨1, 0⟩ c2.z c1.z :=
  collide_ball_spec_velocity Real.sqrt isSqrt_real
    ⟨⟨0, 0⟩, ⟨1, 0⟩, 2, 0⟩ ⟨⟨3, 4⟩, ⟨0, -1⟩, 4, 0⟩
    (by norm_num) (by norm_num) (by simp)
    (by rw [real_overlap_of_sq _ _ 5 (by norm_num) (by norm_num)]; norm_num)

/-- C9, as the code behaves. For two balls whose centres coincide and whose radii have
a non-negative sum, `dist` is zero, the division that computes `n_hat` divides by zero,
and `collide_ball` stores the resulting non-finite values: the pair is neither left
unchanged nor separated. -/
theorem collide_ball_coincident_centres (sqrt : K → K) (hs : IsSqrt sqrt) (b1 b2 : ball K)
    (hz : b1.z = b2.z) (hr : 0 ≤ b1.radius + b2.radius) :
    dist sqrt b1 b2 = 0
      ∧ fdiv (b2.z.x - b1.z.x) (dist sqrt b1 b2) = none
      ∧ collide_ball sqrt b1 b2 = none := by
  have hd : dist sqrt b1 b2 = 0 := by
    have h := (hs 0 le_rfl).2
    unfold dist
    rw [hz]
    simpa using h
  refine ⟨hd, by rw [hd]; exact fdiv_zero _, ?_⟩
  simp only [collide_ball, hd, sub_zero, ge_iff_le, hr, if_true, fdiv_zero]
  rfl

theorem collide_ball_coincident_centres_witness :
    dist Real.sqrt ⟨⟨100, 100⟩, ⟨1, 0⟩, 10, 0⟩ ⟨⟨100, 100⟩, ⟨0, 0⟩, 10, 0⟩ = 0
      ∧ fdiv ((100 : ℝ) - 100)
          (dist Real.sqrt ⟨⟨100, 100⟩, ⟨1, 0⟩, 10, 0⟩ ⟨⟨100, 100⟩, ⟨0, 0⟩, 10, 0⟩) = none
      ∧ collide_ball Real.sqrt ⟨⟨100, 100⟩, ⟨1, 0⟩, 10, 0⟩ ⟨⟨100, 100⟩, ⟨0, 0⟩, 10, 0⟩
          = none :=
  collide_ball_coincident_centres Real.sqrt isSqrt_real
    ⟨⟨100, 100⟩, ⟨1, 0⟩, 10, 0⟩ ⟨⟨100, 100⟩, ⟨0, 0⟩, 10, 0⟩ rfl (by norm_num)

/-- C10. For every ball collection and tick input, the tick as coded (for each index
in ascending order: the pairs with every later ball, then `collide_wall`, `update` and
the addition of `KE`) gives the same vector of balls and the same `totalKE` as the
two-phase tick of the specification, and stores a non-finite value exactly when that
one does. -/
theorem tick_eq_spec_tick (sqrt : K → K) (dt : K) (m : Vector2i) (isLeft isRight : Bool)
    (v : List (ball K)) :
    tick sqrt dt m isLeft isRight v = spec_tick sqrt dt m isLeft isRight v := by
  have hpw : (List.range v.length).Pairwise (fun i j => ∀ s : List (ball K) × K,
      (wall_update_at sqrt dt m isLeft isRight i s >>= on_vector (collide_rest sqrt j))
        = on_vector (collide_rest sqrt j) s >>= wall_update_at sqrt dt m isLeft isRight i) :=
    (List.pairwise_lt_range v.length).imp
      (fun hij s => wall_update_at_comm_collide_rest sqrt dt m isLeft isRight hij s)
  have h1 : tick sqrt dt m isLeft isRight v
      = (List.range v.length).foldlM
          (fun s i => on_vector (collide_rest sqrt i) s
            >>= wall_update_at sqrt dt m isLeft isRight i) (v, 0) := by
    simp only [tick, on_vector, bind_assoc, pure_bind]
  rw [h1, foldlM_interleave (fun i => on_vector (collide_rest sqrt i))
    (fun i => wall_update_at sqrt dt m isLeft isRight i) _ hpw (v, 0),
    ← on_vector_foldlM (fun i => collide_rest sqrt i) (List.range v.length) (v, 0)]
  unfold spec_tick
  cases h : (List.range v.length).foldlM (fun v i => collide_rest sqrt i v) v with
  | none => rw [on_vector_none _ (v, 0) h]; rfl
  | some w =>
    have hlen : w.length = v.length :=
      foldlM_length (fun i v => collide_rest sqrt i v) (fun _ _ _ hc => collide_rest_length hc)
        _ v w h
    rw [on_vector_some _ (v, 0) h]
    show _ = (List.range w.length).foldlM _ (w, 0)
    rw [hlen]
    rfl


/-! ## Further facts about `update`, `collide_ball` and `collide_wall` -/

theorem scale_eq : (SCALE : K) = 222 := by
  unfold SCALE PIXEL_PER_METER ZOOM
  norm_num

theorem scale_pos : (0 : K) < SCALE := by
  rw [scale_eq]; norm_num

theorem update_eq_integrated (sqrt : K → K) (b : ball K) (dt : K) (m : Vector2i)
    (isLeft isRight : Bool) :
    update sqrt b dt m isLeft isRight
      = (accel_mouse sqrt b m isLeft isRight).map fun a => integrated a b dt m := by
  unfold update accel_mouse d_to_mouse integrated
  dsimp only
  generalize fdiv (1.0 : K)
    ((sqrt ((b.z.x - (m.x : K)) ^ 2 + (b.z.y - (m.y : K)) ^ 2) / SCALE + 0.1) ^ 3) = q
  cases isLeft <;> cases isRight <;> cases q <;> rfl

theorem accel_mouse_no_button (sqrt : K → K) (b : ball K) (m : Vector2i) :
    accel_mouse sqrt b m false false = some 0 := by
  simp [accel_mouse]


theorem d_to_mouse_nonneg {sqrt : K → K} (hs : IsSqrt sqrt) (b : ball K) (m : Vector2i) :
    0 ≤ d_to_mouse sqrt b m := by
  unfold d_to_mouse
  exact div_nonneg (hs _ (add_nonneg (sq_nonneg _) (sq_nonneg _))).1 scale_pos.le

theorem mouse_divisor_ge {sqrt : K → K} (hs : IsSqrt sqrt) (b : ball K) (m : Vector2i) :
    (0.001 : K) ≤ (d_to_mouse sqrt b m + 0.1) ^ 3 := by
  have hd := d_to_mouse_nonneg hs b m
  have h1 : (0.1 : K) ≤ d_to_mouse sqrt b m + 0.1 := by linarith
  have h2 : (0.1 : K) ^ 3 ≤ (d_to_mouse sqrt b m + 0.1) ^ 3 :=
    pow_le_pow_left₀ (by norm_num) h1 3
  calc (0.001 : K) = (0.1 : K) ^ 3 := by norm_num
    _ ≤ _ := h2

theorem mouse_divisor_pos {sqrt : K → K} (hs : IsSqrt sqrt) (b : ball K) (m : Vector2i) :
    (0 : K) < (d_to_mouse sqrt b m + 0.1) ^ 3 :=
  lt_of_lt_of_le (by norm_num) (mouse_divisor_ge hs b m)

theorem accel_mouse_left {sqrt : K → K} (hs : IsSqrt sqrt) (b : ball K) (m : Vector2i) :
    accel_mouse sqrt b m true false = some (1.0 / (d_to_mouse sqrt b m + 0.1) ^ 3) := by
  simp [accel_mouse, fdiv_of_ne _ (mouse_divisor_pos hs b m).ne']

theorem accel_mouse_right {sqrt : K → K} (hs : IsSqrt sqrt) (b : ball K) (m : Vector2i)
    (isLeft : Bool) :
    accel_mouse sqrt b m isLeft true = some (-(1.0 / (d_to_mouse sqrt b m + 0.1) ^ 3)) := by
  cases isLeft <;> simp [accel_mouse, fdiv_of_ne _ (mouse_divisor_pos hs b m).ne']

theorem d_to_mouse_fl_id (sqrt : K → K) (b : ball K) (m : Vector2i) :
    d_to_mouse_fl id id sqrt b m = d_to_mouse sqrt b m := rfl

theorem accel_mouse_fl_id (sqrt : K → K) (b : ball K) (m : Vector2i) (isLeft isRight : Bool) :
    accel_mouse_fl id id sqrt b m isLeft isRight = accel_mouse sqrt b m isLeft isRight := by
  unfold accel_mouse_fl accel_mouse
  cases isLeft <;> cases isRight <;>
    simp [d_to_mouse_fl, d_to_mouse, add_fl, sub_fl, pow_fl, div_fl, fdiv_fl, fdiv]

theorem update_fl_id (sqrt : K → K) (b : ball K) (dt : K) (m : Vector2i)
    (isLeft isRight : Bool) :
    update_fl id id sqrt b dt m isLeft isRight = update sqrt b dt m isLeft isRight := by
  rw [update_eq_integrated, ← accel_mouse_fl_id]
  unfold update_fl
  cases accel_mouse_fl id id sqrt b m isLeft isRight <;> rfl


/-- A ball at rest at `(300, 300)` and the pointer at `(310, 320)`: `update` in
binary32 with no button, with the left and with the right button. -/
theorem update_fl_rest32 :
    update_fl fl32 fl32 sqrt32 ⟨⟨300, 300⟩, ⟨0, 0⟩, 10, 0⟩ (fl32 0.005) ⟨310, 320⟩ false false
      = some ⟨⟨300, 4915291 / 16384⟩, ⟨0, 5368709 / 1073741824⟩, 10, 4294967 / 34359738368⟩ := by
  decide!

theorem update_fl_repel32 :
    update_fl fl32 fl32 sqrt32 ⟨⟨300, 300⟩, ⟨0, 0⟩, 10, 0⟩ (fl32 0.005) ⟨310, 320⟩ true false
      = some ⟨⟨9829387 / 32768, 2457139 / 8192⟩, ⟨-7475847 / 268435456, -3402379 / 67108864⟩,
          10, 1122743 / 67108864⟩ := by
  decide!

theorem update_fl_attract32 :
    update_fl fl32 fl32 sqrt32 ⟨⟨300, 300⟩, ⟨0, 0⟩, 10, 0⟩ (fl32 0.005) ⟨310, 320⟩ false true
      = some ⟨⟨9831413 / 32768, 307269 / 1024⟩, ⟨7475847 / 268435456, 16293871 / 268435456⟩,
          10, 5986141 / 268435456⟩ := by
  decide!

/-- The same three calls with the `double` operations in binary64. -/
theorem update_fl_rest64 :
    update_fl fl32 fl64 sqrt64 ⟨⟨300, 300⟩, ⟨0, 0⟩, 10, 0⟩ (fl32 0.005) ⟨310, 320⟩ false false
      = some ⟨⟨300, 4915291 / 16384⟩, ⟨0, 5368709 / 1073741824⟩, 10, 4294967 / 34359738368⟩ := by
  decide!

theorem update_fl_repel64 :
    update_fl fl32 fl64 sqrt64 ⟨⟨300, 300⟩, ⟨0, 0⟩, 10, 0⟩ (fl32 0.005) ⟨310, 320⟩ true false
      = some ⟨⟨9829387 / 32768, 2457139 / 8192⟩, ⟨-7475847 / 268435456, -3402379 / 67108864⟩,
          10, 1122743 / 67108864⟩ := by
  decide!

theorem update_fl_attract64 :
    update_fl fl32 fl64 sqrt64 ⟨⟨300, 300⟩, ⟨0, 0⟩, 10, 0⟩ (fl32 0.005) ⟨310, 320⟩ false true
      = some ⟨⟨9831413 / 32768, 307269 / 1024⟩, ⟨7475847 / 268435456, 16293871 / 268435456⟩,
          10, 11972283 / 536870912⟩ := by
  decide!

theorem dist_comm (sqrt : K → K) (a b : ball K) : dist sqrt b a = dist sqrt a b := by
  unfold dist
  congr 1
  ring

theorem overlap_comm (sqrt : K → K) (a b : ball K) : overlap sqrt b a = overlap sqrt a b := by
  unfold overlap
  rw [dist_comm, add_comm]

theorem resolved_swap (sqrt : K → K) (a b : ball K) :
    resolved sqrt b a = ((resolved sqrt a b).2, (resolved sqrt a b).1) := by
  simp only [resolved, dist_comm sqrt a b, add_comm b.radius a.radius]
  refine Prod.ext ?_ ?_
  · simp only [ball.mk.injEq, Vector2f.mk.injEq, and_true]
    refine ⟨⟨?_, ?_⟩, ?_, ?_⟩ <;> ring
  · simp only [ball.mk.injEq, Vector2f.mk.injEq, and_true]
    refine ⟨⟨?_, ?_⟩, ?_, ?_⟩ <;> ring

theorem collide_ball_of_apart (sqrt : K → K) (b1 b2 : ball K) (hov : overlap sqrt b1 b2 < 0) :
    collide_ball sqrt b1 b2 = some (b1, b2) := by
  unfold overlap at hov
  simp only [collide_ball, ge_iff_le, not_le.mpr hov, if_false, Option.pure_def]

theorem collide_wall_of_inside (b : ball K)
    (hx1 : b.radius ≤ b.z.x) (hx2 : b.z.x ≤ (WINDOW_SIZE : K) - b.radius)
    (hy1 : b.radius ≤ b.z.y) (hy2 : b.z.y ≤ (WINDOW_SIZE : K) - b.radius) :
    collide_wall b = b := by
  have h1 : ¬ b.z.x + b.radius > (WINDOW_SIZE : K) := by rw [gt_iff_lt, not_lt]; linarith
  have h2 : ¬ b.z.x < b.radius := not_lt.mpr hx1
  have h3 : ¬ b.z.y + b.radius > (WINDOW_SIZE : K) := by rw [gt_iff_lt, not_lt]; linarith
  have h4 : ¬ b.z.y < b.radius := not_lt.mpr hy1
  simp [collide_wall, h1, h2, h3, h4]

theorem collide_wall_within (b : ball K) (hfit : 2 * b.radius ≤ (WINDOW_SIZE : K)) :
    (collide_wall b).radius = b.radius
    ∧ b.radius ≤ (collide_wall b).z.x ∧ (collide_wall b).z.x ≤ (WINDOW_SIZE : K) - b.radius
    ∧ b.radius ≤ (collide_wall b).z.y ∧ (collide_wall b).z.y ≤ (WINDOW_SIZE : K) - b.radius := by
  unfold collide_wall
  simp only
  split_ifs <;> simp_all <;> (try constructor) <;> linarith

/-! ## The schedule of a tick -/

theorem foldlM_flatMap {σ α β : Type} (f : σ → β → Option σ) (g : α → List β) (l : List α) :
    ∀ s : σ, (l.flatMap g).foldlM f s = l.foldlM (fun s a => (g a).foldlM f s) s := by
  induction l with
  | nil => intro s; rfl
  | cons a l ih =>
    intro s
    simp only [List.flatMap_cons, List.foldlM_append, List.foldlM_cons]
    congr 1
    funext t
    exact ih t

theorem collide_ball_calls_eq (n : Nat) :
    collide_ball_calls n
      = (List.range n).flatMap fun i =>
          (List.range' (i + 1) (n - (i + 1))).map fun j => (i, j) := by
  unfold collide_ball_calls tick_schedule
  rw [List.filterMap_flatMap]
  congr 1
  funext i
  rw [List.filterMap_append, List.filterMap_map]
  simp [Function.comp_def]
  exact congrFun (List.filterMap_eq_map fun j => (i, j)) _

theorem mem_collide_ball_calls (n : Nat) (p : Nat × Nat) :
    p ∈ collide_ball_calls n ↔ p.1 < p.2 ∧ p.2 < n := by
  rw [collide_ball_calls_eq]
  simp only [List.mem_flatMap, List.mem_range, List.mem_map, List.mem_range'_1]
  constructor
  · rintro ⟨i, hi, j, hj, rfl⟩
    simp only
    omega
  · rintro ⟨h1, h2⟩
    exact ⟨p.1, by omega, p.2, by omega, rfl⟩

theorem collide_ball_calls_sorted (n : Nat) :
    (collide_ball_calls n).Pairwise
      fun p q : Nat × Nat => p.1 < q.1 ∨ (p.1 = q.1 ∧ p.2 < q.2) := by
  rw [collide_ball_calls_eq, List.pairwise_flatMap]
  constructor
  · intro i _
    rw [List.pairwise_map]
    exact (List.pairwise_lt_range' (i + 1) (n - (i + 1))).imp
      (fun h => Or.inr ⟨rfl, h⟩)
  · refine (List.pairwise_lt_range n).imp ?_
    intro a b hab x hx y hy
    simp only [List.mem_map] at hx hy
    obtain ⟨_, _, rfl⟩ := hx
    obtain ⟨_, _, rfl⟩ := hy
    exact Or.inl hab

theorem pairs_from_length (n : Nat) :
    ∀ k s : Nat, s + k = n →
      ((List.range' s k).flatMap fun i =>
          (List.range' (i + 1) (n - (i + 1))).map fun j => (i, j)).length * 2
        = k * (k - 1) := by
  intro k
  induction k with
  | zero => intro s _; simp
  | succ k ih =>
    intro s hs
    rw [List.range'_succ, List.flatMap_cons, List.length_append, List.length_map,
      List.length_range', Nat.add_mul, ih (s + 1) (by omega)]
    have e : n - (s + 1) = k := by omega
    rw [e]
    cases k with
    | zero => simp
    | succ m =>
      simp only [Nat.add_sub_cancel]
      ring

theorem collide_ball_calls_length (n : Nat) :
    (collide_ball_calls n).length = n * (n - 1) / 2 := by
  have h := pairs_from_length n n 0 (by omega)
  rw [← List.range_eq_range', ← collide_ball_calls_eq] at h
  rw [← h]
  simp


theorem tick_eq_foldlM (sqrt : K → K) (dt : K) (m : Vector2i) (isLeft isRight : Bool)
    (v : List (ball K)) :
    tick sqrt dt m isLeft isRight v
      = (List.range v.length).foldlM
          (fun s i => on_vector (collide_rest sqrt i) s
            >>= wall_update_at sqrt dt m isLeft isRight i) (v, 0) := by
  simp only [tick, on_vector, bind_assoc, pure_bind]

/-- The steps the schedule lists for index `i` are the inner loop followed by the wall
and update statements. -/
theorem run_schedule_at (sqrt : K → K) (dt : K) (m : Vector2i) (isLeft isRight : Bool)
    (i : Nat) (s : List (ball K) × K) :
    ((List.range' (i + 1) (s.1.length - (i + 1))).map (tick_event.collide i)
        ++ [tick_event.wall_update i]).foldlM (run_event sqrt dt m isLeft isRight) s
      = on_vector (collide_rest sqrt i) s >>= wall_update_at sqrt dt m isLeft isRight i := by
  rw [List.foldlM_append, List.foldlM_map]
  have e : on_vector (collide_rest sqrt i) s
      = (List.range' (i + 1) (s.1.length - (i + 1))).foldlM
          (fun t j => run_event sqrt dt m isLeft isRight t (tick_event.collide i j)) s := by
    rw [show (fun t j => run_event sqrt dt m isLeft isRight t (tick_event.collide i j))
        = (fun (t : List (ball K) × K) j => on_vector (collide_at sqrt i j) t) from rfl,
      ← on_vector_foldlM]
    rfl
  rw [e]
  congr 1
  funext t
  simp [run_event]

theorem tick_runs_schedule_aux (sqrt : K → K) (dt : K) (m : Vector2i) (isLeft isRight : Bool)
    (n : Nat) (is : List Nat) :
    ∀ s : List (ball K) × K, s.1.length = n →
      is.foldlM (fun s i => on_vector (collide_rest sqrt i) s
          >>= wall_update_at sqrt dt m isLeft isRight i) s
        = is.foldlM (fun s i =>
            ((List.range' (i + 1) (n - (i + 1))).map (tick_event.collide i)
              ++ [tick_event.wall_update i]).foldlM (run_event sqrt dt m isLeft isRight) s)
            s := by
  induction is with
  | nil => intro s _; rfl
  | cons i is ih =>
    intro s hs
    simp only [List.foldlM_cons]
    rw [← hs, run_schedule_at, hs]
    cases hu : on_vector (collide_rest sqrt i) s with
    | none => rfl
    | some u =>
      have hlu : u.1.length = n := by
        unfold on_vector at hu
        cases hc : collide_rest sqrt i s.1 with
        | none => rw [hc] at hu; cases hu
        | some w =>
          rw [hc] at hu
          cases hu
          rw [← hs]
          exact collide_rest_length hc
      cases ht : wall_update_at sqrt dt m isLeft isRight i u with
      | none =>
        show (wall_update_at sqrt dt m isLeft isRight i u >>= _)
          = (wall_update_at sqrt dt m isLeft isRight i u >>= _)
        rw [ht]; rfl
      | some t =>
        show (wall_update_at sqrt dt m isLeft isRight i u >>= _)
          = (wall_update_at sqrt dt m isLeft isRight i u >>= _)
        rw [ht]
        exact ih t (by rw [wall_update_at_length ht, hlu])

/-- One tick is the run of its schedule. -/
theorem tick_runs_schedule (sqrt : K → K) (dt : K) (m : Vector2i) (isLeft isRight : Bool)
    (v : List (ball K)) :
    tick sqrt dt m isLeft isRight v
      = (tick_schedule v.length).foldlM (run_event sqrt dt m isLeft isRight) (v, 0) := by
  rw [tick_eq_foldlM, tick_runs_schedule_aux sqrt dt m isLeft isRight v.length _ (v, 0) rfl]
  unfold tick_schedule
  rw [foldlM_flatMap]


/-! ## The radius is never written -/

theorem map_set_of_eq {α β : Type} (f : α → β) :
    ∀ (l : List α) (i : Nat) (a b : α), l[i]? = some b → f a = f b →
      (l.set i a).map f = l.map f := by
  intro l
  induction l with
  | nil => intro i a b h _; simp at h
  | cons x l ih =>
    intro i a b h hf
    cases i with
    | zero =>
      simp at h
      subst h
      simp [hf]
    | succ i =>
      simp at h
      simp [ih i a b h hf]

theorem foldlM_preserves {σ ι γ : Type} (g : σ → γ) (F : σ → ι → Option σ)
    (hF : ∀ s i t, F s i = some t → g t = g s) (is : List ι) :
    ∀ s t, is.foldlM F s = some t → g t = g s := by
  induction is with
  | nil => intro s t h; cases h; rfl
  | cons i is ih =>
    intro s t h
    simp only [List.foldlM_cons] at h
    cases hi : F s i with
    | none => rw [hi] at h; cases h
    | some u =>
      rw [hi] at h
      rw [ih u t h, hF s i u hi]

theorem collide_ball_radius {sqrt : K → K} {b1 b2 : ball K} {c : ball K × ball K}
    (h : collide_ball sqrt b1 b2 = some c) :
    c.1.radius = b1.radius ∧ c.2.radius = b2.radius := by
  unfold collide_ball at h
  dsimp only at h
  split_ifs at h
  · simp only [Option.bind_eq_bind, Option.bind_eq_some, Option.pure_def, Option.some.injEq]
      at h
    obtain ⟨_, _, _, _, _, _, _, _, _, _, _, _, _, _, _, _, _, _, _, _, rfl⟩ := h
    exact ⟨rfl, rfl⟩
  · cases h
    exact ⟨rfl, rfl⟩

theorem collide_wall_radius (b : ball K) : (collide_wall b).radius = b.radius := by
  unfold collide_wall
  dsimp only
  split_ifs <;> rfl

theorem update_radius {sqrt : K → K} {b c : ball K} {dt : K} {m : Vector2i}
    {isLeft isRight : Bool} (h : update sqrt b dt m isLeft isRight = some c) :
    c.radius = b.radius := by
  rw [update_eq_integrated] at h
  cases ha : accel_mouse sqrt b m isLeft isRight with
  | none => rw [ha] at h; cases h
  | some a => rw [ha] at h; cases h; rfl

theorem collide_at_radii {sqrt : K → K} {i j : Nat} {v w : List (ball K)}
    (h : collide_at sqrt i j v = some w) :
    w.map ball.radius = v.map ball.radius := by
  cases hi : v[i]? with
  | none => rw [collide_at_none_fst hi] at h; cases h; rfl
  | some b1 =>
    cases hj : v[j]? with
    | none => rw [collide_at_none_snd hj] at h; cases h; rfl
    | some b2 =>
      rw [collide_at_some hi hj] at h
      cases hc : collide_ball sqrt b1 b2 with
      | none => rw [hc] at h; cases h
      | some c =>
        rw [hc] at h
        cases h
        obtain ⟨h1, h2⟩ := collide_ball_radius hc
        by_cases hij : i = j
        · subst hij
          rw [hi] at hj
          cases hj
          rw [map_set_of_eq ball.radius _ i c.2 c.1 (by
                rw [List.getElem?_set_eq_of_lt]
                exact (List.getElem?_eq_some_iff.mp hi).1) (by rw [h1, h2]),
            map_set_of_eq ball.radius v i c.1 b1 hi h1]
        · rw [map_set_of_eq ball.radius _ j c.2 b2 (by
                rw [List.getElem?_set_ne hij]; exact hj) h2,
            map_set_of_eq ball.radius v i c.1 b1 hi h1]

theorem collide_rest_radii {sqrt : K → K} {i : Nat} {v w : List (ball K)}
    (h : collide_rest sqrt i v = some w) :
    w.map ball.radius = v.map ball.radius :=
  foldlM_preserves (fun v : List (ball K) => v.map ball.radius)
    (fun v j => collide_at sqrt i j v) (fun _ _ _ hc => collide_at_radii hc) _ v w h

theorem wall_update_at_radii {sqrt : K → K} {dt : K} {m : Vector2i} {isLeft isRight : Bool}
    {i : Nat} {s t : List (ball K) × K}
    (h : wall_update_at sqrt dt m isLeft isRight i s = some t) :
    t.1.map ball.radius = s.1.map ball.radius := by
  cases hi : s.1[i]? with
  | none => rw [wall_update_at_none s hi] at h; cases h; rfl
  | some b =>
    rw [wall_update_at_some s hi] at h
    cases hu : update sqrt (collide_wall b) dt m isLeft isRight with
    | none => rw [hu] at h; cases h
    | some c =>
      rw [hu] at h
      cases h
      exact map_set_of_eq ball.radius s.1 i c b hi
        (by rw [update_radius hu, collide_wall_radius])

theorem tick_radii {sqrt : K → K} {dt : K} {m : Vector2i} {isLeft isRight : Bool}
    {v : List (ball K)} {t : List (ball K) × K}
    (h : tick sqrt dt m isLeft isRight v = some t) :
    t.1.map ball.radius = v.map ball.radius := by
  unfold tick at h
  refine foldlM_preserves (fun s : List (ball K) × K => s.1.map ball.radius) _ ?_ _ (v, 0) t h
  intro s i u hu
  cases hc : collide_rest sqrt i s.1 with
  | none => rw [hc] at hu; cases hu
  | some w =>
    rw [hc] at hu
    show u.1.map ball.radius = s.1.map ball.radius
    rw [← collide_rest_radii hc]
    exact wall_update_at_radii hu

theorem ticks_radii {sqrt : K → K} {inputs : List (tick_input K)} {v w : List (ball K)}
    (h : ticks sqrt inputs v = some w) :
    w.map ball.radius = v.map ball.radius := by
  unfold ticks at h
  refine foldlM_preserves (fun v : List (ball K) => v.map ball.radius) _ ?_ _ v w h
  intro s inp t ht
  cases hk : tick sqrt inp.dt inp.mouse_pose inp.isLeft inp.isRight s with
  | none => rw [hk] at ht; cases ht
  | some u =>
    rw [hk] at ht
    cases ht
    exact tick_radii hk


/-! ## The sequence of calls of `collide_ball` -/

theorem collide_ball_calls_four :
    collide_ball_calls 4 = [(0, 1), (0, 2), (0, 3), (1, 2), (1, 3), (2, 3)] := by
  decide

/-! ## The two-ball scenario, tick by tick -/

/-- One tick on a vector of two balls. -/
theorem tick_pair (sqrt : K → K) (dt : K) (m : Vector2i) (isLeft isRight : Bool)
    (a b : ball K) :
    tick sqrt dt m isLeft isRight [a, b]
      = (collide_ball sqrt a b).bind fun c =>
          (update sqrt (collide_wall c.1) dt m isLeft isRight).bind fun a2 =>
            (update sqrt (collide_wall c.2) dt m isLeft isRight).bind fun b2 =>
              some ([a2, b2], 0 + a2.KE + b2.KE) := by
  have hr : List.range 2 = [0, 1] := rfl
  have h1 : List.range' 1 1 = [1] := rfl
  have h2 : List.range' 2 0 = [] := rfl
  simp only [tick, List.length_cons, List.length_nil, Nat.zero_add, Nat.reduceAdd, hr,
    List.foldlM_cons, List.foldlM_nil]
  cases hc : collide_ball sqrt a b with
  | none =>
    simp [collide_rest, collide_at, hc, h1]
  | some c =>
    have e0 : collide_rest sqrt 0 [a, b] = some [c.1, c.2] := by
      simp [collide_rest, collide_at, hc, h1]
    simp only [e0, Option.bind_eq_bind, Option.some_bind, Option.pure_def]
    cases hu : update sqrt (collide_wall c.1) dt m isLeft isRight with
    | none => simp [wall_update_at, hu]
    | some a2 =>
      have e1 : wall_update_at sqrt dt m isLeft isRight 0 ([c.1, c.2], 0)
          = some ([a2, c.2], 0 + a2.KE) := by
        simp [wall_update_at, hu]
      have e2 : collide_rest sqrt 1 [a2, c.2] = some [a2, c.2] := by
        simp [collide_rest, h2]
      simp only [e1, e2, Option.some_bind]
      cases hv : update sqrt (collide_wall c.2) dt m isLeft isRight with
      | none => simp [wall_update_at, hv]
      | some b2 => simp [wall_update_at, hv]


theorem window_size_eq : ((WINDOW_SIZE : Int) : K) = 600 := by
  unfold WINDOW_SIZE; norm_num

theorem update_free (sqrt : K → K) (b : ball K) (dt : K) (m : Vector2i) :
    update sqrt b dt m false false = some (integrated 0 b dt m) := by
  rw [update_eq_integrated, accel_mouse_no_button]; rfl

theorem scenario_fall_le (k : Nat) (hk : k ≤ 100) :
    (0 : K) ≤ 0.002775 * (k : K) * ((k : K) + 1)
      ∧ (0.002775 : K) * (k : K) * ((k : K) + 1) ≤ 29 := by
  have h0 : (0 : K) ≤ (k : K) := Nat.cast_nonneg k
  have h1 : (k : K) ≤ 100 := by exact_mod_cast hk
  constructor
  · positivity
  · have : (k : K) * ((k : K) + 1) ≤ 100 * 101 := by nlinarith
    norm_num
    nlinarith

theorem scenario_tick_apart {sqrt : K → K} (hs : IsSqrt sqrt) (k : Nat) (hk : k ≤ 99)
    (ke0 ke1 : K) :
    ∃ e0 e1 T : K,
      tick sqrt 0.005 ⟨0, 0⟩ false false (scenario_state k ke0 ke1)
        = some (scenario_state (k + 1) e0 e1, T) := by
  have h0 : (0 : K) ≤ (k : K) := Nat.cast_nonneg k
  have h1 : (k : K) ≤ 99 := by exact_mod_cast hk
  obtain ⟨hf0, hf1⟩ := scenario_fall_le (K := K) k (by omega)
  have hd : dist sqrt
      (⟨⟨30 + 1.11 * (k : K), 100 + 0.002775 * (k : K) * ((k : K) + 1)⟩,
        ⟨1, 0.005 * (k : K)⟩, 30, ke0⟩ : ball K)
      ⟨⟨200, 100 + 0.002775 * (k : K) * ((k : K) + 1)⟩, ⟨0, 0.005 * (k : K)⟩, 30, ke1⟩
      = 170 - 1.11 * (k : K) := by
    unfold dist
    have e : ((200 : K) - (30 + 1.11 * (k : K))) ^ 2
        + ((100 + 0.002775 * (k : K) * ((k : K) + 1))
            - (100 + 0.002775 * (k : K) * ((k : K) + 1))) ^ 2
        = (170 - 1.11 * (k : K)) ^ 2 := by ring
    rw [e]
    exact sqrt_sq_of_nonneg hs (by norm_num; linarith)
  have hov : overlap sqrt
      (⟨⟨30 + 1.11 * (k : K), 100 + 0.002775 * (k : K) * ((k : K) + 1)⟩,
        ⟨1, 0.005 * (k : K)⟩, 30, ke0⟩ : ball K)
      ⟨⟨200, 100 + 0.002775 * (k : K) * ((k : K) + 1)⟩, ⟨0, 0.005 * (k : K)⟩, 30, ke1⟩
      < 0 := by
    unfold overlap
    rw [hd]
    norm_num
    linarith
  unfold scenario_state
  rw [tick_pair, collide_ball_of_apart sqrt _ _ hov]
  simp only [Option.some_bind]
  rw [collide_wall_of_inside _ (by norm_num)
      (by rw [window_size_eq]; norm_num; linarith)
      (by norm_num; linarith) (by rw [window_size_eq]; norm_num; linarith),
    collide_wall_of_inside _ (by norm_num)
      (by rw [window_size_eq]; norm_num)
      (by norm_num; linarith) (by rw [window_size_eq]; norm_num; linarith),
    update_free, update_free]
  simp only [Option.some_bind]
  refine ⟨(integrated 0 (⟨⟨30 + 1.11 * (k : K), 100 + 0.002775 * (k : K) * ((k : K) + 1)⟩,
        ⟨1, 0.005 * (k : K)⟩, 30, ke0⟩ : ball K) 0.005 ⟨0, 0⟩).KE,
    (integrated 0 (⟨⟨200, 100 + 0.002775 * (k : K) * ((k : K) + 1)⟩,
        ⟨0, 0.005 * (k : K)⟩, 30, ke1⟩ : ball K) 0.005 ⟨0, 0⟩).KE,
    0 + (integrated 0 (⟨⟨30 + 1.11 * (k : K), 100 + 0.002775 * (k : K) * ((k : K) + 1)⟩,
        ⟨1, 0.005 * (k : K)⟩, 30, ke0⟩ : ball K) 0.005 ⟨0, 0⟩).KE
      + (integrated 0 (⟨⟨200, 100 + 0.002775 * (k : K) * ((k : K) + 1)⟩,
        ⟨0, 0.005 * (k : K)⟩, 30, ke1⟩ : ball K) 0.005 ⟨0, 0⟩).KE, ?_⟩
  simp only [integrated, scale_eq, G, Option.some.injEq, Prod.mk.injEq, List.cons.injEq,
    ball.mk.injEq, Vector2f.mk.injEq, and_true, true_and]
  push_cast
  refine ⟨⟨⟨?_, ?_⟩, ?_, ?_⟩, ⟨?_, ?_⟩, ?_, ?_⟩ <;> (norm_num <;> ring)


theorem run_scenario_succ (sqrt : K → K) (k : Nat) :
    run_scenario sqrt (k + 1)
      = (run_scenario sqrt k).bind fun v =>
          (tick sqrt 0.005 ⟨0, 0⟩ false false v).map Prod.fst := by
  unfold run_scenario ticks
  rw [List.replicate_succ', List.foldlM_append]
  simp [scenario_input]

theorem run_scenario_before {sqrt : K → K} (hs : IsSqrt sqrt) :
    ∀ k : Nat, k ≤ 100 → ∃ ke0 ke1 : K, run_scenario sqrt k = some (scenario_state k ke0 ke1) := by
  intro k
  induction k with
  | zero =>
    intro _
    refine ⟨0, 0, ?_⟩
    simp [run_scenario, ticks, scenario_start, scenario_state]
  | succ k ih =>
    intro hk
    obtain ⟨ke0, ke1, h⟩ := ih (by omega)
    obtain ⟨e0, e1, T, ht⟩ := scenario_tick_apart hs k (by omega) ke0 ke1
    exact ⟨e0, e1, by rw [run_scenario_succ, h, Option.some_bind, ht]; rfl⟩

/-- The pair resolver on the scenario after 100 ticks: the centres are 59 apart, and
come out 60 apart with the horizontal velocities exchanged. -/
theorem scenario_resolve {sqrt : K → K} (hs : IsSqrt sqrt) (ke0 ke1 : K) :
    collide_ball sqrt (⟨⟨141, 128.0275⟩, ⟨1, 0.5⟩, 30, ke0⟩ : ball K)
        ⟨⟨200, 128.0275⟩, ⟨0, 0.5⟩, 30, ke1⟩
      = some (⟨⟨140.5, 128.0275⟩, ⟨0, 0.5⟩, 30, ke0⟩, ⟨⟨200.5, 128.0275⟩, ⟨1, 0.5⟩, 30, ke1⟩) := by
  have hd : dist sqrt (⟨⟨141, 128.0275⟩, ⟨1, 0.5⟩, 30, ke0⟩ : ball K)
      ⟨⟨200, 128.0275⟩, ⟨0, 0.5⟩, 30, ke1⟩ = 59 := by
    unfold dist
    have e : ((200 : K) - 141) ^ 2 + ((128.0275 : K) - 128.0275) ^ 2 = 59 ^ 2 := by norm_num
    rw [e]
    exact sqrt_sq_of_nonneg hs (by norm_num)
  have hne : (⟨⟨141, 128.0275⟩, ⟨1, 0.5⟩, 30, ke0⟩ : ball K).z
      ≠ (⟨⟨200, 128.0275⟩, ⟨0, 0.5⟩, 30, ke1⟩ : ball K).z := by
    simp
  rw [collide_ball_eq_resolved hs hne (by unfold overlap; rw [hd]; norm_num)]
  simp only [resolved, hd, Option.some.injEq, Prod.mk.injEq, ball.mk.injEq, Vector2f.mk.injEq,
    and_true, true_and]
  norm_num


theorem scenario_state_100 (ke0 ke1 : K) :
    scenario_state 100 ke0 ke1
      = [(⟨⟨141, 128.0275⟩, ⟨1, 0.5⟩, 30, ke0⟩ : ball K), ⟨⟨200, 128.0275⟩, ⟨0, 0.5⟩, 30, ke1⟩] := by
  simp only [scenario_state, List.cons.injEq, ball.mk.injEq, Vector2f.mk.injEq, and_true,
    true_and]
  norm_num

/-- The tick in which the resolver runs: the scenario after 101 ticks. -/
theorem scenario_tick_collision {sqrt : K → K} (hs : IsSqrt sqrt) (ke0 ke1 : K) :
    ∃ e0 e1 T : K,
      tick sqrt 0.005 ⟨0, 0⟩ false false (scenario_state 100 ke0 ke1)
        = some ([(⟨⟨140.5, 128.58805⟩, ⟨0, 0.505⟩, 30, e0⟩ : ball K),
            ⟨⟨201.61, 128.58805⟩, ⟨1, 0.505⟩, 30, e1⟩], T) := by
  rw [scenario_state_100, tick_pair, scenario_resolve hs]
  simp only [Option.some_bind]
  rw [collide_wall_of_inside _ (by norm_num) (by rw [window_size_eq]; norm_num)
      (by norm_num) (by rw [window_size_eq]; norm_num),
    collide_wall_of_inside _ (by norm_num) (by rw [window_size_eq]; norm_num)
      (by norm_num) (by rw [window_size_eq]; norm_num),
    update_free, update_free]
  simp only [Option.some_bind]
  refine ⟨(integrated 0 (⟨⟨140.5, 128.0275⟩, ⟨0, 0.5⟩, 30, ke0⟩ : ball K) 0.005 ⟨0, 0⟩).KE,
    (integrated 0 (⟨⟨200.5, 128.0275⟩, ⟨1, 0.5⟩, 30, ke1⟩ : ball K) 0.005 ⟨0, 0⟩).KE,
    0 + (integrated 0 (⟨⟨140.5, 128.0275⟩, ⟨0, 0.5⟩, 30, ke0⟩ : ball K) 0.005 ⟨0, 0⟩).KE
      + (integrated 0 (⟨⟨200.5, 128.0275⟩, ⟨1, 0.5⟩, 30, ke1⟩ : ball K) 0.005 ⟨0, 0⟩).KE, ?_⟩
  simp only [integrated, scale_eq, G, Option.some.injEq, Prod.mk.injEq, List.cons.injEq,
    ball.mk.injEq, Vector2f.mk.injEq, and_true, true_and]
  norm_num

theorem run_scenario_101 {sqrt : K → K} (hs : IsSqrt sqrt) :
    ∃ e0 e1 : K,
      run_scenario sqrt 101
        = some [(⟨⟨140.5, 128.58805⟩, ⟨0, 0.505⟩, 30, e0⟩ : ball K),
            ⟨⟨201.61, 128.58805⟩, ⟨1, 0.505⟩, 30, e1⟩] := by
  obtain ⟨ke0, ke1, h⟩ := run_scenario_before hs 100 le_rfl
  obtain ⟨e0, e1, T, ht⟩ := scenario_tick_collision hs ke0 ke1
  exact ⟨e0, e1, by rw [run_scenario_succ, h, Option.some_bind, ht]; rfl⟩

theorem scenario_dist_101 {sqrt : K → K} (hs : IsSqrt sqrt) (e0 e1 : K) :
    dist sqrt (⟨⟨140.5, 128.58805⟩, ⟨0, 0.505⟩, 30, e0⟩ : ball K)
      ⟨⟨201.61, 128.58805⟩, ⟨1, 0.505⟩, 30, e1⟩ = 61.11 := by
  unfold dist
  have e : ((201.61 : K) - 140.5) ^ 2 + ((128.58805 : K) - 128.58805) ^ 2 = 61.11 ^ 2 := by
    norm_num
  rw [e]
  exact sqrt_sq_of_nonneg hs (by norm_num)

theorem scenario_dist_resolved {sqrt : K → K} (hs : IsSqrt sqrt) (ke0 ke1 : K) :
    dist sqrt (⟨⟨140.5, 128.0275⟩, ⟨0, 0.5⟩, 30, ke0⟩ : ball K)
      ⟨⟨200.5, 128.0275⟩, ⟨1, 0.5⟩, 30, ke1⟩ = 60 := by
  unfold dist
  have e : ((200.5 : K) - 140.5) ^ 2 + ((128.0275 : K) - 128.0275) ^ 2 = 60 ^ 2 := by
    norm_num
  rw [e]
  exact sqrt_sq_of_nonneg hs (by norm_num)

/-! ## The claims, continued -/

/-- C11. In one tick on `n` balls the calls of `collide_ball` are exactly the index pairs
`(i, j)` with `i < j < n`, each once, in lexicographic order, `n * (n - 1) / 2` calls in
all, none with `i = j`; and the tick is the run of the schedule these calls are read
from. -/
theorem collide_ball_calls_exact (n : Nat) (sqrt : K → K) (dt : K) (m : Vector2i)
    (isLeft isRight : Bool) (v : List (ball K)) :
    (∀ p : Nat × Nat, p ∈ collide_ball_calls n ↔ p.1 < p.2 ∧ p.2 < n)
      ∧ (collide_ball_calls n).Pairwise
          (fun p q : Nat × Nat => p.1 < q.1 ∨ (p.1 = q.1 ∧ p.2 < q.2))
      ∧ (collide_ball_calls n).Nodup
      ∧ (collide_ball_calls n).length = n * (n - 1) / 2
      ∧ (∀ p ∈ collide_ball_calls n, p.1 ≠ p.2)
      ∧ tick sqrt dt m isLeft isRight v
          = (tick_schedule v.length).foldlM (run_event sqrt dt m isLeft isRight) (v, 0) := by
  refine ⟨mem_collide_ball_calls n, collide_ball_calls_sorted n, ?_,
    collide_ball_calls_length n, ?_, tick_runs_schedule sqrt dt m isLeft isRight v⟩
  · refine (collide_ball_calls_sorted n).imp ?_
    intro p q h hpq
    subst hpq
    omega
  · intro p hp
    have := (mem_collide_ball_calls n p).mp hp
    omega

/-- C12. With neither pointer button pressed, for every ball, `dt` and pointer
position, `update` keeps the horizontal velocity and adds `G * dt` to the vertical one,
with `G = 1`; a ball at rest keeps `x` and `xdot = 0` and moves down by
`G * dt * dt * SCALE`. -/
theorem update_no_button (sqrt : K → K) (b : ball K) (dt : K) (m : Vector2i) :
    ∃ c : ball K, update sqrt b dt m false false = some c
      ∧ c.zdot.x = b.zdot.x
      ∧ c.zdot.y = b.zdot.y + G * dt
      ∧ (G : K) = 1
      ∧ (b.zdot.x = 0 → b.zdot.y = 0 →
          c.z.x = b.z.x ∧ c.zdot.x = 0 ∧ c.z.y = b.z.y + G * dt * dt * SCALE) := by
  refine ⟨integrated 0 b dt m, ?_, ?_, ?_, rfl, ?_⟩
  · rw [update_eq_integrated, accel_mouse_no_button]; rfl
  · simp [integrated]
  · simp [integrated]
  · intro hx hy
    simp [integrated, hx, hy]

theorem update_no_button_witness :
    ∃ c : ball ℝ,
      update Real.sqrt ⟨⟨300, 300⟩, ⟨0, 0⟩, 10, 0⟩ 0.005 ⟨17, 40⟩ false false = some c
      ∧ c.zdot.x = 0
      ∧ c.zdot.y = 0 + G * 0.005
      ∧ c.z.x = 300 ∧ c.zdot.x = 0 ∧ c.z.y = 300 + G * 0.005 * 0.005 * SCALE :=
  let ⟨c, h1, h2, h3, _, h5⟩ :=
    update_no_button Real.sqrt (⟨⟨300, 300⟩, ⟨0, 0⟩, 10, 0⟩ : ball ℝ) 0.005 ⟨17, 40⟩
  ⟨c, h1, h2, h3, h5 rfl rfl⟩

/-- C13. The radius is never changed: `collide_ball` keeps the radius of both balls,
`collide_wall` and `update` keep the radius of their ball, and after any number of ticks
every ball of the vector has the radius it had at the start. -/
theorem radius_never_changes (sqrt : K → K) :
    (∀ b1 b2 c1 c2 : ball K, collide_ball sqrt b1 b2 = some (c1, c2) →
        c1.radius = b1.radius ∧ c2.radius = b2.radius)
      ∧ (∀ b : ball K, (collide_wall b).radius = b.radius)
      ∧ (∀ (b c : ball K) (dt : K) (m : Vector2i) (isLeft isRight : Bool),
          update sqrt b dt m isLeft isRight = some c → c.radius = b.radius)
      ∧ (∀ (inputs : List (tick_input K)) (v w : List (ball K)),
          ticks sqrt inputs v = some w → w.map ball.radius = v.map ball.radius) :=
  ⟨fun _ _ _ _ h => collide_ball_radius h, collide_wall_radius,
    fun _ _ _ _ _ _ h => update_radius h, fun _ _ _ h => ticks_radii h⟩

theorem radius_never_changes_witness :
    ∃ w : List (ball ℝ), run_scenario Real.sqrt 101 = some w ∧ w.map ball.radius = [30, 30] :=
  let ⟨_, _, h⟩ := run_scenario_101 isSqrt_real
  ⟨_, h, ((radius_never_changes Real.sqrt).2.2.2 _ _ _ h).trans (by simp [scenario_start])⟩

/-- C14, as stated, fails: the x-distance is first below 60 after 100 ticks, where it is
59; the resolver runs in the next tick, and at the end of that tick the centres are
61.11 apart. Neither tick ends with the centres 60 apart. -/
theorem scenario_end_of_tick_distance :
    ∃ a0 a1 b0 b1 : ball ℝ,
      run_scenario Real.sqrt 100 = some [a0, a1]
      ∧ a1.z.x - a0.z.x = 59
      ∧ dist Real.sqrt a0 a1 ≠ 60
      ∧ run_scenario Real.sqrt 101 = some [b0, b1]
      ∧ dist Real.sqrt b0 b1 = 61.11
      ∧ dist Real.sqrt b0 b1 ≠ 60 := by
  obtain ⟨ke0, ke1, h⟩ := run_scenario_before isSqrt_real 100 le_rfl
  obtain ⟨e0, e1, h1⟩ := run_scenario_101 isSqrt_real
  rw [scenario_state_100] at h
  have hd : dist Real.sqrt (⟨⟨141, 128.0275⟩, ⟨1, 0.5⟩, 30, ke0⟩ : ball ℝ)
      ⟨⟨200, 128.0275⟩, ⟨0, 0.5⟩, 30, ke1⟩ = 59 := by
    unfold dist
    have e : ((200 : ℝ) - 141) ^ 2 + ((128.0275 : ℝ) - 128.0275) ^ 2 = 59 ^ 2 := by norm_num
    rw [e]
    exact Real.sqrt_sq (by norm_num)
  refine ⟨_, _, _, _, h, by norm_num, ?_, h1, scenario_dist_101 isSqrt_real e0 e1, ?_⟩
  · rw [hd]; norm_num
  · rw [scenario_dist_101 isSqrt_real]; norm_num


/-- C14, amended. In the two-ball scenario the x-distance after `k` ticks is
`170 - 1.11 * k` for `k ≤ 100`, so it is first below 60 after 100 ticks, where it is 59.
The pair resolver of the next tick leaves the centres exactly 60 apart; the `update` of
the same tick then moves the second ball by `1 * 0.005 * SCALE`, so that tick ends with
the centres `61.11` apart. -/
theorem scenario_separation (sqrt : K → K) (hs : IsSqrt sqrt) :
    (∀ k : Nat, k ≤ 100 → ∃ a0 a1 : ball K,
        run_scenario sqrt k = some [a0, a1] ∧ a1.z.x - a0.z.x = 170 - 1.11 * (k : K))
      ∧ ∃ a0 a1 c0 c1 b0 b1 : ball K,
          run_scenario sqrt 100 = some [a0, a1]
          ∧ a1.z.x - a0.z.x = 59
          ∧ collide_ball sqrt a0 a1 = some (c0, c1)
          ∧ dist sqrt c0 c1 = 60
          ∧ run_scenario sqrt 101 = some [b0, b1]
          ∧ dist sqrt b0 b1 = 60 + 1 * 0.005 * SCALE
          ∧ dist sqrt b0 b1 = 61.11 := by
  constructor
  · intro k hk
    obtain ⟨ke0, ke1, h⟩ := run_scenario_before hs k hk
    refine ⟨_, _, h, ?_⟩
    simp only
    ring
  · obtain ⟨ke0, ke1, h⟩ := run_scenario_before hs 100 le_rfl
    obtain ⟨e0, e1, h1⟩ := run_scenario_101 hs
    rw [scenario_state_100] at h
    refine ⟨_, _, _, _, _, _, h, by norm_num, scenario_resolve hs ke0 ke1,
      scenario_dist_resolved hs ke0 ke1, h1, ?_, scenario_dist_101 hs e0 e1⟩
    rw [scenario_dist_101 hs, scale_eq]
    norm_num

theorem scenario_separation_witness :
    (∀ k : Nat, k ≤ 100 → ∃ a0 a1 : ball ℝ,
        run_scenario Real.sqrt k = some [a0, a1] ∧ a1.z.x - a0.z.x = 170 - 1.11 * (k : ℝ))
      ∧ ∃ a0 a1 c0 c1 b0 b1 : ball ℝ,
          run_scenario Real.sqrt 100 = some [a0, a1]
          ∧ a1.z.x - a0.z.x = 59
          ∧ collide_ball Real.sqrt a0 a1 = some (c0, c1)
          ∧ dist Real.sqrt c0 c1 = 60
          ∧ run_scenario Real.sqrt 101 = some [b0, b1]
          ∧ dist Real.sqrt b0 b1 = 60 + 1 * 0.005 * SCALE
          ∧ dist Real.sqrt b0 b1 = 61.11 :=
  scenario_separation Real.sqrt isSqrt_real

/-- C15, as stated, fails in binary floating point. A ball at rest at `(300, 300)`,
the pointer at `(310, 320)`, `dt` the `float` nearest to `0.005`: the y component of
the pointer-induced velocity change is `-0.0556993978…` with the left button and
`0.0556993997…` with the right one, which is not its negation; and with the left
button the change is no multiple of the displacement `(-10, -20)`. -/
theorem update_fl_attract_not_negation :
    (∃ c0 cL cR : ball ℚ,
        update_fl fl32 fl32 sqrt32 ⟨⟨300, 300⟩, ⟨0, 0⟩, 10, 0⟩ (fl32 0.005) ⟨310, 320⟩
          false false = some c0
        ∧ update_fl fl32 fl32 sqrt32 ⟨⟨300, 300⟩, ⟨0, 0⟩, 10, 0⟩ (fl32 0.005) ⟨310, 320⟩
          true false = some cL
        ∧ update_fl fl32 fl32 sqrt32 ⟨⟨300, 300⟩, ⟨0, 0⟩, 10, 0⟩ (fl32 0.005) ⟨310, 320⟩
          false true = some cR
        ∧ cL.zdot.y - c0.zdot.y = -59806773 / 1073741824
        ∧ cR.zdot.y - c0.zdot.y = 59806775 / 1073741824
        ∧ cR.zdot.y - c0.zdot.y ≠ -(cL.zdot.y - c0.zdot.y)
        ∧ ¬ ∃ k : ℚ, cL.zdot.x - c0.zdot.x = k * (300 - ((310 : Int) : ℚ))
            ∧ cL.zdot.y - c0.zdot.y = k * (300 - ((320 : Int) : ℚ)))
    ∧ (∃ c0 cL cR : ball ℚ,
        update_fl fl32 fl64 sqrt64 ⟨⟨300, 300⟩, ⟨0, 0⟩, 10, 0⟩ (fl32 0.005) ⟨310, 320⟩
          false false = some c0
        ∧ update_fl fl32 fl64 sqrt64 ⟨⟨300, 300⟩, ⟨0, 0⟩, 10, 0⟩ (fl32 0.005) ⟨310, 320⟩
          true false = some cL
        ∧ update_fl fl32 fl64 sqrt64 ⟨⟨300, 300⟩, ⟨0, 0⟩, 10, 0⟩ (fl32 0.005) ⟨310, 320⟩
          false true = some cR
        ∧ cL.zdot.y - c0.zdot.y = -59806773 / 1073741824
        ∧ cR.zdot.y - c0.zdot.y = 59806775 / 1073741824
        ∧ cR.zdot.y - c0.zdot.y ≠ -(cL.zdot.y - c0.zdot.y)
        ∧ ¬ ∃ k : ℚ, cL.zdot.x - c0.zdot.x = k * (300 - ((310 : Int) : ℚ))
            ∧ cL.zdot.y - c0.zdot.y = k * (300 - ((320 : Int) : ℚ))) := by
  have hk : ¬ ∃ k : ℚ, (-7475847 / 268435456 : ℚ) - 0 = k * (300 - ((310 : Int) : ℚ))
      ∧ (-3402379 / 67108864 : ℚ) - 5368709 / 1073741824 = k * (300 - ((320 : Int) : ℚ)) := by
    rintro ⟨k, h1, h2⟩
    norm_num at h1 h2
    linarith
  exact ⟨⟨_, _, _, update_fl_rest32, update_fl_repel32, update_fl_attract32, by norm_num,
      by norm_num, by norm_num, hk⟩,
    ⟨_, _, _, update_fl_rest64, update_fl_repel64, update_fl_attract64, by norm_num,
      by norm_num, by norm_num, hk⟩⟩

/-- C15, amended. In exact arithmetic, for every ball, pointer position and `dt ≥ 0`,
the pointer-induced part of the velocity change of `update` with the right button
pressed (the left one pressed or not) is the negation of that part with the left button
only, and the latter is a non-negative multiple of the displacement from the pointer to
the ball. -/
theorem update_attract_negates_repel (sqrt : K → K) (hs : IsSqrt sqrt) (b : ball K) (dt : K)
    (m : Vector2i) (isLeft : Bool) (hdt : 0 ≤ dt) :
    ∃ c0 cL cR : ball K,
      update sqrt b dt m false false = some c0
      ∧ update sqrt b dt m true false = some cL
      ∧ update sqrt b dt m isLeft true = some cR
      ∧ cR.zdot.x - c0.zdot.x = -(cL.zdot.x - c0.zdot.x)
      ∧ cR.zdot.y - c0.zdot.y = -(cL.zdot.y - c0.zdot.y)
      ∧ ∃ k : K, 0 ≤ k
          ∧ cL.zdot.x - c0.zdot.x = k * (b.z.x - (m.x : K))
          ∧ cL.zdot.y - c0.zdot.y = k * (b.z.y - (m.y : K)) := by
  have hpos := mouse_divisor_pos hs b m
  have hS : (0 : K) < SCALE := scale_pos
  refine ⟨integrated 0 b dt m,
    integrated (1.0 / (d_to_mouse sqrt b m + 0.1) ^ 3) b dt m,
    integrated (-(1.0 / (d_to_mouse sqrt b m + 0.1) ^ 3)) b dt m, ?_, ?_, ?_, ?_, ?_,
    1.0 / (d_to_mouse sqrt b m + 0.1) ^ 3 / SCALE * dt, ?_, ?_, ?_⟩
  · rw [update_eq_integrated, accel_mouse_no_button]; rfl
  · rw [update_eq_integrated, accel_mouse_left hs]; rfl
  · rw [update_eq_integrated, accel_mouse_right hs]; rfl
  · simp only [integrated]; ring
  · simp only [integrated]; ring
  · exact mul_nonneg (div_nonneg (div_nonneg (by norm_num) hpos.le) hS.le) hdt
  · simp only [integrated]; ring
  · simp only [integrated]; ring

theorem update_attract_negates_repel_witness :
    ∃ c0 cL cR : ball ℝ,
      update Real.sqrt ⟨⟨222, 0⟩, ⟨0, 0⟩, 10, 0⟩ 1 ⟨0, 0⟩ false false = some c0
      ∧ update Real.sqrt ⟨⟨222, 0⟩, ⟨0, 0⟩, 10, 0⟩ 1 ⟨0, 0⟩ true false = some cL
      ∧ update Real.sqrt ⟨⟨222, 0⟩, ⟨0, 0⟩, 10, 0⟩ 1 ⟨0, 0⟩ true true = some cR
      ∧ cR.zdot.x - c0.zdot.x = -(cL.zdot.x - c0.zdot.x)
      ∧ cR.zdot.y - c0.zdot.y = -(cL.zdot.y - c0.zdot.y)
      ∧ ∃ k : ℝ, 0 ≤ k
          ∧ cL.zdot.x - c0.zdot.x = k * ((222 : ℝ) - ((0 : Int) : ℝ))
          ∧ cL.zdot.y - c0.zdot.y = k * ((0 : ℝ) - ((0 : Int) : ℝ)) :=
  update_attract_negates_repel Real.sqrt isSqrt_real ⟨⟨222, 0⟩, ⟨0, 0⟩, 10, 0⟩ 1 ⟨0, 0⟩ true
    (by norm_num)

/-- C18. For two balls with distinct centres `collide_ball` does not depend on the
order of its arguments: called on `(a, b)` or on `(b, a)` it leaves `a` the same and
`b` the same. -/
theorem collide_ball_symmetric (sqrt : K → K) (hs : IsSqrt sqrt) (a b : ball K)
    (hne : a.z ≠ b.z) :
    ∃ a' b' : ball K,
      collide_ball sqrt a b = some (a', b') ∧ collide_ball sqrt b a = some (b', a') := by
  by_cases hov : 0 ≤ overlap sqrt a b
  · refine ⟨(resolved sqrt a b).1, (resolved sqrt a b).2,
      collide_ball_eq_resolved hs hne hov, ?_⟩
    rw [collide_ball_eq_resolved hs (Ne.symm hne) (by rw [overlap_comm]; exact hov),
      resolved_swap]
  · have hlt : overlap sqrt a b < 0 := not_le.mp hov
    exact ⟨a, b, collide_ball_of_apart sqrt a b hlt,
      collide_ball_of_apart sqrt b a (by rw [overlap_comm]; exact hlt)⟩

theorem collide_ball_symmetric_witness :
    ∃ a' b' : ball ℝ,
      collide_ball Real.sqrt ⟨⟨0, 0⟩, ⟨1, 0⟩, 2, 0⟩ ⟨⟨3, 4⟩, ⟨0, -1⟩, 4, 0⟩ = some (a', b')
      ∧ collide_ball Real.sqrt ⟨⟨3, 4⟩, ⟨0, -1⟩, 4, 0⟩ ⟨⟨0, 0⟩, ⟨1, 0⟩, 2, 0⟩ = some (b', a') :=
  collide_ball_symmetric Real.sqrt isSqrt_real
    ⟨⟨0, 0⟩, ⟨1, 0⟩, 2, 0⟩ ⟨⟨3, 4⟩, ⟨0, -1⟩, 4, 0⟩ (by simp)

/-- C19. For a ball with `0 ≤ 2 * radius ≤ WINDOW_SIZE`, `collide_wall` is idempotent,
and on a ball with `radius ≤ x ≤ WINDOW_SIZE - radius` and
`radius ≤ y ≤ WINDOW_SIZE - radius` it changes nothing. -/
theorem collide_wall_idempotent (b : ball K) (_h0 : 0 ≤ 2 * b.radius)
    (hfit : 2 * b.radius ≤ (WINDOW_SIZE : K)) :
    collide_wall (collide_wall b) = collide_wall b
      ∧ (b.radius ≤ b.z.x → b.z.x ≤ (WINDOW_SIZE : K) - b.radius →
          b.radius ≤ b.z.y → b.z.y ≤ (WINDOW_SIZE : K) - b.radius → collide_wall b = b) := by
  obtain ⟨hr, hx1, hx2, hy1, hy2⟩ := collide_wall_within b hfit
  refine ⟨?_, collide_wall_of_inside b⟩
  apply collide_wall_of_inside <;> rw [hr] <;> assumption


theorem collide_wall_idempotent_witness :
    collide_wall (collide_wall (⟨⟨700, -5⟩, ⟨1, 2⟩, 20, 0⟩ : ball ℚ))
        = collide_wall (⟨⟨700, -5⟩, ⟨1, 2⟩, 20, 0⟩ : ball ℚ)
      ∧ collide_wall (⟨⟨300, 40⟩, ⟨1, 2⟩, 20, 0⟩ : ball ℚ) = ⟨⟨300, 40⟩, ⟨1, 2⟩, 20, 0⟩ :=
  ⟨(collide_wall_idempotent (⟨⟨700, -5⟩, ⟨1, 2⟩, 20, 0⟩ : ball ℚ) (by norm_num)
      (by norm_num [WINDOW_SIZE])).1,
    (collide_wall_idempotent (⟨⟨300, 40⟩, ⟨1, 2⟩, 20, 0⟩ : ball ℚ) (by norm_num)
      (by norm_num [WINDOW_SIZE])).2
      (by norm_num) (by norm_num [WINDOW_SIZE]) (by norm_num) (by norm_num [WINDOW_SIZE])⟩

/-- C20. `SCALE` is exactly `222`: the quotient `6671 / 30` is taken on integers, giving
`222`, and not the real quotient; `update` moves a ball by `velocity * dt * 222`. -/
theorem scale_truncated (sqrt : K → K) (b : ball K) (dt : K) (m : Vector2i)
    (isLeft isRight : Bool) :
    (SCALE : K) = 222
      ∧ PIXEL_PER_METER / ZOOM = (222 : Int)
      ∧ (SCALE : K) ≠ 6671 / 30
      ∧ ∀ c : ball K, update sqrt b dt m isLeft isRight = some c →
          c.z.x = b.z.x + c.zdot.x * dt * 222 ∧ c.z.y = b.z.y + c.zdot.y * dt * 222 := by
  refine ⟨scale_eq, by decide, by rw [scale_eq]; norm_num, ?_⟩
  intro c hc
  rw [update_eq_integrated] at hc
  cases ha : accel_mouse sqrt b m isLeft isRight with
  | none => rw [ha] at hc; cases hc
  | some a =>
    rw [ha] at hc
    cases hc
    simp [integrated, scale_eq]

theorem scale_truncated_witness :
    (update Real.sqrt ⟨⟨300, 300⟩, ⟨1, 2⟩, 10, 0⟩ 0.005 ⟨17, 40⟩ false false).isSome = true
    ∧ ∀ c : ball ℝ,
        update Real.sqrt ⟨⟨300, 300⟩, ⟨1, 2⟩, 10, 0⟩ 0.005 ⟨17, 40⟩ false false = some c →
          c.z.x = 300 + c.zdot.x * 0.005 * 222 ∧ c.z.y = 300 + c.zdot.y * 0.005 * 222 :=
  ⟨by rw [update_eq_integrated, accel_mouse_no_button]; rfl,
    (scale_truncated Real.sqrt (⟨⟨300, 300⟩, ⟨1, 2⟩, 10, 0⟩ : ball ℝ) 0.005 ⟨17, 40⟩
      false false).2.2.2⟩


end

end BouncingBallSim
